import Mathlib

/-!
DCC Monitor, communication protocol (`src/common/comm_proto.c`).

A shallow embedding of the frame encoder, the daisy-chain reception interrupt
handler and the relay routine `comm_forward`, together with theorems about the
wire format.

Bytes (`uint8_t`) are natural numbers below 256; where the C arithmetic can
leave that range (an addition) the embedding reduces modulo 256 explicitly.
Every call of `uart0_put` is recorded, in order, in a list of emitted bytes.
-/

namespace DCCMonitor

/-! ## Transmission: the frame encoder -/

/-- Transmission variables of `comm_proto.c`: the static `hi_bits` (most
significant bits of sent bytes, with a marker bit that counts them) and the
static `parity` (parity byte to be sent at the end of the packet). -/
structure Encoder where
  hi_bits : Nat
  parity : Nat
deriving DecidableEq, Repr

/-- `comm_start_frame`: the frame start byte (address 0, `proto`, MSB set) is
stored in `parity` and sent; `hi_bits` is set to the counting marker. The
previous transmission variables are overwritten without being read. -/
def comm_start_frame (_e : Encoder) (proto : Nat) : Encoder × List Nat :=
  let parity := (proto &&& 15) ||| (1 <<< 7)
  ({ hi_bits := 1 <<< 7, parity := parity }, [parity])

/-- `comm_send_byte`: send `c` with its MSB stripped, remember the MSB in
`hi_bits`, and send the `hi_bits` byte when the marker bit reaches bit 0. -/
def comm_send_byte (e : Encoder) (c : Nat) : Encoder × List Nat :=
  let temp_hi := if c &&& (1 <<< 7) ≠ 0 then (e.hi_bits >>> 1) ||| (1 <<< 7) else e.hi_bits >>> 1
  let temp_par := e.parity ^^^ c
  if temp_hi &&& 1 ≠ 0 then
    let temp_hi2 := temp_hi >>> 1
    ({ hi_bits := 1 <<< 7, parity := temp_par ^^^ temp_hi2 }, [c &&& 127, temp_hi2])
  else
    ({ hi_bits := temp_hi, parity := temp_par }, [c &&& 127])

/-- The loop `while (!(temp_hi & 1)) temp_hi >>= 1;` of `comm_end_frame`.
Each unit of fuel pays for one evaluation of the loop condition; `none` means
the fuel ran out with the condition still true. -/
def end_frame_shift : Nat → Nat → Option Nat
  | 0, _ => none
  | fuel + 1, temp_hi =>
    if temp_hi &&& 1 = 0 then end_frame_shift fuel (temp_hi >>> 1) else some temp_hi

/-- `comm_end_frame` with the shift loop running on `fuel`: sends the remaining
`hi_bits`, if any, and the parity byte with bit 7 stripped. The transmission
variables are not written. -/
def comm_end_frame_fuel (fuel : Nat) (e : Encoder) : Option (List Nat) :=
  if e.hi_bits ≠ 1 <<< 7 then
    match end_frame_shift fuel e.hi_bits with
    | none => none
    | some t =>
      let temp_hi := t >>> 1
      some [temp_hi, (e.parity ^^^ temp_hi) &&& 127]
  else
    some [e.parity &&& 127]

/-- `comm_end_frame`: a byte has 8 bits, so 8 evaluations of the loop condition
are enough for every non-zero `hi_bits`; with `hi_bits = 0` the C loop does not
terminate and the result is `none`. -/
def comm_end_frame (e : Encoder) : Option (List Nat) :=
  comm_end_frame_fuel 8 e

/-- The calls `comm_send_byte (b_1)`, ..., `comm_send_byte (b_n)` in sequence:
the final transmission variables and all bytes sent. -/
def send_bytes : Encoder → List Nat → Encoder × List Nat
  | e, [] => (e, [])
  | e, c :: cs =>
    let r := comm_send_byte e c
    let r2 := send_bytes r.1 cs
    (r2.1, r.2 ++ r2.2)

/-- The call sequence `comm_start_frame (proto)`, `comm_send_byte (b_1)`, ...,
`comm_send_byte (b_n)`, `comm_end_frame ()` started with transmission variables
`e`: all bytes sent, in order. -/
def encode_frame (e : Encoder) (proto : Nat) (payload : List Nat) : Option (List Nat) :=
  let r := comm_start_frame e proto
  let r2 := send_bytes r.1 payload
  match comm_end_frame r2.1 with
  | none => none
  | some tl => some (r.2 ++ r2.2 ++ tl)

/-- Transmission variables at power-up (zero-initialised statics). -/
def Encoder.init : Encoder := { hi_bits := 0, parity := 0 }

/-! ## The wire format as the specification words it -/

/-- XOR of all bytes of a list. -/
def xor_all : List Nat → Nat
  | [] => 0
  | b :: bs => b ^^^ xor_all bs

/-- The side-channel byte of a run of payload bytes: bit `i` is the top bit
(bit 7) of the run's `(i+1)`-th byte, the bits above the run length are zero. -/
def side_channel_byte : List Nat → Nat
  | [] => 0
  | b :: bs => (b.testBit 7).toNat + 2 * side_channel_byte bs

/-- The body of a frame on the wire: for each consecutive run of up to 7 payload
bytes the clipped bytes in order, followed by the run's side-channel byte. The
first argument bounds the number of runs. -/
def wire_runs : Nat → List Nat → List Nat
  | 0, _ => []
  | n + 1, bs =>
    if bs = [] then []
    else (bs.take 7).map (fun b => b &&& 127) ++ [side_channel_byte (bs.take 7)]
      ++ wire_runs n (bs.drop 7)

/-- The side-channel bytes of a frame, one for each run of up to 7 payload
bytes. The first argument bounds the number of runs. -/
def side_channel_bytes : Nat → List Nat → List Nat
  | 0, _ => []
  | n + 1, bs =>
    if bs = [] then []
    else side_channel_byte (bs.take 7) :: side_channel_bytes n (bs.drop 7)

/-- The frame start byte for address 0 and the given protocol number. -/
def frame_start_byte (proto : Nat) : Nat := 0x80 ||| (proto &&& 15)

/-- The checksum byte: start byte XOR all unclipped payload bytes XOR all
side-channel bytes, with the top bit cleared. -/
def frame_checksum (proto : Nat) (payload : List Nat) : Nat :=
  (frame_start_byte proto ^^^ xor_all payload
    ^^^ xor_all (side_channel_bytes payload.length payload)) &&& 0x7F

/-- The wire sequence of a frame as the specification describes it: start byte,
the runs with their side-channel bytes, checksum byte. -/
def frame_wire (proto : Nat) (payload : List Nat) : List Nat :=
  frame_start_byte proto :: (wire_runs payload.length payload ++ [frame_checksum proto payload])

/-- Invariant shape of `hi_bits` while a run is in progress: after `k` bytes of
the current run whose top bits (first byte in bit 0) form the number `s`, the
marker has moved down `k` places and the top bits sit above it. -/
def run_hi (k s : Nat) : Nat := 2 ^ (7 - k) * (1 + 2 * s)

/-! ## Reception: the circular buffer, the interrupt handler and the relay -/

/-- `UART1_RX_BUFSIZE` of `global.h`. -/
def UART1_RX_BUFSIZE : Nat := 32

/-- `CHAIN_OVERFLOW_BIT`: bit 0 of `global_prot_var`. -/
def CHAIN_OVERFLOW_BIT : Nat := 1 <<< 0

/-- Error code passed in the circular buffer: malformed packet. -/
def RECV_ERR_MALFORMED : Nat := 0xF2
/-- Error code passed in the circular buffer: chain too long. -/
def RECV_ERR_CHAIN_LONG : Nat := 0xF3
/-- Error code passed in the circular buffer: hard overflow. -/
def RECV_ERR_H_OVERFLOW : Nat := 0xF5

/-- `circ_buf_incr_ptr` of `global.h`, returning the new value of `*pointer`.
The operands of `bufsize - 1` are promoted to `int`: for `bufsize = 0` the
value is `-1`, whose bits are all set, so the mask keeps `*pointer + 1`; the
result is stored in a byte. -/
def circ_buf_incr_ptr (pointer bufsize : Nat) : Nat :=
  if bufsize &&& (bufsize - 1) ≠ 0 then
    if pointer ≥ bufsize - 1 then 0 else (pointer + 1) % 256
  else if bufsize = 0 then (pointer + 1) % 256
  else ((pointer + 1) &&& (bufsize - 1)) % 256

/-- Writing one slot of a buffer. -/
def buf_set (buf : Nat → Nat) (i v : Nat) : Nat → Nat :=
  fun j => if j = i then v else buf j

/-- `append_circ_buf` of `global.h`: the buffer, the new value of `*head` and
the return value (non-zero when the buffer is full). -/
def append_circ_buf (buf : Nat → Nat) (bufsize c head tail : Nat) : (Nat → Nat) × Nat × Int :=
  if head = tail then (buf, head, -1)
  else (buf_set buf head c, circ_buf_incr_ptr head bufsize, 0)

/-- The reception variables: `uart1_rx_buffer` (`buf`, `head`, `tail`), the
static `write_pos` of the interrupt routine and the shared `global_prot_var`. -/
structure RxState where
  buf : Nat → Nat
  head : Nat
  tail : Nat
  write_pos : Nat
  global_prot_var : Nat

/-- Power-up state: all variables are zero-initialised statics. -/
def RxState.init : RxState :=
  { buf := fun _ => 0, head := 0, tail := 0, write_pos := 0, global_prot_var := 0 }

/-- `errcode_and_framebyte`: drop the current frame, emit error code `err` and
start a new frame with `framebyte`. `write_pos` is the value `*write_pos` has
on entry; the second component is its value on return. -/
def errcode_and_framebyte (s : RxState) (err framebyte write_pos head tail : Nat) :
    RxState × Nat :=
  let next_write_pos := circ_buf_incr_ptr head UART1_RX_BUFSIZE
  if next_write_pos = tail then
    let s1 := { s with global_prot_var := s.global_prot_var ||| CHAIN_OVERFLOW_BIT }
    if framebyte ≥ 0xF0 then
      ({ s1 with buf := buf_set s1.buf head 0 }, write_pos)
    else
      ({ s1 with buf := buf_set s1.buf head framebyte }, next_write_pos)
  else
    let s1 := { s with buf := buf_set s.buf head err }
    if framebyte ≥ 0xF0 then
      let head2 := next_write_pos
      let next_write_pos2 := circ_buf_incr_ptr next_write_pos UART1_RX_BUFSIZE
      if next_write_pos2 = tail then
        ({ s1 with global_prot_var := s1.global_prot_var ||| CHAIN_OVERFLOW_BIT,
                   buf := buf_set s1.buf head2 0, head := head2 }, write_pos)
      else
        ({ s1 with buf := buf_set (buf_set s1.buf head2 RECV_ERR_CHAIN_LONG) next_write_pos2 0,
                   head := next_write_pos2 }, write_pos)
    else
      ({ s1 with buf := buf_set s1.buf next_write_pos framebyte, head := next_write_pos },
        circ_buf_incr_ptr next_write_pos UART1_RX_BUFSIZE)

/-- The interrupt routine `ISR(USART1_RXC_vect)`: one received byte `udr1` with
the line-status flags `fe1` (framing error) and `dor1` (data overrun) of
`UCSR1A`. -/
def ISR_USART1_RXC (s : RxState) (fe1 dor1 : Bool) (udr1 : Nat) : RxState :=
  let temp_head := s.head
  let temp_tail := s.tail
  if fe1 then
    -- the local temp_write_pos receives the new write position and is dropped
    (errcode_and_framebyte s RECV_ERR_MALFORMED 0 0 temp_head temp_tail).1
  else if dor1 then
    let recv := udr1
    let r := errcode_and_framebyte s RECV_ERR_H_OVERFLOW recv s.write_pos temp_head temp_tail
    { r.1 with write_pos := r.2 }
  else
    let recv := udr1
    let prev_frame_start := s.buf temp_head
    if prev_frame_start &&& (1 <<< 7) = 0 then
      -- we were discarding databytes
      if recv &&& (1 <<< 7) = 0 then s
      else if recv ≥ 0xF0 then
        (errcode_and_framebyte s RECV_ERR_CHAIN_LONG 0 0 temp_head temp_tail).1
      else
        { s with buf := buf_set s.buf temp_head recv,
                 write_pos := circ_buf_incr_ptr temp_head UART1_RX_BUFSIZE }
    else
      let temp_write_pos := s.write_pos
      if recv &&& (1 <<< 7) = 0 then
        -- a databyte of the current frame
        let a := append_circ_buf s.buf UART1_RX_BUFSIZE recv temp_write_pos temp_tail
        if a.2.2 = 0 then
          { s with buf := a.1, write_pos := a.2.1 }
        else if temp_head = temp_tail then
          let wp := circ_buf_incr_ptr temp_head UART1_RX_BUFSIZE
          { s with buf := buf_set (buf_set a.1 temp_head RECV_ERR_MALFORMED) wp 0, head := wp }
        else
          { s with global_prot_var := s.global_prot_var ||| CHAIN_OVERFLOW_BIT,
                   buf := buf_set a.1 temp_head 0 }
      else if s.write_pos = temp_tail then
        -- start of a frame, the buffer is full
        if temp_head = temp_tail then
          let wp := circ_buf_incr_ptr temp_head UART1_RX_BUFSIZE
          { s with buf := buf_set (buf_set s.buf temp_head RECV_ERR_MALFORMED) wp recv,
                   head := wp,
                   write_pos := circ_buf_incr_ptr wp UART1_RX_BUFSIZE }
        else
          let s1 := { s with global_prot_var := s.global_prot_var ||| CHAIN_OVERFLOW_BIT }
          if recv ≥ 0xF0 then
            (errcode_and_framebyte s1 RECV_ERR_CHAIN_LONG 0 temp_write_pos temp_head temp_tail).1
          else
            { s1 with buf := buf_set s1.buf temp_head recv,
                      write_pos := circ_buf_incr_ptr temp_head UART1_RX_BUFSIZE }
      else if recv ≥ 0xF0 then
        (errcode_and_framebyte s RECV_ERR_CHAIN_LONG 0 temp_write_pos temp_write_pos temp_tail).1
      else
        { s with buf := buf_set s.buf temp_write_pos recv,
                 head := temp_write_pos,
                 write_pos := circ_buf_incr_ptr temp_write_pos UART1_RX_BUFSIZE }

/-- `report_overflow`: the state, the bytes sent and the return value
(non-zero when overflow has been reported). -/
def report_overflow (s : RxState) : RxState × List Nat × Int :=
  if s.global_prot_var &&& CHAIN_OVERFLOW_BIT = 0 then (s, [], 0)
  else ({ s with global_prot_var := s.global_prot_var &&& (255 - CHAIN_OVERFLOW_BIT) },
    [0x80, 0x04, 0x00, 0x04], -1)

/-- The second loop of `comm_forward`: output the databytes verbatim and the
last one, the parity byte, corrected. `old_data` is the byte read last and not
yet sent; the local `temp_tail` always equals the `tail` it was stored to.
Each unit of fuel pays for one evaluation of the loop condition. -/
def forward_data (temp_head parity_correct : Nat) : Nat → RxState → Nat → Option (RxState × List Nat)
  | 0, _, _ => none
  | fuel + 1, s, old_data =>
    if temp_head ≠ s.tail ∧ s.buf s.tail &&& (1 <<< 7) = 0 then
      let new_data := s.buf s.tail
      match forward_data temp_head parity_correct fuel
          { s with tail := circ_buf_incr_ptr s.tail UART1_RX_BUFSIZE } new_data with
      | none => none
      | some (s2, out) => some (s2, old_data :: out)
    else
      some (s, [old_data ^^^ parity_correct])

/-- The first loop of `comm_forward` and, once it is left, the rest of the
routine. `frame_start` is the frame start byte read last; the local
`temp_tail` always equals the `tail` it was stored to. Each unit of fuel pays
for one evaluation of the loop condition; the second loop has `fuel2`. -/
def forward_unit (temp_head fuel2 : Nat) : Nat → RxState → Nat → Option (RxState × List Nat × Int)
  | 0, _, _ => none
  | fuel + 1, s, frame_start =>
    if s.tail = temp_head ∨ s.buf s.tail &&& (1 <<< 7) ≠ 0 then
      -- this is a one-byte frame
      if frame_start = 0x80 then
        if s.tail = temp_head then some (report_overflow s)
        else
          forward_unit temp_head fuel2 fuel
            { s with tail := circ_buf_incr_ptr s.tail UART1_RX_BUFSIZE } (s.buf s.tail)
      else if frame_start = RECV_ERR_CHAIN_LONG then
        let r := report_overflow s
        some (r.1, [0x80, 0x03, 0x00, 0x03] ++ r.2.1, -1)
      else if frame_start = RECV_ERR_H_OVERFLOW then
        let r := report_overflow s
        some (r.1, [0x80, 0x05, 0x00, 0x05] ++ r.2.1, -1)
      else
        let r := report_overflow s
        some (r.1, [0x80, 0x02, 0x00, 0x02] ++ r.2.1, -1)
    else
      let new_data := s.buf s.tail
      let s1 := { s with tail := circ_buf_incr_ptr s.tail UART1_RX_BUFSIZE }
      let frame_start2 := (frame_start + (1 <<< 4)) % 256
      let parity_correct := frame_start ^^^ frame_start2
      match forward_data temp_head parity_correct fuel2 s1 new_data with
      | none => none
      | some (s2, out) =>
        let r := report_overflow s2
        some (r.1, frame_start2 :: out ++ r.2.1, -1)

/-- `comm_forward` with the two loops running on `fuel`: the state, all bytes
sent and the return value. -/
def comm_forward_fuel (fuel : Nat) (s : RxState) : Option (RxState × List Nat × Int) :=
  let temp_head := s.head
  let temp_tail := s.tail
  if temp_head = temp_tail then some (report_overflow s)
  else
    let frame_start := s.buf temp_tail
    forward_unit temp_head fuel fuel
      { s with tail := circ_buf_incr_ptr temp_tail UART1_RX_BUFSIZE } frame_start

/-- `comm_forward`: the buffer has 32 slots and every pass through a loop moves
`tail` one slot towards `head`, so 32 evaluations of each loop condition are
enough whenever `head` and `tail` are buffer indices. -/
def comm_forward (s : RxState) : Option (RxState × List Nat × Int) :=
  comm_forward_fuel 32 s

/-- The interrupt routine run on a sequence of received bytes with their
line-status flags `(fe1, dor1, udr1)`. -/
def receive_all : RxState → List (Bool × Bool × Nat) → RxState
  | s, [] => s
  | s, x :: xs => receive_all (ISR_USART1_RXC s x.1 x.2.1 x.2.2) xs

/-- The unit at `tail` is the closed frame `frame`: its bytes are stored in the
slots from `tail` on, they all lie in the unread region `[tail, head)`, and the
frame ends where the unread region ends or where the next byte with its top bit
set follows. -/
def frame_at_tail (s : RxState) (frame : List Nat) : Prop :=
  frame.length ≤ (s.head + 32 - s.tail) % 32 ∧
  (∀ i, i < frame.length → s.buf ((s.tail + i) % 32) = frame.getD i 0) ∧
  (frame.length = (s.head + 32 - s.tail) % 32 ∨
    s.buf ((s.tail + frame.length) % 32) &&& (1 <<< 7) ≠ 0)

instance (s : RxState) (frame : List Nat) : Decidable (frame_at_tail s frame) := by
  unfold frame_at_tail; infer_instance

/-- The bytes of a frame after its start byte as the relay sends them on: all
verbatim but the last one, which is XORed with the parity correction.
`old_data` is the first of them, `rest` the others. -/
def relay_body : Nat → List Nat → Nat → List Nat
  | old_data, [], parity_correct => [old_data ^^^ parity_correct]
  | old_data, b :: rest, parity_correct => old_data :: relay_body b rest parity_correct

/-- A received byte without line error. -/
def rx_ok (b : Nat) : Bool × Bool × Nat := (false, false, b)

/-- Reception of the frame `A5 10 00 35` (address 2, protocol 5, payload `10`)
followed by the start byte of the next frame. -/
def relay_example : List (Bool × Bool × Nat) :=
  [rx_ok 0xA5, rx_ok 0x10, rx_ok 0x00, rx_ok 0x35, rx_ok 0x80]

/-- A frame of 32 bytes (start byte `80` and 31 body bytes `00`), then a frame
with address 7 (`F0 70`), then the start byte of a further frame; no line
errors. -/
def address7_trace : List (Bool × Bool × Nat) :=
  rx_ok 0x80 :: (List.replicate 31 (rx_ok 0x00) ++ [rx_ok 0xF0, rx_ok 0x70, rx_ok 0x80])

/-- The unread region `[tail, head)` of the circular buffer as a list of bytes,
the byte at `tail` first. -/
def region_bytes (s : RxState) : List Nat :=
  (List.range ((s.head + 32 - s.tail) % 32)).map (fun i => s.buf ((s.tail + i) % 32))

/-- The fixed management frame `comm_forward` sends for a one-byte unit other
than the idle frame, by the `switch` on the unit's byte. -/
def management_frame (frame_start : Nat) : List Nat :=
  if frame_start = RECV_ERR_CHAIN_LONG then [0x80, 0x03, 0x00, 0x03]
  else if frame_start = RECV_ERR_H_OVERFLOW then [0x80, 0x05, 0x00, 0x05]
  else [0x80, 0x02, 0x00, 0x02]

/-- The second loop of `comm_forward` read on the list of unread bytes that
follow `old_data`: the bytes sent and the number of bytes consumed. -/
def relay_data_list (parity_correct : Nat) : Nat → List Nat → List Nat × Nat
  | old_data, [] => ([old_data ^^^ parity_correct], 0)
  | old_data, b :: rest =>
    if b &&& (1 <<< 7) = 0 then
      (old_data :: (relay_data_list parity_correct b rest).1,
        (relay_data_list parity_correct b rest).2 + 1)
    else ([old_data ^^^ parity_correct], 0)

/-- The first loop of `comm_forward` and what follows it, read on the list of
unread bytes that follow `frame_start`: the bytes sent before the overflow
report, the number of bytes consumed, and whether a frame was sent. -/
def relay_unit_list : Nat → List Nat → List Nat × Nat × Bool
  | frame_start, [] =>
    if frame_start = 0x80 then ([], 0, false) else (management_frame frame_start, 0, true)
  | frame_start, b :: rest =>
    if b &&& (1 <<< 7) ≠ 0 then
      if frame_start = 0x80 then
        ((relay_unit_list b rest).1, (relay_unit_list b rest).2.1 + 1, (relay_unit_list b rest).2.2)
      else (management_frame frame_start, 0, true)
    else
      (((frame_start + (1 <<< 4)) % 256) ::
          (relay_data_list (frame_start ^^^ ((frame_start + (1 <<< 4)) % 256)) b rest).1,
        (relay_data_list (frame_start ^^^ ((frame_start + (1 <<< 4)) % 256)) b rest).2 + 1, true)

/-- `comm_forward` read on the list of unread bytes: the bytes sent before the
overflow report, the number of bytes consumed, and whether a frame was sent. -/
def relay_list : List Nat → List Nat × Nat × Bool
  | [] => ([], 0, false)
  | frame_start :: rest =>
    ((relay_unit_list frame_start rest).1, (relay_unit_list frame_start rest).2.1 + 1,
      (relay_unit_list frame_start rest).2.2)

/-- The frame `comm_forward` sends for one unit of the buffer: nothing for the
idle frame `80`, a fixed management frame for any other one-byte unit, and for
a data frame the start byte with the address raised by one, followed by the
body with the last byte corrected. -/
def unit_frame : List Nat → List Nat
  | [] => []
  | [frame_start] => if frame_start = 0x80 then [] else management_frame frame_start
  | frame_start :: b :: body =>
    ((frame_start + (1 <<< 4)) % 256) ::
      relay_body b body (frame_start ^^^ ((frame_start + (1 <<< 4)) % 256))

/-- Reception of two idle frames and the frame `A5 10 00 35`, followed by the
start byte of the next frame. -/
def idle_example : List (Bool × Bool × Nat) :=
  [rx_ok 0x80, rx_ok 0x80, rx_ok 0xA5, rx_ok 0x10, rx_ok 0x00, rx_ok 0x35, rx_ok 0x81]

/-- Reception of two idle frames, followed by the start byte of a frame. -/
def idle_only_example : List (Bool × Bool × Nat) :=
  [rx_ok 0x80, rx_ok 0x80, rx_ok 0x81]

/-- The open frame at `head` starting at `h` with write position `w` fits in
the buffer beside the unread region that starts at `t`: it fills all 32 slots
when the region is empty, or it has between 1 and `32 - (h - t) mod 32` bytes. -/
def open_frame_fits (w h t : Nat) : Prop :=
  ((w + 32 - h) % 32 = 0 ∧ h = t) ∨
  (1 ≤ (w + 32 - h) % 32 ∧ (w + 32 - h) % 32 + (h + 32 - t) % 32 ≤ 32)

/-- Invariant of the reception variables: `head` and `tail` are buffer indices,
a non-empty unread region starts with a byte whose top bit is set, and while
the byte at `head` starts a frame, `write_pos` is a buffer index and the open
frame fits beside the unread region. -/
def rx_inv (s : RxState) : Prop :=
  s.head < 32 ∧ s.tail < 32 ∧
  (s.head ≠ s.tail → s.buf s.tail &&& (1 <<< 7) ≠ 0) ∧
  (s.buf s.head &&& (1 <<< 7) ≠ 0 →
    s.write_pos < 32 ∧ open_frame_fits s.write_pos s.head s.tail)

/-- The states reachable from the power-up state by reception-handler steps
(any received byte, any line-status flags) and complete `comm_forward` calls. -/
inductive Reachable : RxState → Prop
  | init : Reachable RxState.init
  | isr (s : RxState) (fe1 dor1 : Bool) (udr1 : Nat) :
      Reachable s → udr1 < 256 → Reachable (ISR_USART1_RXC s fe1 dor1 udr1)
  | forward (s s2 : RxState) (out : List Nat) (ret : Int) :
      Reachable s → comm_forward s = some (s2, out, ret) → Reachable s2

/-- The sticky overflow flag, bit 0 of `global_prot_var`, is set. -/
def overflow_flag (s : RxState) : Prop := s.global_prot_var &&& CHAIN_OVERFLOW_BIT ≠ 0

/-- The byte at `head` starts a frame: there is a valid open frame. -/
def open_frame_valid (s : RxState) : Prop := s.buf s.head &&& (1 <<< 7) ≠ 0

/-- The number of bytes of the open frame, from `head` up to `write_pos`. -/
def open_frame_length (s : RxState) : Nat := (s.write_pos + 31 - s.head) % 32 + 1

/-- A handler step from `s` to `s2` keeps the open frame: its bytes are
unchanged and it is either still open (nothing or one byte appended) or
published (`head` moved to its end, or one slot further behind an error
code). -/
def open_frame_kept (s s2 : RxState) : Prop :=
  (∀ i, i < open_frame_length s → s2.buf ((s.head + i) % 32) = s.buf ((s.head + i) % 32)) ∧
  ((s2.head = s.head ∧ (s2.write_pos = s.write_pos ∨ s2.write_pos = (s.write_pos + 1) % 32)) ∨
   (s2.head ≠ s.head ∧ (s2.head = s.write_pos ∨ s2.head = (s.write_pos + 1) % 32)))

/-- A handler step from `s` to `s2` discards the open frame. -/
def discards_open_frame (s s2 : RxState) : Prop :=
  open_frame_valid s ∧ ¬ open_frame_kept s s2

/-- After the step the received byte `udr1` is the start of the open frame. -/
def frame_start_admitted (udr1 : Nat) (s2 : RxState) : Prop :=
  s2.buf s2.head = udr1 ∧ s2.write_pos = (s2.head + 1) % 32

/-- The step refuses the incoming frame-start byte: a byte with its top bit set
arrived without framing error and is not the start of the open frame
afterwards. -/
def refuses_frame_start (fe1 : Bool) (udr1 : Nat) (s2 : RxState) : Prop :=
  fe1 = false ∧ udr1 &&& (1 <<< 7) ≠ 0 ∧ ¬ frame_start_admitted udr1 s2

/-- The step from `s` to `s2` writes an error code for a discarded frame into
the buffer: one of the slots it publishes holds the malformed-packet or the
hard-overflow code. -/
def discard_code_written (s s2 : RxState) : Prop :=
  ∃ i, i < (s2.head + 32 - s.head) % 32 ∧
    (s2.buf ((s.head + i) % 32) = RECV_ERR_MALFORMED ∨
     s2.buf ((s.head + i) % 32) = RECV_ERR_H_OVERFLOW)

/-- The step from `s` to `s2` writes an error code for a refused frame-start
byte into the buffer: one of the slots it publishes holds the chain-too-long
code. -/
def refusal_code_written (s s2 : RxState) : Prop :=
  ∃ i, i < (s2.head + 32 - s.head) % 32 ∧ s2.buf ((s.head + i) % 32) = RECV_ERR_CHAIN_LONG

/-- What one handler step from `s` to `s2` guarantees: the invariant, an
untouched `tail` and unread region, `head` short of `tail`, and no silent
loss of the open frame or of the incoming frame-start byte. -/
def isr_step_ok (s : RxState) (fe1 : Bool) (udr1 : Nat) (s2 : RxState) : Prop :=
  rx_inv s2 ∧ s2.tail = s.tail ∧
  (s.head + 32 - s.tail) % 32 + (s2.head + 32 - s.head) % 32 < 32 ∧
  (∀ i, i < (s.head + 32 - s.tail) % 32 →
    s2.buf ((s.tail + i) % 32) = s.buf ((s.tail + i) % 32)) ∧
  (open_frame_valid s →
    open_frame_kept s s2 ∨ overflow_flag s2 ∨ discard_code_written s s2) ∧
  (fe1 = false → udr1 &&& (1 <<< 7) ≠ 0 →
    frame_start_admitted udr1 s2 ∨ overflow_flag s2 ∨ refusal_code_written s s2)

/-- A unit of the buffer: a byte with its top bit set followed by its body
bytes, which have the top bit clear. -/
def is_unit (u : List Nat) : Prop :=
  ∃ S body, u = S :: body ∧ S &&& (1 <<< 7) ≠ 0 ∧ ∀ b ∈ body, b &&& (1 <<< 7) = 0

instance (s : RxState) : Decidable (overflow_flag s) := by
  unfold overflow_flag; infer_instance

instance (s : RxState) : Decidable (open_frame_valid s) := by
  unfold open_frame_valid; infer_instance

instance (s s2 : RxState) : Decidable (open_frame_kept s s2) := by
  unfold open_frame_kept; infer_instance

instance (s s2 : RxState) : Decidable (discards_open_frame s s2) := by
  unfold discards_open_frame; infer_instance

instance (udr1 : Nat) (s2 : RxState) : Decidable (frame_start_admitted udr1 s2) := by
  unfold frame_start_admitted; infer_instance

instance (fe1 : Bool) (udr1 : Nat) (s2 : RxState) :
    Decidable (refuses_frame_start fe1 udr1 s2) := by
  unfold refuses_frame_start; infer_instance

instance (s s2 : RxState) : Decidable (discard_code_written s s2) := by
  unfold discard_code_written; infer_instance

instance (s s2 : RxState) : Decidable (refusal_code_written s s2) := by
  unfold refusal_code_written; infer_instance

/-- Reception of the frame `81 01` and of the start byte `82` followed by 29
body bytes: the closed frame and the open frame fill all 32 slots. -/
def full_example : List (Bool × Bool × Nat) :=
  rx_ok 0x81 :: rx_ok 0x01 :: rx_ok 0x82 :: List.replicate 29 (rx_ok 0x00)

/-- Reception of the start byte `80` and 30 body bytes: the open frame has 31
bytes and one slot of the buffer is left. -/
def almost_full_trace : List (Bool × Bool × Nat) :=
  rx_ok 0x80 :: List.replicate 30 (rx_ok 0x00)

/-- Reception of the start byte `80` and 31 body bytes: the open frame fills
all 32 slots of the buffer. -/
def whole_buffer_trace : List (Bool × Bool × Nat) :=
  rx_ok 0x80 :: List.replicate 31 (rx_ok 0x00)

/-- Reception without line error of a frame, start byte `S` and the body bytes
`body`, followed by the start byte `S2` of the next frame. -/
def frame_trace (S : Nat) (body : List Nat) (S2 : Nat) : List (Bool × Bool × Nat) :=
  rx_ok S :: (body.map rx_ok ++ [rx_ok S2])

/-! ## Timing: the idle timer and the synchronisation pause -/

/-- `F_CPU` of `global.h`: the CPU clock frequency in Hz. -/
def F_CPU : Nat := 11059200

/-- `UART_BAUD` of `global.h`: the bit rate of the serial lines. -/
def UART_BAUD : Nat := 57600

/-- `div_round` of `timer.h`: rounded integer division in `uint64_t`. -/
def div_round (dividend divisor : Nat) : Nat :=
  (dividend + divisor / 2) % 2 ^ 64 / divisor

/-- `div_round_up` of `timer.h`: integer division rounding up, in `uint64_t`. -/
def div_round_up (dividend divisor : Nat) : Nat :=
  (dividend + divisor + (2 ^ 64 - 1)) % 2 ^ 64 / divisor

/-- `rtc_period` of `timer.h`: the 16-bit counter value that corresponds to the
given number of microticks for a timer running at the /1024 prescaler. -/
def rtc_period (uticks : Nat) : Nat := div_round uticks 1024000000 % 2 ^ 16

/-- `rtc_period_least` of `timer.h`: the 16-bit counter value that corresponds
to at least the given number of microticks. -/
def rtc_period_least (uticks : Nat) : Nat := div_round_up uticks 1024000000 % 2 ^ 16

/-- The macro `mseconds` of `timer.h`: `n mseconds` expands to
`n * 1000ULL * 1ULL * F_CPU`, the number of microticks in `n` milliseconds. -/
def mseconds (n : Nat) : Nat := n * 1000 * 1 * F_CPU % 2 ^ 64

/-- `comm_start_idle_timer`: the new value of the static `last_byte_time`. -/
def comm_start_idle_timer (_last_byte_time : Nat) : Nat := 0

/-- `comm_check_idle_timer (now)`: `last_byte_time` is the static variable on
entry, `txc0` the transmit-complete bit `TXC0` of `UCSR0A`; the result is the
new `last_byte_time` and the bytes sent. -/
def comm_check_idle_timer (last_byte_time now : Nat) (txc0 : Bool) : Nat × List Nat :=
  let now_hi := ((now % 2 ^ 16) >>> 8) % 256
  let temp_last := last_byte_time
  if temp_last = 0 then
    if txc0 then
      if now_hi = 0 ∨ now_hi = 1 then (255, []) else (now_hi, [])
    else (last_byte_time, [])
  else if temp_last = 1 then (last_byte_time, [])
  else
    let idle_time := (now_hi + 256 - temp_last % 256) % 256
    if idle_time > rtc_period (mseconds 100) >>> 8 then (1, [0x80])
    else (last_byte_time, [])

/-- A sequence of `comm_check_idle_timer` calls, each with its argument `now`
and the reading of `TXC0`: the final `last_byte_time` and all bytes sent. -/
def idle_polls : Nat → List (Nat × Bool) → Nat × List Nat
  | l, [] => (l, [])
  | l, c :: cs =>
    ((idle_polls (comm_check_idle_timer l c.1 c.2).1 cs).1,
      (comm_check_idle_timer l c.1 c.2).2 ++ (idle_polls (comm_check_idle_timer l c.1 c.2).1 cs).2)

/-- The busy-wait loop of `comm_sync_pause` on the successive values read from
`TCNT1L`: the index of the reading at which the loop is left, `none` when the
readings run out with the loop condition still true. -/
def sync_pause_wait (pause_start : Nat) : List Nat → Option Nat
  | [] => none
  | tcnt1l :: rest =>
    let pause_duration := (tcnt1l + 256 - pause_start % 256) % 256
    if pause_duration < rtc_period_least (F_CPU * 9 * 1000000 % 2 ^ 64 / UART_BAUD) + 1 then
      (sync_pause_wait pause_start rest).map (fun i => i + 1)
    else some 0

/-- The register `TCNT1L` as a function of the CPU clock: `main.c` starts
TIMER1 in normal mode with the prescaler /1024, so the counter advances by one
every 1024 clock ticks. `phase` is the number of clock ticks the prescaler and
the counter have counted at time 0, `t` the clock ticks since. -/
def TCNT1L (phase t : Nat) : Nat := (phase + t) / 1024 % 256

/-! ## Units of the unread region -/

/-- The bytes of the open frame, from `head` up to `write_pos`. -/
def open_frame_bytes (s : RxState) : List Nat :=
  (List.range (open_frame_length s)).map (fun i => s.buf ((s.head + i) % 32))

/-- The bytes a handler step from `s` to `s2` publishes: the slots from the old
`head` up to the new `head`. -/
def published_bytes (s s2 : RxState) : List Nat :=
  (List.range ((s2.head + 32 - s.head) % 32)).map (fun i => s2.buf ((s.head + i) % 32))

/-- A handler step from `s` to `s2` publishes whole units only: nothing, or
one error code, or the hard-overflow code and the chain-too-long code, or, when
a frame-start byte arrives without line error, the whole open frame from `head`
up to `write_pos`, alone or followed by the chain-too-long code. -/
def publishes_whole (s : RxState) (fe1 dor1 : Bool) (udr1 : Nat) (s2 : RxState) : Prop :=
  published_bytes s s2 = [] ∨
  published_bytes s s2 = [RECV_ERR_MALFORMED] ∨
  published_bytes s s2 = [RECV_ERR_CHAIN_LONG] ∨
  published_bytes s s2 = [RECV_ERR_H_OVERFLOW] ∨
  published_bytes s s2 = [RECV_ERR_H_OVERFLOW, RECV_ERR_CHAIN_LONG] ∨
  (open_frame_valid s ∧ fe1 = false ∧ dor1 = false ∧ udr1 &&& (1 <<< 7) ≠ 0 ∧
    (published_bytes s s2 = open_frame_bytes s ∨
      published_bytes s s2 = open_frame_bytes s ++ [RECV_ERR_CHAIN_LONG]))

/-- The bytes of a valid open frame behind its start byte are body bytes: they
have the top bit clear. -/
def open_body_clear (s : RxState) : Prop :=
  open_frame_valid s →
    ∀ i, 1 ≤ i → i < open_frame_length s → s.buf ((s.head + i) % 32) &&& (1 <<< 7) = 0

/-- What one handler step guarantees about publication: it publishes whole
units only, and the open frame stays a start byte followed by body bytes. -/
def step_units (s : RxState) (fe1 dor1 : Bool) (udr1 : Nat) (s2 : RxState) : Prop :=
  publishes_whole s fe1 dor1 udr1 s2 ∧ (open_body_clear s → open_body_clear s2)

/-! ## Theorems: the frame encoder -/

set_option maxRecDepth 100000 in
theorem run_hi_step : ∀ k < 6, ∀ s < 64, s < 2 ^ k →
    (run_hi k s >>> 1 = run_hi (k + 1) s ∧ run_hi (k + 1) s &&& 1 = 0) ∧
    ((run_hi k s >>> 1) ||| (1 <<< 7) = run_hi (k + 1) (s + 2 ^ k)
      ∧ run_hi (k + 1) (s + 2 ^ k) &&& 1 = 0) := by
  decide

set_option maxRecDepth 100000 in
theorem run_hi_full : ∀ s < 64,
    ((run_hi 6 s >>> 1) &&& 1 ≠ 0 ∧ (run_hi 6 s >>> 1) >>> 1 = s) ∧
    (((run_hi 6 s >>> 1) ||| (1 <<< 7)) &&& 1 ≠ 0
      ∧ ((run_hi 6 s >>> 1) ||| (1 <<< 7)) >>> 1 = s + 64) := by
  decide

set_option maxRecDepth 100000 in
theorem run_hi_end : ∀ k < 7, ∀ s < 64, 0 < k → s < 2 ^ k →
    run_hi k s ≠ 1 <<< 7 ∧ end_frame_shift 8 (run_hi k s) = some (1 + 2 * s) := by
  decide

theorem odd_shiftRight_one (s : Nat) : (1 + 2 * s) >>> 1 = s := by
  rw [Nat.shiftRight_eq_div_pow]; omega

theorem testBit7_iff (c : Nat) : c &&& (1 <<< 7) ≠ 0 ↔ c.testBit 7 = true := by
  constructor
  · intro h
    obtain ⟨i, hi⟩ := Nat.ne_zero_implies_bit_true h
    rw [Nat.testBit_and, Nat.one_shiftLeft, Nat.testBit_two_pow] at hi
    simp only [Bool.and_eq_true, decide_eq_true_eq] at hi
    obtain ⟨h1, h2⟩ := hi
    subst h2
    exact h1
  · intro h h0
    have : (c &&& (1 <<< 7)).testBit 7 = true := by
      rw [Nat.testBit_and, Nat.one_shiftLeft, Nat.testBit_two_pow_self, h]; rfl
    rw [h0] at this
    simp at this

theorem side_channel_byte_lt : ∀ r : List Nat, side_channel_byte r < 2 ^ r.length
  | [] => by simp [side_channel_byte]
  | b :: r => by
    have ih := side_channel_byte_lt r
    have hb : (b.testBit 7).toNat ≤ 1 := Bool.toNat_le _
    simp only [side_channel_byte, List.length_cons, pow_succ]
    omega

/-- Sending a run that does not complete 7 bytes: nothing but the clipped bytes
is sent, and `hi_bits` collects the top bits below the marker. -/
theorem send_bytes_run : ∀ (r : List Nat) (k s P : Nat), k + r.length ≤ 6 → s < 2 ^ k →
    send_bytes ⟨run_hi k s, P⟩ r =
      (⟨run_hi (k + r.length) (s + 2 ^ k * side_channel_byte r), P ^^^ xor_all r⟩,
        r.map (fun b => b &&& 127))
  | [], k, s, P, _, _ => by simp [send_bytes, side_channel_byte, xor_all]
  | c :: r, k, s, P, hk, hs => by
    simp only [List.length_cons] at hk
    have hk6 : k < 6 := by omega
    have hs64 : s < 64 := lt_of_lt_of_le hs (by
      calc 2 ^ k ≤ 2 ^ 6 := Nat.pow_le_pow_right (by decide) (by omega)
        _ = 64 := by norm_num)
    obtain ⟨⟨h1, h2⟩, h3, h4⟩ := run_hi_step k hk6 s hs64 hs
    have hpow : (2:Nat) ^ (k + 1) = 2 * 2 ^ k := by rw [pow_succ]; ring
    by_cases hc : c.testBit 7 = true
    · have hc2 : c &&& (1 <<< 7) ≠ 0 := (testBit7_iff c).2 hc
      have ih := send_bytes_run r (k + 1) (s + 2 ^ k) (P ^^^ c) (by omega) (by omega)
      simp only [send_bytes, comm_send_byte, hc2, h3, h4, ne_eq, not_true_eq_false,
        not_false_eq_true, if_true, if_false, ih, side_channel_byte, xor_all, hc, Bool.toNat_true,
        List.map_cons, List.length_cons, List.singleton_append, Nat.xor_assoc, hpow]
      congr 3
      · omega
      · ring
    · have hc2 : ¬ (c &&& (1 <<< 7) ≠ 0) := fun h => hc ((testBit7_iff c).1 h)
      have hc3 : c.testBit 7 = false := by simpa using hc
      have ih := send_bytes_run r (k + 1) s (P ^^^ c) (by omega) (by omega)
      simp only [send_bytes, comm_send_byte, hc2, h1, h2, ne_eq, not_true_eq_false,
        not_false_eq_true, if_true, if_false, ih, side_channel_byte, xor_all, hc3,
        Bool.toNat_false, List.map_cons, List.length_cons, List.singleton_append, Nat.xor_assoc,
        hpow]
      congr 3
      · omega
      · ring

/-- Sending the bytes that complete a run of 7: the clipped bytes are followed
by the side-channel byte, which also enters the parity, and `hi_bits` is reset
to the marker. -/
theorem send_bytes_full : ∀ (r : List Nat) (k s P : Nat), r ≠ [] → k + r.length = 7 →
    s < 2 ^ k →
    send_bytes ⟨run_hi k s, P⟩ r =
      (⟨1 <<< 7, P ^^^ xor_all r ^^^ (s + 2 ^ k * side_channel_byte r)⟩,
        r.map (fun b => b &&& 127) ++ [s + 2 ^ k * side_channel_byte r])
  | [], _, _, _, h, _, _ => absurd rfl h
  | [c], k, s, P, _, hk, hs => by
    simp only [List.length_singleton] at hk
    have hk6 : k = 6 := by omega
    subst hk6
    have hs64 : s < 64 := by simpa using hs
    obtain ⟨⟨h1, h2⟩, h3, h4⟩ := run_hi_full s hs64
    by_cases hc : c.testBit 7 = true
    · have hc2 : c &&& (1 <<< 7) ≠ 0 := (testBit7_iff c).2 hc
      simp only [send_bytes, comm_send_byte, hc2, h3, h4, ne_eq, not_true_eq_false,
        not_false_eq_true, if_true, if_false, side_channel_byte, xor_all, hc, Bool.toNat_true,
        List.map_cons, List.map_nil, List.append_nil, List.singleton_append, Nat.xor_zero]
      norm_num
    · have hc2 : ¬ (c &&& (1 <<< 7) ≠ 0) := fun h => hc ((testBit7_iff c).1 h)
      have hc3 : c.testBit 7 = false := by simpa using hc
      simp only [send_bytes, comm_send_byte, hc2, h1, h2, ne_eq, not_true_eq_false,
        not_false_eq_true, if_true, if_false, side_channel_byte, xor_all, hc3, Bool.toNat_false,
        List.map_cons, List.map_nil, List.append_nil, List.singleton_append, Nat.xor_zero]
      norm_num
  | c :: c2 :: r, k, s, P, _, hk, hs => by
    simp only [List.length_cons] at hk
    have hk6 : k < 6 := by omega
    have hs64 : s < 64 := lt_of_lt_of_le hs (by
      calc 2 ^ k ≤ 2 ^ 6 := Nat.pow_le_pow_right (by decide) (by omega)
        _ = 64 := by norm_num)
    obtain ⟨⟨h1, h2⟩, h3, h4⟩ := run_hi_step k hk6 s hs64 hs
    have hpow : (2:Nat) ^ (k + 1) = 2 * 2 ^ k := by rw [pow_succ]; ring
    by_cases hc : c.testBit 7 = true
    · have hc2 : c &&& (1 <<< 7) ≠ 0 := (testBit7_iff c).2 hc
      have ih := send_bytes_full (c2 :: r) (k + 1) (s + 2 ^ k) (P ^^^ c) (by simp)
        (by simp only [List.length_cons]; omega) (by omega)
      have e1 : s + 2 ^ k + 2 ^ (k + 1) * side_channel_byte (c2 :: r)
          = s + 2 ^ k * side_channel_byte (c :: c2 :: r) := by
        simp only [side_channel_byte, hc, Bool.toNat_true, hpow]; ring
      rw [e1] at ih
      rw [send_bytes]
      simp only [comm_send_byte, hc2, h3, h4, ne_eq, not_true_eq_false,
        not_false_eq_true, if_true, if_false, ih]
      simp only [xor_all, List.map_cons, List.singleton_append, List.cons_append, Nat.xor_assoc,
        List.nil_append]
    · have hc2 : ¬ (c &&& (1 <<< 7) ≠ 0) := fun h => hc ((testBit7_iff c).1 h)
      have hc3 : c.testBit 7 = false := by simpa using hc
      have ih := send_bytes_full (c2 :: r) (k + 1) s (P ^^^ c) (by simp)
        (by simp only [List.length_cons]; omega) (by omega)
      have e1 : s + 2 ^ (k + 1) * side_channel_byte (c2 :: r)
          = s + 2 ^ k * side_channel_byte (c :: c2 :: r) := by
        simp only [side_channel_byte, hc3, Bool.toNat_false, hpow]; ring
      rw [e1] at ih
      rw [send_bytes]
      simp only [comm_send_byte, hc2, h1, h2, ne_eq, not_true_eq_false,
        not_false_eq_true, if_true, if_false, ih]
      simp only [xor_all, List.map_cons, List.singleton_append, List.cons_append, Nat.xor_assoc,
        List.nil_append]

theorem send_bytes_append : ∀ (a b : List Nat) (e : Encoder),
    send_bytes e (a ++ b) =
      ((send_bytes (send_bytes e a).1 b).1, (send_bytes e a).2 ++ (send_bytes (send_bytes e a).1 b).2)
  | [], b, e => by simp [send_bytes]
  | c :: a, b, e => by
    show send_bytes e (c :: (a ++ b)) = _
    simp only [send_bytes, send_bytes_append a b, List.append_assoc]

theorem xor_all_append : ∀ a b : List Nat, xor_all (a ++ b) = xor_all a ^^^ xor_all b
  | [], b => by simp [xor_all]
  | c :: a, b => by simp [xor_all, xor_all_append a b, Nat.xor_assoc]

theorem wire_runs_nil (n : Nat) : wire_runs n [] = [] := by
  cases n <;> simp [wire_runs]

theorem side_channel_bytes_nil (n : Nat) : side_channel_bytes n [] = [] := by
  cases n <;> simp [side_channel_bytes]

theorem run_hi_zero : run_hi 0 0 = 1 <<< 7 := by decide

/-- After `comm_start_frame` left parity `P`, sending a payload and ending the
frame puts the runs and the checksum on the wire. -/
theorem send_then_end : ∀ (n : Nat) (bs : List Nat) (P : Nat), bs.length ≤ n →
    ∃ tl, comm_end_frame (send_bytes ⟨1 <<< 7, P⟩ bs).1 = some tl ∧
      (send_bytes ⟨1 <<< 7, P⟩ bs).2 ++ tl =
        wire_runs n bs ++ [(P ^^^ xor_all bs ^^^ xor_all (side_channel_bytes n bs)) &&& 127] ∧
      tl.length = if bs.length % 7 = 0 then 1 else 2
  | 0, bs, P, h => by
    have hb : bs = [] := List.eq_nil_of_length_eq_zero (by omega)
    subst hb
    refine ⟨[P &&& 127], ?_, ?_, ?_⟩
    · simp [send_bytes, comm_end_frame, comm_end_frame_fuel]
    · simp [send_bytes, wire_runs, side_channel_bytes, xor_all]
    · simp
  | n + 1, bs, P, h => by
    by_cases hb : bs = []
    · subst hb
      refine ⟨[P &&& 127], ?_, ?_, ?_⟩
      · simp [send_bytes, comm_end_frame, comm_end_frame_fuel]
      · simp [send_bytes, wire_runs, side_channel_bytes, xor_all]
      · simp
    · by_cases hlen : bs.length ≤ 6
      · have hrun := send_bytes_run bs 0 0 P (by omega) (by norm_num)
        rw [run_hi_zero] at hrun
        simp only [pow_zero, one_mul, zero_add] at hrun
        have hpos : 0 < bs.length := List.length_pos.2 hb
        have hlt := side_channel_byte_lt bs
        have hs64 : side_channel_byte bs < 64 := lt_of_lt_of_le hlt (by
          calc 2 ^ bs.length ≤ 2 ^ 6 := Nat.pow_le_pow_right (by decide) hlen
            _ = 64 := by norm_num)
        obtain ⟨e1, e2⟩ := run_hi_end bs.length (by omega) _ hs64 hpos hlt
        refine ⟨[side_channel_byte bs,
          (P ^^^ xor_all bs ^^^ side_channel_byte bs) &&& 127], ?_, ?_, ?_⟩
        · rw [hrun]
          simp only [comm_end_frame, comm_end_frame_fuel, e1, e2, ne_eq, not_false_eq_true,
            if_true, odd_shiftRight_one]
        · rw [hrun]
          have ht : bs.take 7 = bs := List.take_of_length_le (by omega)
          have hd : bs.drop 7 = [] := List.drop_eq_nil_of_le (by omega)
          simp [wire_runs, side_channel_bytes, hb, ht, hd, wire_runs_nil,
            side_channel_bytes_nil, xor_all]
        · have hm : bs.length % 7 ≠ 0 := by omega
          simp [hm]
      · have hsplit : bs = bs.take 7 ++ bs.drop 7 := (List.take_append_drop 7 bs).symm
        have htl : (bs.take 7).length = 7 := by rw [List.length_take]; omega
        have htne : bs.take 7 ≠ [] := by
          intro h0; rw [h0] at htl; simp at htl
        have hfull := send_bytes_full (bs.take 7) 0 0 P htne (by omega) (by norm_num)
        rw [run_hi_zero] at hfull
        simp only [pow_zero, one_mul, zero_add] at hfull
        have hdl : (bs.drop 7).length ≤ n := by rw [List.length_drop]; omega
        obtain ⟨tl, ih1, ih2, ih3⟩ := send_then_end n (bs.drop 7)
          (P ^^^ xor_all (bs.take 7) ^^^ side_channel_byte (bs.take 7)) hdl
        have hx : xor_all bs = xor_all (bs.take 7) ^^^ xor_all (bs.drop 7) := by
          rw [← xor_all_append, List.take_append_drop]
        refine ⟨tl, ?_, ?_, ?_⟩
        · rw [hsplit, send_bytes_append, hfull]
          exact ih1
        · rw [hsplit, send_bytes_append, hfull, ← hsplit]
          simp only [List.append_assoc]
          rw [ih2]
          simp only [wire_runs, side_channel_bytes, hb, if_false, xor_all, hx, List.append_assoc,
            List.singleton_append, List.cons_append, List.nil_append]
          congr 4
          ac_rfl
        · rw [ih3, List.length_drop]
          have hm : (bs.length - 7) % 7 = bs.length % 7 := by omega
          rw [hm]

/-- The encoder refines the wire format: whatever the transmission variables
held before, the bytes sent for a frame are the specified wire sequence. -/
theorem encode_frame_eq (e : Encoder) (proto : Nat) (payload : List Nat) :
    encode_frame e proto payload = some (frame_wire proto payload) := by
  obtain ⟨tl, h1, h2, _⟩ := send_then_end payload.length payload ((proto &&& 15) ||| (1 <<< 7))
    (Nat.le_refl _)
  have hs : (0x80 : Nat) ||| (proto &&& 15) = (proto &&& 15) ||| (1 <<< 7) := Nat.or_comm _ _
  simp only [encode_frame, comm_start_frame, h1, frame_wire, frame_start_byte, frame_checksum, hs]
  simp only [List.append_assoc, List.singleton_append, List.cons_append, h2, List.nil_append]

/-- What `comm_end_frame` sends after a payload: one byte (the checksum only)
when the payload length is a multiple of 7, two bytes (the pending
side-channel byte and the checksum) otherwise. -/
theorem end_frame_length (e : Encoder) (proto : Nat) (payload : List Nat) :
    (comm_end_frame (send_bytes (comm_start_frame e proto).1 payload).1).map List.length =
      some (if payload.length % 7 = 0 then 1 else 2) := by
  obtain ⟨tl, h1, _, h3⟩ := send_then_end payload.length payload ((proto &&& 15) ||| (1 <<< 7))
    (Nat.le_refl _)
  simp only [comm_start_frame, h1, Option.map_some', h3]

/-- Bit `i` of the side-channel byte of a run is the top bit of the run's
`(i+1)`-th byte; there is no set bit at or above the run length. -/
theorem side_channel_byte_testBit : ∀ (run : List Nat) (i : Nat),
    (side_channel_byte run).testBit i = (run.getD i 0).testBit 7
  | [], i => by simp [side_channel_byte]
  | b :: r, 0 => by
    cases hb : b.testBit 7 <;>
      simp [side_channel_byte, hb, Nat.add_mod, Nat.mul_mod]
  | b :: r, i + 1 => by
    have hb : (b.testBit 7).toNat ≤ 1 := Bool.toNat_le _
    have h2 : ((b.testBit 7).toNat + 2 * side_channel_byte r) / 2 = side_channel_byte r := by
      omega
    rw [side_channel_byte, Nat.testBit_succ, h2, side_channel_byte_testBit r i]
    simp

theorem wire_runs_length : ∀ (n : Nat) (bs : List Nat), bs.length ≤ n →
    (wire_runs n bs).length = bs.length + (bs.length + 6) / 7
  | 0, bs, h => by
    have hb : bs = [] := List.eq_nil_of_length_eq_zero (by omega)
    subst hb; simp [wire_runs]
  | n + 1, bs, h => by
    by_cases hb : bs = []
    · subst hb; simp [wire_runs]
    · have hpos : 0 < bs.length := List.length_pos.2 hb
      have ih := wire_runs_length n (bs.drop 7) (by rw [List.length_drop]; omega)
      simp only [wire_runs, hb, if_false, List.length_append, List.length_map, List.length_take,
        List.length_singleton, ih, List.length_drop]
      omega

theorem wire_runs_lt : ∀ (n : Nat) (bs : List Nat), ∀ x ∈ wire_runs n bs, x < 128
  | 0, bs, x, hx => by simp [wire_runs] at hx
  | n + 1, bs, x, hx => by
    by_cases hb : bs = []
    · subst hb; simp [wire_runs] at hx
    · simp only [wire_runs, hb, if_false, List.mem_append, List.mem_map, List.mem_singleton] at hx
      rcases hx with (⟨b, _, rfl⟩ | rfl) | hx
      · exact Nat.lt_succ_of_le Nat.and_le_right
      · have h1 := side_channel_byte_lt (bs.take 7)
        have h2 : (bs.take 7).length ≤ 7 := by rw [List.length_take]; omega
        exact lt_of_lt_of_le h1 (by
          calc 2 ^ (bs.take 7).length ≤ 2 ^ 7 := Nat.pow_le_pow_right (by decide) h2
            _ = 128 := by norm_num)
      · exact wire_runs_lt n _ x hx

theorem side_channel_bytes_lt : ∀ (n : Nat) (bs : List Nat), ∀ x ∈ side_channel_bytes n bs, x < 128
  | 0, bs, x, hx => by simp [side_channel_bytes] at hx
  | n + 1, bs, x, hx => by
    by_cases hb : bs = []
    · subst hb; simp [side_channel_bytes] at hx
    · simp only [side_channel_bytes, hb, if_false, List.mem_cons] at hx
      rcases hx with rfl | hx
      · have h1 := side_channel_byte_lt (bs.take 7)
        have h2 : (bs.take 7).length ≤ 7 := by rw [List.length_take]; omega
        exact lt_of_lt_of_le h1 (by
          calc 2 ^ (bs.take 7).length ≤ 2 ^ 7 := Nat.pow_le_pow_right (by decide) h2
            _ = 128 := by norm_num)
      · exact side_channel_bytes_lt n _ x hx

theorem xor_all_lt : ∀ (l : List Nat), (∀ x ∈ l, x < 128) → xor_all l < 128
  | [], _ => by simp [xor_all]
  | b :: l, h => by
    have h1 : b < 2 ^ 7 := h b (List.mem_cons_self _ _)
    have h2 : xor_all l < 2 ^ 7 := xor_all_lt l (fun x hx => h x (List.mem_cons_of_mem _ hx))
    exact Nat.xor_lt_two_pow h1 h2

theorem xor_all_map_clip : ∀ (l : List Nat),
    xor_all (l.map (fun b => b &&& 127)) = xor_all l &&& 127
  | [] => by simp [xor_all]
  | b :: l => by
    simp only [List.map_cons, xor_all, xor_all_map_clip l, Nat.and_xor_distrib_right]

theorem xor_all_wire_runs : ∀ (n : Nat) (bs : List Nat), bs.length ≤ n →
    xor_all (wire_runs n bs) = (xor_all bs &&& 127) ^^^ xor_all (side_channel_bytes n bs)
  | 0, bs, h => by
    have hb : bs = [] := List.eq_nil_of_length_eq_zero (by omega)
    subst hb; simp [wire_runs, side_channel_bytes, xor_all]
  | n + 1, bs, h => by
    by_cases hb : bs = []
    · subst hb; simp [wire_runs, side_channel_bytes, xor_all]
    · have hpos : 0 < bs.length := List.length_pos.2 hb
      have ih := xor_all_wire_runs n (bs.drop 7) (by rw [List.length_drop]; omega)
      have hx : xor_all bs = xor_all (bs.take 7) ^^^ xor_all (bs.drop 7) := by
        rw [← xor_all_append, List.take_append_drop]
      simp only [wire_runs, side_channel_bytes, hb, if_false, xor_all_append, xor_all,
        xor_all_map_clip, ih, hx, Nat.and_xor_distrib_right, Nat.xor_zero]
      ac_rfl

/-- Where payload byte `j` sits in the runs: its clipped value at position
`j + j / 7`, its top bit as bit `j % 7` of the side-channel byte that closes
its run. -/
theorem wire_runs_index : ∀ (n : Nat) (bs : List Nat) (j : Nat), bs.length ≤ n → j < bs.length →
    (wire_runs n bs)[j + j / 7]? = some (bs.getD j 0 &&& 127) ∧
    ∃ sb, (wire_runs n bs)[min (7 * (j / 7 + 1)) bs.length + j / 7]? = some sb ∧
      sb.testBit (j % 7) = (bs.getD j 0).testBit 7
  | 0, bs, j, h, hj => by omega
  | n + 1, bs, j, h, hj => by
    have hb : bs ≠ [] := by
      intro h0; subst h0; simp at hj
    have hA : ((bs.take 7).map (fun b => b &&& 127)).length = min 7 bs.length := by
      rw [List.length_map, List.length_take]
    simp only [wire_runs, hb, if_false]
    by_cases hj7 : j < 7
    · have hd : j / 7 = 0 := by omega
      have hm : j % 7 = j := by omega
      have hjA : j < ((bs.take 7).map (fun b => b &&& 127)).length := by rw [hA]; omega
      have hgd : (bs.take 7).getD j 0 = bs.getD j 0 := by
        simp [List.getD_eq_getElem?_getD, List.getElem?_take, hj7]
      refine ⟨?_, side_channel_byte (bs.take 7), ?_, ?_⟩
      · rw [hd, Nat.add_zero, List.append_assoc, List.getElem?_append_left hjA,
          List.getElem?_map, List.getElem?_take, if_pos hj7, List.getD_eq_getElem?_getD,
          List.getElem?_eq_getElem hj]
        rfl
      · have hidx : min (7 * (j / 7 + 1)) bs.length + j / 7
            = ((bs.take 7).map (fun b => b &&& 127)).length := by rw [hA]; omega
        rw [hidx, List.append_assoc, List.getElem?_append_right (Nat.le_refl _)]
        simp
      · rw [hm, side_channel_byte_testBit, hgd]
    · have hlen8 : ((bs.take 7).map (fun b => b &&& 127) ++ [side_channel_byte (bs.take 7)]).length
          = 8 := by
        rw [List.length_append, hA, List.length_singleton]; omega
      have hdl : (bs.drop 7).length = bs.length - 7 := List.length_drop _ _
      obtain ⟨ih1, sb, ih2, ih3⟩ := wire_runs_index n (bs.drop 7) (j - 7)
        (by rw [hdl]; omega) (by rw [hdl]; omega)
      have hgd : (bs.drop 7).getD (j - 7) 0 = bs.getD j 0 := by
        rw [List.getD_eq_getElem?_getD, List.getD_eq_getElem?_getD, List.getElem?_drop]
        congr 2; omega
      rw [hgd] at ih1 ih3
      have hm : (j - 7) % 7 = j % 7 := by omega
      rw [hm] at ih3
      refine ⟨?_, sb, ?_, ih3⟩
      · rw [List.getElem?_append_right (by rw [hlen8]; omega), hlen8, ← ih1]
        congr 1; omega
      · rw [List.getElem?_append_right (by rw [hlen8]; omega), hlen8, ← ih2, hdl]
        congr 1; omega

set_option maxRecDepth 100000 in
theorem byte_split : ∀ a < 256, a = (a &&& 127) + 128 * (a.testBit 7).toNat := by
  decide

set_option maxRecDepth 100000 in
theorem start_byte_inj : ∀ p < 16, ∀ q < 16, 128 ||| (p &&& 15) = 128 ||| (q &&& 15) → p = q := by
  decide

set_option maxRecDepth 100000 in
theorem start_byte_xor : ∀ q < 16, (128 ||| q) ^^^ ((128 ||| q) &&& 127) = 128 := by
  decide

set_option maxRecDepth 100000 in
theorem start_byte_range : ∀ q < 16, 128 ≤ (128 ||| q) ∧ (128 ||| q) ≤ 143 := by
  decide

theorem frame_wire_injective (proto proto2 : Nat) (payload payload2 : List Nat)
    (hp : proto < 16) (hp2 : proto2 < 16) (hb : ∀ b ∈ payload, b < 256)
    (hb2 : ∀ b ∈ payload2, b < 256) (h : frame_wire proto2 payload2 = frame_wire proto payload) :
    proto2 = proto ∧ payload2 = payload := by
  simp only [frame_wire, frame_start_byte, List.cons.injEq] at h
  obtain ⟨hs, hr⟩ := h
  obtain ⟨hr1, _⟩ := List.append_inj' hr (by simp)
  have hlen := congrArg List.length hr1
  rw [wire_runs_length _ _ (Nat.le_refl _), wire_runs_length _ _ (Nat.le_refl _)] at hlen
  have hl : payload2.length = payload.length := by omega
  refine ⟨start_byte_inj proto2 hp2 proto hp hs, ?_⟩
  apply List.ext_getElem hl
  intro j h2 h1
  obtain ⟨a1, sb1, a2, a3⟩ := wire_runs_index _ payload j (Nat.le_refl _) h1
  obtain ⟨c1, sb2, c2, c3⟩ := wire_runs_index _ payload2 j (Nat.le_refl _) h2
  rw [hr1, a1] at c1
  rw [hr1, hl, a2] at c2
  have e1 : payload.getD j 0 &&& 127 = payload2.getD j 0 &&& 127 := Option.some.inj c1
  have e2 : sb1 = sb2 := Option.some.inj c2
  subst e2
  have e3 : (payload.getD j 0).testBit 7 = (payload2.getD j 0).testBit 7 := by rw [← a3, ← c3]
  have g1 : payload.getD j 0 = payload[j] := List.getD_eq_getElem _ _ h1
  have g2 : payload2.getD j 0 = payload2[j] := List.getD_eq_getElem _ _ h2
  rw [g1, g2] at e1 e3
  have s1 := byte_split payload[j] (hb _ (List.getElem_mem h1))
  have s2 := byte_split payload2[j] (hb2 _ (List.getElem_mem h2))
  rw [s1, s2, e1, e3]

theorem frame_wire_xor (proto : Nat) (payload : List Nat) :
    xor_all (frame_wire proto payload) = 0x80 := by
  have hq : proto &&& 15 < 16 := Nat.lt_succ_of_le Nat.and_le_right
  have hS : xor_all (side_channel_bytes payload.length payload) < 2 ^ 7 :=
    xor_all_lt _ (side_channel_bytes_lt _ _)
  have hS2 : xor_all (side_channel_bytes payload.length payload) &&& 127
      = xor_all (side_channel_bytes payload.length payload) :=
    Nat.and_pow_two_sub_one_of_lt_two_pow hS
  have hx := start_byte_xor (proto &&& 15) hq
  simp only [frame_wire, frame_checksum, frame_start_byte, xor_all, xor_all_append,
    xor_all_wire_runs _ _ (Nat.le_refl _), Nat.and_xor_distrib_right, hS2, Nat.xor_zero]
  generalize xor_all payload &&& 127 = A
  generalize xor_all (side_channel_bytes payload.length payload) = S
  calc (128 ||| proto &&& 15) ^^^ (A ^^^ S ^^^ ((128 ||| proto &&& 15) &&& 127 ^^^ A ^^^ S))
      = ((128 ||| proto &&& 15) ^^^ ((128 ||| proto &&& 15) &&& 127)) ^^^ ((A ^^^ A) ^^^ (S ^^^ S)) := by
        ac_rfl
    _ = 128 := by rw [hx, Nat.xor_self, Nat.xor_self]; rfl

/-- C1: the bytes sent by `comm_start_frame (p)`, `comm_send_byte (b_1)`, ...,
`comm_send_byte (b_n)`, `comm_end_frame ()` are exactly the start byte
`0x80 | (p & 15)`, then for each run of up to 7 payload bytes the clipped bytes
and one side-channel byte (bit `i` is the top bit of the run's `(i+1)`-th byte,
no bit is set above the run length), then the checksum byte; `comm_end_frame`
itself sends only the checksum when `n` is a multiple of 7 and a pending
side-channel byte before it otherwise. -/
theorem C1_encoder_wire_format (e : Encoder) (proto : Nat) (payload : List Nat) :
    encode_frame e proto payload = some (frame_wire proto payload) ∧
    (∀ (run : List Nat) (i : Nat),
      (side_channel_byte run).testBit i = (run.getD i 0).testBit 7) ∧
    (comm_end_frame (send_bytes (comm_start_frame e proto).1 payload).1).map List.length =
      some (if payload.length % 7 = 0 then 1 else 2) :=
  ⟨encode_frame_eq e proto payload, side_channel_byte_testBit, end_frame_length e proto payload⟩

/-- C2: encoding protocol 0 with the single payload byte `0xFF` sends exactly
`80 7F 01 7E`. -/
theorem C2_encode_proto0_FF (e : Encoder) :
    encode_frame e 0 [0xFF] = some [0x80, 0x7F, 0x01, 0x7E] := by
  rw [encode_frame_eq]; decide

/-- C3 as stated fails: encoding protocol 3 with the single payload byte `0x41`
does not send `83 41 42`. -/
theorem C3_counterexample : encode_frame Encoder.init 3 [0x41] ≠ some [0x83, 0x41, 0x42] := by
  decide

/-- C3, amended: encoding protocol 3 with the single payload byte `0x41` sends
exactly `83 41 00 42`; the side-channel byte of the one-byte run is sent although
no top bit is set in it. -/
theorem C3_encode_proto3_41 (e : Encoder) :
    encode_frame e 3 [0x41] = some [0x83, 0x41, 0x00, 0x42] := by
  rw [encode_frame_eq]; decide

/-- C4: the payload can be reassembled from the wire. In the wire sequence `w`
of a frame the byte `w[1 + j + j/7]` is `b_j & 0x7F`, and bit `j mod 7` of the
side-channel byte `w[1 + min (7 * (j/7 + 1), n) + j/7]` is the top bit of `b_j`;
hence no other protocol number below 16 and payload of bytes yields the same
wire sequence. Holds for every payload length, in particular for `n ≤ 12`. -/
theorem C4_payload_reassembly (e : Encoder) (proto : Nat) (payload : List Nat) :
    ∃ w, encode_frame e proto payload = some w ∧
      (∀ j, j < payload.length →
        w.getD (1 + j + j / 7) 0 = payload.getD j 0 &&& 0x7F ∧
        (w.getD (1 + min (7 * (j / 7 + 1)) payload.length + j / 7) 0).testBit (j % 7)
          = (payload.getD j 0).testBit 7) ∧
      (∀ (e2 : Encoder) (proto2 : Nat) (payload2 : List Nat),
        proto < 16 → proto2 < 16 → (∀ b ∈ payload, b < 256) → (∀ b ∈ payload2, b < 256) →
        encode_frame e2 proto2 payload2 = some w → proto2 = proto ∧ payload2 = payload) := by
  refine ⟨frame_wire proto payload, encode_frame_eq e proto payload, ?_, ?_⟩
  · intro j hj
    obtain ⟨a1, sb, a2, a3⟩ := wire_runs_index _ payload j (Nat.le_refl _) hj
    have i1 : 1 + j + j / 7 = (j + j / 7) + 1 := by omega
    have i2 : 1 + min (7 * (j / 7 + 1)) payload.length + j / 7
        = (min (7 * (j / 7 + 1)) payload.length + j / 7) + 1 := by omega
    have hlen := wire_runs_length _ payload (Nat.le_refl _)
    constructor
    · rw [i1, List.getD_eq_getElem?_getD, frame_wire, List.getElem?_cons_succ,
        List.getElem?_append_left (by rw [hlen]; omega), a1]
      rfl
    · rw [i2, List.getD_eq_getElem?_getD, frame_wire, List.getElem?_cons_succ,
        List.getElem?_append_left (by rw [hlen]; omega), a2]
      exact a3
  · intro e2 proto2 payload2 hp hp2 hb hb2 h
    rw [encode_frame_eq] at h
    exact frame_wire_injective proto proto2 payload payload2 hp hp2 hb hb2 (Option.some.inj h)

/-- Witness for C4 on the frame with protocol 3 and payload `80 41`. -/
theorem C4_payload_reassembly_witness :
    ∃ w, encode_frame Encoder.init 3 [0x80, 0x41] = some w ∧
      (w.getD 1 0 = 0x00 ∧ (w.getD 3 0).testBit 0 = true) ∧
      (w.getD 2 0 = 0x41 ∧ (w.getD 3 0).testBit 1 = false) ∧
      (encode_frame ⟨5, 9⟩ 3 [0x80, 0x41] = some w → 3 = 3 ∧ [0x80, 0x41] = [0x80, 0x41]) := by
  obtain ⟨w, h1, h2, h3⟩ := C4_payload_reassembly Encoder.init 3 [0x80, 0x41]
  exact ⟨w, h1, h2 0 (by decide), h2 1 (by decide),
    h3 ⟨5, 9⟩ 3 [0x80, 0x41] (by decide) (by decide) (by decide) (by decide)⟩

/-- C5: the checksum covers the start byte, every payload byte and every
side-channel byte: the XOR of all wire bytes of an encoded frame is exactly
`0x80`. -/
theorem C5_frame_xor (e : Encoder) (proto : Nat) (payload : List Nat) :
    ∃ w, encode_frame e proto payload = some w ∧ xor_all w = 0x80 :=
  ⟨frame_wire proto payload, encode_frame_eq e proto payload, frame_wire_xor proto payload⟩

/-- C6: in every encoded frame the first byte lies in `0x80..0x8F` and is the
only byte with its top bit set; all body, side-channel and checksum bytes are at
most `0x7F`. -/
theorem C6_only_start_has_top_bit (e : Encoder) (proto : Nat) (payload : List Nat) :
    ∃ s rest, encode_frame e proto payload = some (s :: rest) ∧
      0x80 ≤ s ∧ s ≤ 0x8F ∧ ∀ b ∈ rest, b ≤ 0x7F := by
  have hq : proto &&& 15 < 16 := Nat.lt_succ_of_le Nat.and_le_right
  refine ⟨frame_start_byte proto, _, encode_frame_eq e proto payload,
    (start_byte_range _ hq).1, (start_byte_range _ hq).2, ?_⟩
  intro b hb
  rcases List.mem_append.1 hb with h | h
  · exact Nat.le_of_lt_succ (wire_runs_lt _ _ b h)
  · rw [List.mem_singleton] at h
    rw [h]
    exact Nat.and_le_right

/-- C7: a frame with `n` payload bytes occupies `n + ceil (n / 7) + 2` bytes on
the wire, which is never 3; an empty frame takes 2 bytes and a frame with 12
payload bytes takes 16. -/
theorem C7_wire_length (e : Encoder) (proto : Nat) (payload : List Nat)
    (b1 b2 b3 b4 b5 b6 b7 b8 b9 b10 b11 b12 : Nat) :
    (∃ w, encode_frame e proto payload = some w ∧
      w.length = payload.length + (payload.length + 6) / 7 + 2 ∧ w.length ≠ 3) ∧
    (encode_frame e proto []).map List.length = some 2 ∧
    (encode_frame e proto [b1, b2, b3, b4, b5, b6, b7, b8, b9, b10, b11, b12]).map List.length
      = some 16 := by
  have hl : ∀ bs : List Nat, (frame_wire proto bs).length = bs.length + (bs.length + 6) / 7 + 2 := by
    intro bs
    simp only [frame_wire, List.length_cons, List.length_append, List.length_singleton,
      wire_runs_length _ bs (Nat.le_refl _), List.length_nil]
  refine ⟨⟨frame_wire proto payload, encode_frame_eq e proto payload, hl payload, ?_⟩, ?_, ?_⟩
  · rw [hl]; omega
  · rw [encode_frame_eq, Option.map_some', hl]; rfl
  · rw [encode_frame_eq, Option.map_some', hl]
    simp only [List.length_cons, List.length_nil]

/-! ### The relay -/

theorem incr32 (p : Nat) : circ_buf_incr_ptr p UART1_RX_BUFSIZE = (p + 1) % 32 := by
  have h := Nat.and_pow_two_sub_one_eq_mod (p + 1) 5
  have h2 : (p + 1) % 32 < 256 := lt_of_lt_of_le (Nat.mod_lt _ (by decide)) (by decide)
  have h3 : (32 : Nat) &&& (32 - 1) = 0 := by decide
  have h4 : (2 : Nat) ^ 5 - 1 = 32 - 1 := by decide
  have h5 : (2 : Nat) ^ 5 = 32 := by decide
  rw [h4, h5] at h
  simp only [circ_buf_incr_ptr, UART1_RX_BUFSIZE, h3, ne_eq, not_true_eq_false, if_false, h,
    Nat.mod_eq_of_lt h2]
  simp

set_option maxRecDepth 100000 in
theorem body_byte_and : ∀ b < 128, b &&& (1 <<< 7) = 0 := by decide

theorem relay_body_append : ∀ (body : List Nat) (c x : Nat) (rest : List Nat) (pc : Nat),
    body ++ [c] = x :: rest → relay_body x rest pc = body ++ [c ^^^ pc]
  | [], c, x, rest, pc, h => by
    simp only [List.nil_append, List.cons.injEq] at h
    obtain ⟨h1, h2⟩ := h
    subst h1; subst h2
    rfl
  | b :: body, c, x, [], pc, h => by
    simp at h
  | b :: body, c, x, y :: rest, pc, h => by
    simp only [List.cons_append, List.cons.injEq] at h
    obtain ⟨h1, h2⟩ := h
    subst h1
    rw [relay_body, relay_body_append body c y rest pc h2]
    rfl

/-- The second loop of `comm_forward` on the body bytes `rest` stored from
`tail` on: it sends them on, the last one corrected, and stops at their end. -/
theorem forward_data_frame (H pc : Nat) : ∀ (rest : List Nat) (s : RxState) (old fuel : Nat),
    s.tail < 32 → rest.length < fuel →
    (∀ i, i < rest.length → (s.tail + i) % 32 ≠ H ∧
      s.buf ((s.tail + i) % 32) = rest.getD i 0 ∧ rest.getD i 0 < 128) →
    ((s.tail + rest.length) % 32 = H ∨ s.buf ((s.tail + rest.length) % 32) &&& (1 <<< 7) ≠ 0) →
    forward_data H pc fuel s old =
      some ({ s with tail := (s.tail + rest.length) % 32 }, relay_body old rest pc)
  | _, _, _, 0, _, hf, _, _ => by omega
  | [], s, old, fuel + 1, ht, _, _, hend => by
    simp only [List.length_nil, Nat.add_zero, Nat.mod_eq_of_lt ht] at hend
    have hc : ¬ (H ≠ s.tail ∧ s.buf s.tail &&& (1 <<< 7) = 0) := by
      rintro ⟨h1, h2⟩
      rcases hend with h | h
      · exact h1 h.symm
      · exact h h2
    simp only [forward_data, hc, if_false, relay_body, List.length_nil, Nat.add_zero,
      Nat.mod_eq_of_lt ht]
  | b :: rest, s, old, fuel + 1, ht, hf, hbody, hend => by
    obtain ⟨h1, h2, h3⟩ := hbody 0 (by simp)
    simp only [Nat.add_zero, Nat.mod_eq_of_lt ht, List.getD_cons_zero] at h1 h2 h3
    have hc : H ≠ s.tail ∧ s.buf s.tail &&& (1 <<< 7) = 0 :=
      ⟨fun h => h1 h.symm, by rw [h2]; exact body_byte_and b h3⟩
    simp only [List.length_cons] at hf hend
    have ih := forward_data_frame H pc rest
      { s with tail := circ_buf_incr_ptr s.tail UART1_RX_BUFSIZE } b fuel
      (by simp only [incr32]; omega) (by omega)
      (by
        intro i hi
        obtain ⟨g1, g2, g3⟩ := hbody (i + 1) (by simp only [List.length_cons]; omega)
        simp only [List.getD_cons_succ] at g2 g3
        have e : ((s.tail + 1) % 32 + i) % 32 = (s.tail + (i + 1)) % 32 := by omega
        simp only [incr32, e]
        exact ⟨g1, g2, g3⟩)
      (by
        have e : ((s.tail + 1) % 32 + rest.length) % 32 = (s.tail + (rest.length + 1)) % 32 := by
          omega
        simp only [incr32, e]
        exact hend)
    have e2 : ((s.tail + 1) % 32 + rest.length) % 32 = (s.tail + (rest.length + 1)) % 32 := by
      omega
    simp only [incr32, e2] at ih
    rw [forward_data, if_pos hc]
    simp only [incr32, h2, ih, relay_body, List.length_cons]

/-- What `comm_forward` does with a closed data frame at `tail`: it sends the
start byte with the address raised by one, the body bytes verbatim and the
last byte corrected, then reports a pending overflow. -/
theorem comm_forward_data_frame (s : RxState) (S : Nat) (body : List Nat) (c : Nat)
    (hh : s.head < 32) (ht : s.tail < 32) (hS : 0x80 ≤ S ∧ S ≤ 0xEF)
    (hb : ∀ b ∈ body ++ [c], b ≤ 0x7F) (hf : frame_at_tail s (S :: (body ++ [c]))) :
    comm_forward s =
      some ((report_overflow { s with tail := (s.tail + (body.length + 2)) % 32 }).1,
        (S + 0x10) :: (body ++ [c ^^^ S ^^^ (S + 0x10)]) ++
          (report_overflow { s with tail := (s.tail + (body.length + 2)) % 32 }).2.1, -1) := by
  obtain ⟨x, rest, hl⟩ : ∃ x rest, body ++ [c] = x :: rest := by
    cases hbc : body ++ [c] with
    | nil => simp at hbc
    | cons x rest => exact ⟨x, rest, rfl⟩
  have hlen : rest.length = body.length := by
    have := congrArg List.length hl
    simp only [List.length_append, List.length_singleton, List.length_cons,
      List.length_nil] at this
    omega
  rw [hl] at hf hb
  obtain ⟨f1, f2, f3⟩ := hf
  simp only [List.length_cons] at f1 f2 f3
  have hne : s.head ≠ s.tail := by
    intro h; rw [h] at f1; omega
  have g0 := f2 0 (by omega)
  have g1 := f2 1 (by omega)
  simp only [Nat.add_zero, Nat.mod_eq_of_lt ht, List.getD_cons_zero, List.getD_cons_succ] at g0 g1
  have hx : x < 128 := Nat.lt_succ_of_le (hb x (List.mem_cons_self _ _))
  have hc1 : ¬ ((s.tail + 1) % 32 = s.head ∨ s.buf ((s.tail + 1) % 32) &&& (1 <<< 7) ≠ 0) := by
    rintro (h | h)
    · omega
    · rw [g1] at h; exact h (body_byte_and x hx)
  have hS2 : (S + 1 <<< 4) % 256 = S + 0x10 := by
    obtain ⟨a, b⟩ := hS
    have : (1 : Nat) <<< 4 = 16 := by decide
    rw [this]; omega
  have hdata := forward_data_frame s.head (S ^^^ (S + 0x10)) rest
    { s with tail := ((s.tail + 1) % 32 + 1) % 32 } x 32 (by simp only; omega) (by omega)
    (by
      intro i hi
      have e : (((s.tail + 1) % 32 + 1) % 32 + i) % 32 = (s.tail + (i + 2)) % 32 := by omega
      have g := f2 (i + 2) (by omega)
      simp only [List.getD_cons_succ] at g
      simp only [e]
      refine ⟨by omega, g, ?_⟩
      have hm : rest.getD i 0 ∈ x :: rest := by
        rw [List.getD_eq_getElem _ _ hi]
        exact List.mem_cons_of_mem _ (List.getElem_mem hi)
      exact Nat.lt_succ_of_le (hb _ hm))
    (by
      have e : (((s.tail + 1) % 32 + 1) % 32 + rest.length) % 32
          = (s.tail + (rest.length + 1 + 1)) % 32 := by omega
      simp only [e]
      rcases f3 with h | h
      · left; omega
      · right; exact h)
  have e3 : (((s.tail + 1) % 32 + 1) % 32 + rest.length) % 32
      = (s.tail + (body.length + 2)) % 32 := by omega
  simp only [e3] at hdata
  rw [comm_forward, comm_forward_fuel]
  simp only [hne, if_false, incr32, g0]
  have hc2 : ¬ ((s.tail + 1) % 32 = s.head ∨ x &&& (1 <<< 7) ≠ 0) := by
    rw [g1] at hc1; exact hc1
  rw [forward_unit]
  simp only [hc2, if_false, incr32, g1, hS2, hdata, relay_body_append body c x rest _ hl,
    Nat.xor_assoc, List.cons_append]

set_option maxRecDepth 100000 in
theorem start_byte_hop : ∀ S < 240, 128 ≤ S →
    ((S + 0x10) >>> 4) &&& 7 = ((S >>> 4) &&& 7) + 1 ∧ (S + 0x10) &&& 15 = S &&& 15 ∧
      S ^^^ (S + 0x10) < 128 := by
  decide

theorem xor_all_relayed (S c : Nat) : ∀ body : List Nat,
    xor_all ((S + 0x10) :: (body ++ [c ^^^ S ^^^ (S + 0x10)])) = xor_all (S :: (body ++ [c])) := by
  intro body
  simp only [xor_all, xor_all_append, Nat.xor_zero]
  calc (S + 16) ^^^ (xor_all body ^^^ (c ^^^ S ^^^ (S + 16)))
      = ((S + 16) ^^^ (S + 16)) ^^^ (S ^^^ (xor_all body ^^^ c)) := by ac_rfl
    _ = S ^^^ (xor_all body ^^^ c) := by rw [Nat.xor_self, Nat.zero_xor]

/-- C8: a closed data frame `[S, b_1, ..., b_k]` at `tail` (`S` in `0x80..0xEF`,
`k ≥ 1`, all `b_i ≤ 0x7F`; here `b_1 .. b_{k-1}` is `body` and `b_k` is `c`) is
relayed, with the sticky overflow flag clear, as exactly
`[S + 0x10, b_1, ..., b_{k-1}, b_k XOR S XOR (S + 0x10)]`: the address field is
one higher, the protocol nibble is unchanged; `tail` advances by `k + 1` and
the return value is non-zero. -/
theorem C8_forward_data_frame (s : RxState) (S : Nat) (body : List Nat) (c : Nat)
    (hh : s.head < 32) (ht : s.tail < 32) (hS : 0x80 ≤ S ∧ S ≤ 0xEF)
    (hb : ∀ b ∈ body ++ [c], b ≤ 0x7F) (hf : frame_at_tail s (S :: (body ++ [c])))
    (hflag : s.global_prot_var &&& CHAIN_OVERFLOW_BIT = 0) :
    ∃ ret, comm_forward s =
        some ({ s with tail := (s.tail + (body.length + 2)) % 32 },
          (S + 0x10) :: (body ++ [c ^^^ S ^^^ (S + 0x10)]), ret) ∧
      ret ≠ 0 ∧
      ((S + 0x10) >>> 4) &&& 7 = ((S >>> 4) &&& 7) + 1 ∧ (S + 0x10) &&& 15 = S &&& 15 := by
  have h := comm_forward_data_frame s S body c hh ht hS hb hf
  have hr : report_overflow { s with tail := (s.tail + (body.length + 2)) % 32 }
      = ({ s with tail := (s.tail + (body.length + 2)) % 32 }, [], 0) := by
    simp only [report_overflow, hflag, if_true]
  rw [hr] at h
  simp only [List.append_nil] at h
  obtain ⟨a1, a2, _⟩ := start_byte_hop S (by omega) hS.1
  exact ⟨-1, h, by decide, a1, a2⟩

/-- Witness for C8: the received frame `A5 10 00 35` (address 2, protocol 5) is
relayed as `B5 10 00 25`, and `25 = 35 XOR A5 XOR B5`. -/
theorem C8_forward_data_frame_witness :
    ∃ ret, comm_forward (receive_all RxState.init relay_example) =
        some ({ receive_all RxState.init relay_example with
                tail := ((receive_all RxState.init relay_example).tail + (2 + 2)) % 32 },
          [0xB5, 0x10, 0x00, 0x25], ret) ∧
      ret ≠ 0 ∧
      ((0xA5 + 0x10) >>> 4) &&& 7 = ((0xA5 >>> 4) &&& 7) + 1 ∧ (0xA5 + 0x10) &&& 15 = 0xA5 &&& 15 :=
  C8_forward_data_frame (receive_all RxState.init relay_example) 0xA5 [0x10, 0x00] 0x35
    (by decide) (by decide) (by decide) (by decide) (by decide) (by decide)

/-- C9: relaying keeps the checksum valid. For a closed data frame at `tail`
with start byte in `0x80..0xEF`, the bytes `comm_forward` sends for it XOR to
the same value as the bytes stored in the buffer, so a frame whose bytes XOR to
`0x80` is relayed as one whose bytes XOR to `0x80`, and the checksum byte sent
has its top bit clear. After the frame only the Soft-Overflow report is sent,
when the sticky flag is set. -/
theorem C9_forward_keeps_checksum (s : RxState) (S : Nat) (body : List Nat) (c : Nat)
    (hh : s.head < 32) (ht : s.tail < 32) (hS : 0x80 ≤ S ∧ S ≤ 0xEF)
    (hb : ∀ b ∈ body ++ [c], b ≤ 0x7F) (hf : frame_at_tail s (S :: (body ++ [c]))) :
    ∃ s2 relayed last ret,
      comm_forward s = some (s2,
        relayed ++ (if s.global_prot_var &&& CHAIN_OVERFLOW_BIT = 0 then []
          else [0x80, 0x04, 0x00, 0x04]), ret) ∧
      xor_all relayed = xor_all (S :: (body ++ [c])) ∧
      (xor_all (S :: (body ++ [c])) = 0x80 → xor_all relayed = 0x80) ∧
      relayed.getLast? = some last ∧ last ≤ 0x7F := by
  have h := comm_forward_data_frame s S body c hh ht hS hb hf
  have hx := xor_all_relayed S c body
  obtain ⟨_, _, a3⟩ := start_byte_hop S (by omega) hS.1
  have hc : c < 2 ^ 7 := Nat.lt_succ_of_le (hb c (by simp))
  have hl : c ^^^ S ^^^ (S + 0x10) < 2 ^ 7 := by
    rw [Nat.xor_assoc]; exact Nat.xor_lt_two_pow hc a3
  refine ⟨(report_overflow { s with tail := (s.tail + (body.length + 2)) % 32 }).1,
    (S + 0x10) :: (body ++ [c ^^^ S ^^^ (S + 0x10)]), c ^^^ S ^^^ (S + 0x10), -1,
    ?_, hx, fun h80 => hx.trans h80, ?_, Nat.le_of_lt_succ hl⟩
  · rw [h]
    by_cases hflag : s.global_prot_var &&& CHAIN_OVERFLOW_BIT = 0
    · simp only [report_overflow, hflag, if_true]
    · simp only [report_overflow, hflag, if_false]
  · rw [← List.cons_append, List.getLast?_append]
    simp

/-- Witness for C9 on the received frame `A5 10 00 35`, whose bytes XOR to
`0x80`. -/
theorem C9_forward_keeps_checksum_witness :
    ∃ s2 relayed last ret,
      comm_forward (receive_all RxState.init relay_example) = some (s2,
        relayed ++ (if (receive_all RxState.init relay_example).global_prot_var
          &&& CHAIN_OVERFLOW_BIT = 0 then [] else [0x80, 0x04, 0x00, 0x04]), ret) ∧
      xor_all relayed = xor_all [0xA5, 0x10, 0x00, 0x35] ∧
      xor_all relayed = 0x80 ∧
      relayed.getLast? = some last ∧ last ≤ 0x7F := by
  obtain ⟨s2, relayed, last, ret, h1, h2, h3, h4, h5⟩ :=
    C9_forward_keeps_checksum (receive_all RxState.init relay_example) 0xA5 [0x10, 0x00] 0x35
      (by decide) (by decide) (by decide) (by decide) (by decide)
  exact ⟨s2, relayed, last, ret, h1, h2, h3 (by decide), h4, h5⟩

set_option maxRecDepth 100000 in
/-- C10, the code at the failing input: after a frame that fills all 32 slots
the handler stores the start byte `F0` (address 7) of the next frame unchecked.
The first `comm_forward` call reports the oversized frame (`80 02 00 02`); the
second one forwards the address-7 frame as data: the address increment
overflows the byte and `00 80` is sent, not `80 03 00 03`. -/
theorem C10_address7_frame_forwarded :
    (receive_all RxState.init address7_trace).buf 1 = 0xF0 ∧
    (receive_all RxState.init address7_trace).head = 3 ∧
    (receive_all RxState.init address7_trace).tail = 0 ∧
    (comm_forward (receive_all RxState.init address7_trace)).map (fun r => (r.1.tail, r.2))
      = some (1, [0x80, 0x02, 0x00, 0x02], -1) ∧
    ((comm_forward (receive_all RxState.init address7_trace)).bind
      (fun r => comm_forward r.1)).map (fun r => (r.1.tail, r.2)) = some (3, [0x00, 0x80], -1) := by
  decide

/-! ### The relay on the list of unread bytes -/

theorem region_bytes_nil (s : RxState) (hh : s.head < 32) (ht : s.tail < 32) :
    region_bytes s = [] ↔ s.head = s.tail := by
  unfold region_bytes
  rw [List.map_eq_nil_iff, List.range_eq_nil]
  omega

theorem region_bytes_length (s : RxState) :
    (region_bytes s).length = (s.head + 32 - s.tail) % 32 := by
  simp [region_bytes]

theorem region_bytes_cons (s : RxState) (hh : s.head < 32) (ht : s.tail < 32)
    (hne : s.head ≠ s.tail) :
    region_bytes s = s.buf s.tail :: region_bytes { s with tail := (s.tail + 1) % 32 } := by
  unfold region_bytes
  obtain ⟨d, hd⟩ : ∃ d, (s.head + 32 - s.tail) % 32 = d + 1 := ⟨(s.head + 32 - s.tail) % 32 - 1, by omega⟩
  have hd2 : (s.head + 32 - (s.tail + 1) % 32) % 32 = d := by omega
  simp only [hd, hd2, List.range_succ_eq_map, List.map_cons, List.map_map, Nat.add_zero,
    Nat.mod_eq_of_lt ht]
  congr 1
  apply List.map_congr_left
  intro i _
  simp only [Function.comp, Nat.succ_eq_add_one]
  congr 1
  omega

theorem region_bytes_getD (s : RxState) (i : Nat) (hi : i < (s.head + 32 - s.tail) % 32) :
    (region_bytes s).getD i 0 = s.buf ((s.tail + i) % 32) := by
  unfold region_bytes
  rw [List.getD_eq_getElem?_getD, List.getElem?_map, List.getElem?_range hi]
  rfl

/-- The second loop of `comm_forward` does on the buffer what `relay_data_list`
does on the list of unread bytes. -/
theorem forward_data_list (pc : Nat) : ∀ (n : Nat) (s : RxState) (old fuel : Nat),
    s.head < 32 → s.tail < 32 → (region_bytes s).length = n → n < fuel →
    forward_data s.head pc fuel s old =
      some ({ s with tail := (s.tail + (relay_data_list pc old (region_bytes s)).2) % 32 },
        (relay_data_list pc old (region_bytes s)).1)
  | _, _, _, 0, _, _, _, hf => by omega
  | 0, s, old, fuel + 1, hh, ht, hn, _ => by
    have hr : region_bytes s = [] := List.eq_nil_of_length_eq_zero hn
    have he : s.head = s.tail := (region_bytes_nil s hh ht).1 hr
    have hc : ¬ (s.head ≠ s.tail ∧ s.buf s.tail &&& (1 <<< 7) = 0) := fun h => h.1 he
    rw [forward_data, if_neg hc, hr]
    simp only [relay_data_list, Nat.add_zero, Nat.mod_eq_of_lt ht]
  | n + 1, s, old, fuel + 1, hh, ht, hn, hf => by
    have hne : s.head ≠ s.tail := by
      intro he
      rw [(region_bytes_nil s hh ht).2 he] at hn
      simp at hn
    have hr := region_bytes_cons s hh ht hne
    have hn2 : (region_bytes { s with tail := (s.tail + 1) % 32 }).length = n := by
      rw [hr] at hn; simpa using hn
    have ih := forward_data_list pc n { s with tail := (s.tail + 1) % 32 } (s.buf s.tail) fuel
      hh (Nat.mod_lt _ (by decide)) hn2 (by omega)
    by_cases hb : s.buf s.tail &&& (1 <<< 7) = 0
    · rw [forward_data, if_pos ⟨hne, hb⟩]
      simp only [incr32]
      simp only at ih
      rw [ih, hr]
      simp only [relay_data_list, hb, if_true]
      congr 3
      omega
    · have hc : ¬ (s.head ≠ s.tail ∧ s.buf s.tail &&& (1 <<< 7) = 0) := fun h => hb h.2
      rw [forward_data, if_neg hc, hr]
      simp only [relay_data_list, hb, if_false, Nat.add_zero, Nat.mod_eq_of_lt ht]

theorem tail_add_zero (s : RxState) (ht : s.tail < 32) :
    ({ s with tail := (s.tail + 0) % 32 } : RxState) = s := by
  simp only [Nat.add_zero, Nat.mod_eq_of_lt ht]

/-- The first loop of `comm_forward` and the rest of the routine do on the
buffer what `relay_unit_list` does on the list of unread bytes; the overflow
report follows. -/
theorem forward_unit_list (fuel2 : Nat) : ∀ (n : Nat) (s : RxState) (fs fuel : Nat),
    s.head < 32 → s.tail < 32 → (region_bytes s).length = n → n < fuel → n ≤ fuel2 →
    forward_unit s.head fuel2 fuel s fs =
      some ((report_overflow
          { s with tail := (s.tail + (relay_unit_list fs (region_bytes s)).2.1) % 32 }).1,
        (relay_unit_list fs (region_bytes s)).1 ++ (report_overflow
          { s with tail := (s.tail + (relay_unit_list fs (region_bytes s)).2.1) % 32 }).2.1,
        if (relay_unit_list fs (region_bytes s)).2.2 then -1 else (report_overflow
          { s with tail := (s.tail + (relay_unit_list fs (region_bytes s)).2.1) % 32 }).2.2)
  | _, _, _, 0, _, _, _, hf, _ => by omega
  | 0, s, fs, fuel + 1, hh, ht, hn, _, _ => by
    have hr : region_bytes s = [] := List.eq_nil_of_length_eq_zero hn
    have he : s.head = s.tail := (region_bytes_nil s hh ht).1 hr
    have hc : s.tail = s.head ∨ s.buf s.tail &&& (1 <<< 7) ≠ 0 := Or.inl he.symm
    rw [forward_unit, if_pos hc, hr, relay_unit_list]
    by_cases h80 : fs = 0x80
    · rw [if_pos h80, if_pos he.symm, if_pos h80]
      simp only [tail_add_zero s ht, List.nil_append, Bool.false_eq_true, if_false]
    · rw [if_neg h80, if_neg h80]
      simp only [tail_add_zero s ht, if_true]
      by_cases h3 : fs = RECV_ERR_CHAIN_LONG
      · simp only [management_frame, h3, if_true]
      · by_cases h5 : fs = RECV_ERR_H_OVERFLOW
        · simp only [management_frame, h5, if_true, RECV_ERR_H_OVERFLOW, RECV_ERR_CHAIN_LONG]
          rfl
        · simp only [management_frame, h3, h5, if_false]
  | n + 1, s, fs, fuel + 1, hh, ht, hn, hf, hf2 => by
    have hne : s.head ≠ s.tail := by
      intro he
      rw [(region_bytes_nil s hh ht).2 he] at hn
      simp at hn
    have hne2 : ¬ s.tail = s.head := fun h => hne h.symm
    have hr := region_bytes_cons s hh ht hne
    have hn2 : (region_bytes { s with tail := (s.tail + 1) % 32 }).length = n := by
      rw [hr] at hn; simpa using hn
    by_cases hb : s.buf s.tail &&& (1 <<< 7) ≠ 0
    · rw [forward_unit, if_pos (Or.inr hb), hr, relay_unit_list, if_pos hb]
      by_cases h80 : fs = 0x80
      · have ih := forward_unit_list fuel2 n { s with tail := (s.tail + 1) % 32 } (s.buf s.tail)
          fuel hh (Nat.mod_lt _ (by decide)) hn2 (by omega) (by omega)
        simp only at ih
        have e : ((s.tail + 1) % 32 + (relay_unit_list (s.buf s.tail)
            (region_bytes { s with tail := (s.tail + 1) % 32 })).2.1) % 32
            = (s.tail + ((relay_unit_list (s.buf s.tail)
            (region_bytes { s with tail := (s.tail + 1) % 32 })).2.1 + 1)) % 32 := by omega
        rw [e] at ih
        rw [if_pos h80, if_neg hne2, if_pos h80]
        simp only [incr32, ih]
      · rw [if_neg h80, if_neg h80]
        simp only [tail_add_zero s ht, if_true]
        by_cases h3 : fs = RECV_ERR_CHAIN_LONG
        · simp only [management_frame, h3, if_true]
        · by_cases h5 : fs = RECV_ERR_H_OVERFLOW
          · simp only [management_frame, h5, if_true, RECV_ERR_H_OVERFLOW, RECV_ERR_CHAIN_LONG]
            rfl
          · simp only [management_frame, h3, h5, if_false]
    · have hc : ¬ (s.tail = s.head ∨ s.buf s.tail &&& (1 <<< 7) ≠ 0) := by
        rintro (h | h)
        · exact hne2 h
        · exact hb h
      have hd := forward_data_list (fs ^^^ ((fs + (1 <<< 4)) % 256)) n
        { s with tail := (s.tail + 1) % 32 } (s.buf s.tail) fuel2
        hh (Nat.mod_lt _ (by decide)) hn2 (by omega)
      simp only at hd
      have e : ((s.tail + 1) % 32 + (relay_data_list (fs ^^^ ((fs + (1 <<< 4)) % 256))
          (s.buf s.tail) (region_bytes { s with tail := (s.tail + 1) % 32 })).2) % 32
          = (s.tail + ((relay_data_list (fs ^^^ ((fs + (1 <<< 4)) % 256))
          (s.buf s.tail) (region_bytes { s with tail := (s.tail + 1) % 32 })).2 + 1)) % 32 := by
        omega
      rw [e] at hd
      rw [forward_unit, if_neg hc, hr, relay_unit_list, if_neg hb]
      simp only [incr32, hd, if_true, List.cons_append]

/-- `comm_forward` on buffer indices below 32 terminates and does on the buffer
what `relay_list` does on the list of unread bytes; the overflow report
follows. -/
theorem comm_forward_list (s : RxState) (hh : s.head < 32) (ht : s.tail < 32) :
    comm_forward s =
      some ((report_overflow
          { s with tail := (s.tail + (relay_list (region_bytes s)).2.1) % 32 }).1,
        (relay_list (region_bytes s)).1 ++ (report_overflow
          { s with tail := (s.tail + (relay_list (region_bytes s)).2.1) % 32 }).2.1,
        if (relay_list (region_bytes s)).2.2 then -1 else (report_overflow
          { s with tail := (s.tail + (relay_list (region_bytes s)).2.1) % 32 }).2.2) := by
  by_cases he : s.head = s.tail
  · rw [comm_forward, comm_forward_fuel, (region_bytes_nil s hh ht).2 he, relay_list]
    rw [if_pos he]
    simp only [tail_add_zero s ht, List.nil_append, Bool.false_eq_true, if_false]
  · have hr := region_bytes_cons s hh ht he
    have hl := region_bytes_length { s with tail := (s.tail + 1) % 32 }
    have hu := forward_unit_list 32 _ { s with tail := (s.tail + 1) % 32 } (s.buf s.tail) 32
      hh (Nat.mod_lt _ (by decide)) rfl (by rw [hl]; simp only; omega)
      (by rw [hl]; simp only; omega)
    simp only at hu
    have e : ((s.tail + 1) % 32 + (relay_unit_list (s.buf s.tail)
        (region_bytes { s with tail := (s.tail + 1) % 32 })).2.1) % 32
        = (s.tail + ((relay_unit_list (s.buf s.tail)
        (region_bytes { s with tail := (s.tail + 1) % 32 })).2.1 + 1)) % 32 := by omega
    rw [e] at hu
    rw [comm_forward, comm_forward_fuel]
    simp only [he, if_false, incr32, hu, hr, relay_list]

theorem and_254_and_1 (g : Nat) : (g &&& (255 - CHAIN_OVERFLOW_BIT)) &&& CHAIN_OVERFLOW_BIT = 0 := by
  rw [Nat.and_assoc]
  have : (255 - CHAIN_OVERFLOW_BIT) &&& CHAIN_OVERFLOW_BIT = 0 := by decide
  rw [this, Nat.and_zero]

theorem report_overflow_out (s : RxState) :
    (report_overflow s).2.1 =
      if s.global_prot_var &&& CHAIN_OVERFLOW_BIT = 0 then [] else [0x80, 0x04, 0x00, 0x04] := by
  unfold report_overflow
  by_cases h : s.global_prot_var &&& CHAIN_OVERFLOW_BIT = 0
  · rw [if_pos h, if_pos h]
  · rw [if_neg h, if_neg h]

theorem report_overflow_ret (s : RxState) :
    (report_overflow s).2.2 = if s.global_prot_var &&& CHAIN_OVERFLOW_BIT = 0 then 0 else -1 := by
  unfold report_overflow
  by_cases h : s.global_prot_var &&& CHAIN_OVERFLOW_BIT = 0
  · rw [if_pos h, if_pos h]
  · rw [if_neg h, if_neg h]

theorem report_overflow_fields (s : RxState) :
    (report_overflow s).1.buf = s.buf ∧ (report_overflow s).1.head = s.head ∧
      (report_overflow s).1.tail = s.tail ∧ (report_overflow s).1.write_pos = s.write_pos := by
  unfold report_overflow
  by_cases h : s.global_prot_var &&& CHAIN_OVERFLOW_BIT = 0
  · rw [if_pos h]; exact ⟨rfl, rfl, rfl, rfl⟩
  · rw [if_neg h]; exact ⟨rfl, rfl, rfl, rfl⟩

theorem management_frame_ne_nil (fs : Nat) : management_frame fs ≠ [] := by
  unfold management_frame
  split_ifs <;> simp

theorem relay_unit_list_sent : ∀ (rest : List Nat) (fs : Nat),
    ((relay_unit_list fs rest).2.2 = true → (relay_unit_list fs rest).1 ≠ []) ∧
    ((relay_unit_list fs rest).2.2 = false → (relay_unit_list fs rest).1 = [])
  | [], fs => by
    rw [relay_unit_list]
    by_cases h80 : fs = 0x80
    · rw [if_pos h80]; simp
    · rw [if_neg h80]; simp [management_frame_ne_nil]
  | b :: rest, fs => by
    rw [relay_unit_list]
    by_cases hb : b &&& (1 <<< 7) ≠ 0
    · rw [if_pos hb]
      by_cases h80 : fs = 0x80
      · rw [if_pos h80]; exact relay_unit_list_sent rest b
      · rw [if_neg h80]; simp [management_frame_ne_nil]
    · rw [if_neg hb]; simp

theorem relay_list_sent (l : List Nat) :
    ((relay_list l).2.2 = true → (relay_list l).1 ≠ []) ∧
    ((relay_list l).2.2 = false → (relay_list l).1 = []) := by
  cases l with
  | nil => simp [relay_list]
  | cons fs rest => rw [relay_list]; exact relay_unit_list_sent rest fs

/-- C17: with the buffer empty (`head == tail`) `comm_forward` leaves `head`,
`tail` and the buffer unchanged; with the sticky overflow flag set it sends
exactly `80 04 00 04`, clears the flag and returns non-zero, with the flag clear
it sends nothing and returns 0. -/
theorem C17_forward_empty (s : RxState) (h : s.head = s.tail) :
    comm_forward s =
      some (if s.global_prot_var &&& CHAIN_OVERFLOW_BIT = 0 then (s, [], 0)
        else ({ s with global_prot_var := s.global_prot_var &&& 254 },
          [0x80, 0x04, 0x00, 0x04], -1)) ∧
    (s.global_prot_var &&& 254) &&& CHAIN_OVERFLOW_BIT = 0 ∧ (-1 : Int) ≠ 0 := by
  refine ⟨?_, and_254_and_1 _, by decide⟩
  rw [comm_forward, comm_forward_fuel]
  simp only [h, if_true, report_overflow]
  rfl

/-- Witness for C17: the power-up state, once with the overflow flag set. -/
theorem C17_forward_empty_witness :
    comm_forward { RxState.init with global_prot_var := 1 } =
      some (if (1 : Nat) &&& CHAIN_OVERFLOW_BIT = 0
        then ({ RxState.init with global_prot_var := 1 }, [], 0)
        else ({ RxState.init with global_prot_var := 1 &&& 254 },
          [0x80, 0x04, 0x00, 0x04], -1)) ∧
    ((1 : Nat) &&& 254) &&& CHAIN_OVERFLOW_BIT = 0 ∧ (-1 : Int) ≠ 0 :=
  C17_forward_empty { RxState.init with global_prot_var := 1 } rfl

/-- C20: `comm_forward` returns non-zero if and only if it sent at least one
byte during the call; it returns 0 exactly when nothing was sent. -/
theorem C20_return_value (s : RxState) (hh : s.head < 32) (ht : s.tail < 32) :
    ∃ s2 out ret, comm_forward s = some (s2, out, ret) ∧
      (ret ≠ 0 ↔ out ≠ []) ∧ (ret = 0 ↔ out = []) := by
  have key : ∀ (frame : List Nat) (sent : Bool) (g : Nat),
      (sent = true → frame ≠ []) → (sent = false → frame = []) →
      ((if sent then (-1 : Int) else (if g &&& CHAIN_OVERFLOW_BIT = 0 then 0 else -1)) = 0 ↔
        frame ++ (if g &&& CHAIN_OVERFLOW_BIT = 0 then [] else [0x80, 0x04, 0x00, 0x04]) = []) := by
    intro frame sent g h1 h2
    cases sent with
    | true =>
      have := h1 rfl
      simp [this]
    | false =>
      have := h2 rfl
      subst this
      by_cases hg : g &&& CHAIN_OVERFLOW_BIT = 0
      · simp [hg]
      · simp [hg]
  have hk := key (relay_list (region_bytes s)).1 (relay_list (region_bytes s)).2.2
    s.global_prot_var (relay_list_sent _).1 (relay_list_sent _).2
  have h := comm_forward_list s hh ht
  rw [report_overflow_out, report_overflow_ret] at h
  exact ⟨_, _, _, h, not_congr hk, hk⟩

/-- Witness for C20: relaying the received frame `A5 10 00 35`. -/
theorem C20_return_value_witness :
    ∃ s2 out ret, comm_forward (receive_all RxState.init relay_example) = some (s2, out, ret) ∧
      (ret ≠ 0 ↔ out ≠ []) ∧ (ret = 0 ↔ out = []) :=
  C20_return_value (receive_all RxState.init relay_example) (by decide) (by decide)

theorem relay_list_idle (L : List Nat)
    (hL : L = [] ∨ ∃ b l, L = b :: l ∧ b &&& (1 <<< 7) ≠ 0) :
    relay_list (0x80 :: L) = ((relay_list L).1, (relay_list L).2.1 + 1, (relay_list L).2.2) := by
  rcases hL with rfl | ⟨b, l, rfl, hb⟩
  · rfl
  · rw [relay_list, relay_unit_list, if_pos hb, if_pos rfl, relay_list]

theorem relay_list_idles : ∀ (k : Nat) (L : List Nat),
    (L = [] ∨ ∃ b l, L = b :: l ∧ b &&& (1 <<< 7) ≠ 0) →
    relay_list (List.replicate k 0x80 ++ L) =
      ((relay_list L).1, (relay_list L).2.1 + k, (relay_list L).2.2)
  | 0, L, _ => by simp
  | k + 1, L, hL => by
    have hL2 : (List.replicate k 0x80 ++ L = [] ∨
        ∃ b l, List.replicate k 0x80 ++ L = b :: l ∧ b &&& (1 <<< 7) ≠ 0) := by
      cases k with
      | zero => simpa using hL
      | succ k =>
        right
        exact ⟨0x80, List.replicate k 0x80 ++ L, by simp [List.replicate_succ], by decide⟩
    rw [List.replicate_succ, List.cons_append, relay_list_idle _ hL2, relay_list_idles k L hL]
    simp only [Nat.add_assoc]

theorem relay_data_list_body (pc : Nat) : ∀ (body : List Nat) (b : Nat) (rest : List Nat),
    (∀ x ∈ body, x &&& (1 <<< 7) = 0) →
    (rest = [] ∨ ∃ S r, rest = S :: r ∧ S &&& (1 <<< 7) ≠ 0) →
    relay_data_list pc b (body ++ rest) = (relay_body b body pc, body.length)
  | [], b, rest, _, hrest => by
    rcases hrest with rfl | ⟨S, r, rfl, hS⟩
    · rw [List.nil_append, relay_data_list, relay_body]; rfl
    · rw [List.nil_append, relay_data_list, if_neg hS, relay_body]; rfl
  | x :: body, b, rest, hbody, hrest => by
    have hx : x &&& (1 <<< 7) = 0 := hbody x (List.mem_cons_self _ _)
    have ih := relay_data_list_body pc body x rest
      (fun y hy => hbody y (List.mem_cons_of_mem _ hy)) hrest
    rw [List.cons_append, relay_data_list, if_pos hx, ih, relay_body]
    rfl

theorem relay_list_unit (S : Nat) (body rest : List Nat) (hu : S ≠ 0x80 ∨ body ≠ [])
    (hbody : ∀ x ∈ body, x &&& (1 <<< 7) = 0)
    (hrest : rest = [] ∨ ∃ S2 r, rest = S2 :: r ∧ S2 &&& (1 <<< 7) ≠ 0) :
    relay_list (S :: body ++ rest) = (unit_frame (S :: body), 1 + body.length, true) := by
  cases body with
  | nil =>
    have h80 : S ≠ 0x80 := by
      rcases hu with h | h
      · exact h
      · exact absurd rfl h
    rcases hrest with rfl | ⟨S2, r, rfl, hS2⟩
    · rw [List.cons_append, List.nil_append, relay_list, relay_unit_list, if_neg h80, unit_frame,
        if_neg h80]
      rfl
    · rw [List.cons_append, List.nil_append, relay_list, relay_unit_list, if_pos hS2, if_neg h80,
        unit_frame, if_neg h80]
      rfl
  | cons b body =>
    have hb : b &&& (1 <<< 7) = 0 := hbody b (List.mem_cons_self _ _)
    have hb2 : ¬ (b &&& (1 <<< 7) ≠ 0) := fun h => h hb
    have hd := relay_data_list_body (S ^^^ ((S + (1 <<< 4)) % 256)) body b rest
      (fun y hy => hbody y (List.mem_cons_of_mem _ hy)) hrest
    rw [List.cons_append, List.cons_append, relay_list, relay_unit_list, if_neg hb2, hd,
      unit_frame]
    simp only [List.length_cons]
    congr 2
    omega

/-- A one-byte unit at `tail` other than the idle frame is answered with its
management frame; one byte is consumed. -/
theorem comm_forward_one_byte (s : RxState) (hne : s.head ≠ s.tail)
    (hone : (s.tail + 1) % 32 = s.head ∨ s.buf ((s.tail + 1) % 32) &&& (1 <<< 7) ≠ 0)
    (hX : s.buf s.tail ≠ 0x80) :
    comm_forward s =
      some ((report_overflow { s with tail := (s.tail + 1) % 32 }).1,
        management_frame (s.buf s.tail)
          ++ (report_overflow { s with tail := (s.tail + 1) % 32 }).2.1, -1) := by
  rw [comm_forward, comm_forward_fuel, if_neg hne]
  simp only [incr32]
  rw [forward_unit, if_pos hone, if_neg hX]
  by_cases h3 : s.buf s.tail = RECV_ERR_CHAIN_LONG
  · rw [if_pos h3, management_frame, if_pos h3]
  · rw [if_neg h3]
    by_cases h5 : s.buf s.tail = RECV_ERR_H_OVERFLOW
    · rw [if_pos h5, management_frame, if_neg h3, if_pos h5]
    · rw [if_neg h5, management_frame, if_neg h3, if_neg h5]

/-- C14: when the unit at `tail` is a one-byte unit (followed by `head` or by
another byte with its top bit set) other than the idle frame `80`,
`comm_forward` consumes exactly that byte and sends one fixed management frame:
`80 03 00 03` for `F3`, `80 05 00 05` for `F5`, `80 02 00 02` for `F2` and for
every other byte; it returns non-zero. The Soft-Overflow report follows when
the sticky flag is set. -/
theorem C14_one_byte_unit (s : RxState) (hne : s.head ≠ s.tail)
    (hone : (s.tail + 1) % 32 = s.head ∨ s.buf ((s.tail + 1) % 32) &&& (1 <<< 7) ≠ 0)
    (hX : s.buf s.tail ≠ 0x80) :
    ∃ s2 ret,
      comm_forward s = some (s2,
        (if s.buf s.tail = 0xF3 then [0x80, 0x03, 0x00, 0x03]
          else if s.buf s.tail = 0xF5 then [0x80, 0x05, 0x00, 0x05]
          else [0x80, 0x02, 0x00, 0x02]) ++
        (if s.global_prot_var &&& CHAIN_OVERFLOW_BIT = 0 then []
          else [0x80, 0x04, 0x00, 0x04]), ret) ∧
      ret ≠ 0 ∧ s2.tail = (s.tail + 1) % 32 ∧ s2.head = s.head ∧ s2.buf = s.buf := by
  have hro := report_overflow_out { s with tail := (s.tail + 1) % 32 }
  obtain ⟨f1, f2, f3, _⟩ := report_overflow_fields { s with tail := (s.tail + 1) % 32 }
  have hc := comm_forward_one_byte s hne hone hX
  rw [hro] at hc
  exact ⟨_, _, hc, by decide, f3, f2, f1⟩

/-- Witness for C14: a framing error at power-up leaves the one-byte unit `F2`
in the buffer, which is answered with `80 02 00 02`. -/
theorem C14_one_byte_unit_witness :
    ∃ s2 ret,
      comm_forward (receive_all RxState.init [(true, false, 0x00)]) = some (s2,
        (if (receive_all RxState.init [(true, false, 0x00)]).buf 0 = 0xF3
          then [0x80, 0x03, 0x00, 0x03]
          else if (receive_all RxState.init [(true, false, 0x00)]).buf 0 = 0xF5
          then [0x80, 0x05, 0x00, 0x05]
          else [0x80, 0x02, 0x00, 0x02]) ++
        (if (receive_all RxState.init [(true, false, 0x00)]).global_prot_var
          &&& CHAIN_OVERFLOW_BIT = 0 then [] else [0x80, 0x04, 0x00, 0x04]), ret) ∧
      ret ≠ 0 ∧ s2.tail = (0 + 1) % 32 ∧
      s2.head = (receive_all RxState.init [(true, false, 0x00)]).head ∧
      s2.buf = (receive_all RxState.init [(true, false, 0x00)]).buf :=
  C14_one_byte_unit (receive_all RxState.init [(true, false, 0x00)])
    (by decide) (by decide) (by decide)

theorem or_bit_and_bit (g : Nat) : (g ||| CHAIN_OVERFLOW_BIT) &&& CHAIN_OVERFLOW_BIT ≠ 0 := by
  have h1 : CHAIN_OVERFLOW_BIT = 1 := by decide
  rw [h1, Nat.and_one_is_mod]
  have : (g ||| 1) % 2 = 1 := Nat.or_mod_two_eq_one.2 (Or.inr (by decide))
  omega

/-- C15: each hardcoded management frame equals what the general encoder
produces. The bytes `comm_forward` sends for the one-byte units `F2`, `F3`,
`F5` and, through `report_overflow`, for a set sticky overflow flag are the
output of `comm_start_frame (0)`, `comm_send_byte (c)`, `comm_end_frame ()` for
`c` = 2, 3, 5 and 4: `80 0c 00 0c`. -/
theorem C15_management_frames_match_encoder (e : Encoder) (buf : Nat → Nat) (wp g : Nat) :
    ((comm_forward ⟨buf_set buf 0 RECV_ERR_MALFORMED, 1, 0, wp, 0⟩).map (fun r => r.2.1)
        = encode_frame e 0 [2] ∧ encode_frame e 0 [2] = some [0x80, 0x02, 0x00, 0x02]) ∧
    ((comm_forward ⟨buf_set buf 0 RECV_ERR_CHAIN_LONG, 1, 0, wp, 0⟩).map (fun r => r.2.1)
        = encode_frame e 0 [3] ∧ encode_frame e 0 [3] = some [0x80, 0x03, 0x00, 0x03]) ∧
    ((comm_forward ⟨buf_set buf 0 RECV_ERR_H_OVERFLOW, 1, 0, wp, 0⟩).map (fun r => r.2.1)
        = encode_frame e 0 [5] ∧ encode_frame e 0 [5] = some [0x80, 0x05, 0x00, 0x05]) ∧
    ((comm_forward ⟨buf, 0, 0, wp, g ||| CHAIN_OVERFLOW_BIT⟩).map (fun r => r.2.1)
        = encode_frame e 0 [4] ∧ encode_frame e 0 [4] = some [0x80, 0x04, 0x00, 0x04]) := by
  have one : ∀ X, X ≠ 0x80 →
      (comm_forward ⟨buf_set buf 0 X, 1, 0, wp, 0⟩).map (fun r => r.2.1)
        = some (management_frame X) := by
    intro X hX
    have h := comm_forward_one_byte ⟨buf_set buf 0 X, 1, 0, wp, 0⟩
      (show (1 : Nat) ≠ 0 by decide) (Or.inl (show (0 + 1) % 32 = 1 by decide))
      (by simpa [buf_set] using hX)
    rw [h, report_overflow_out]
    simp [buf_set, CHAIN_OVERFLOW_BIT]
  have e2 : encode_frame e 0 [2] = some [0x80, 0x02, 0x00, 0x02] := by
    rw [encode_frame_eq]; decide
  have e3 : encode_frame e 0 [3] = some [0x80, 0x03, 0x00, 0x03] := by
    rw [encode_frame_eq]; decide
  have e4 : encode_frame e 0 [4] = some [0x80, 0x04, 0x00, 0x04] := by
    rw [encode_frame_eq]; decide
  have e5 : encode_frame e 0 [5] = some [0x80, 0x05, 0x00, 0x05] := by
    rw [encode_frame_eq]; decide
  refine ⟨⟨?_, e2⟩, ⟨?_, e3⟩, ⟨?_, e5⟩, ⟨?_, e4⟩⟩
  · rw [one _ (by decide), e2]; rfl
  · rw [one _ (by decide), e3]; rfl
  · rw [one _ (by decide), e5]; rfl
  · rw [comm_forward, comm_forward_fuel, e4]
    simp only [if_true, report_overflow, or_bit_and_bit g, if_false, Option.map_some']

theorem region_bytes_idle (s : RxState)
    (hall : ∀ i, i < (s.head + 32 - s.tail) % 32 → s.buf ((s.tail + i) % 32) = 0x80) :
    region_bytes s = List.replicate ((s.head + 32 - s.tail) % 32) 0x80 := by
  rw [List.eq_replicate_iff]
  refine ⟨region_bytes_length s, ?_⟩
  intro b hb
  unfold region_bytes at hb
  rw [List.mem_map] at hb
  obtain ⟨i, hi, rfl⟩ := hb
  exact hall i (List.mem_range.1 hi)

/-- C16: an idle frame (one-byte unit `80`) followed by another unit is consumed
without any byte being sent for it, and the same call processes the following
unit: the call does what a call starting at the following unit does. If the
unread region holds only idle frames, `comm_forward` consumes them all, sends
nothing but a pending Soft-Overflow report, and leaves `tail` equal to `head`. -/
theorem C16_idle_frames (s : RxState) (hh : s.head < 32) (ht : s.tail < 32) :
    (s.head ≠ s.tail → s.buf s.tail = 0x80 → (s.tail + 1) % 32 ≠ s.head →
      s.buf ((s.tail + 1) % 32) &&& (1 <<< 7) ≠ 0 →
      (∃ r, comm_forward s = some r) ∧
      comm_forward s = comm_forward { s with tail := (s.tail + 1) % 32 }) ∧
    ((∀ i, i < (s.head + 32 - s.tail) % 32 → s.buf ((s.tail + i) % 32) = 0x80) →
      ∃ s2 ret, comm_forward s = some (s2,
          (if s.global_prot_var &&& CHAIN_OVERFLOW_BIT = 0 then []
            else [0x80, 0x04, 0x00, 0x04]), ret) ∧
        s2.tail = s.head ∧ s2.head = s.head ∧ s2.buf = s.buf) := by
  constructor
  · intro hne h80 hne2 hb
    have ht1 : (s.tail + 1) % 32 < 32 := Nat.mod_lt _ (by decide)
    have hr := region_bytes_cons s hh ht hne
    have hr1 := region_bytes_cons { s with tail := (s.tail + 1) % 32 } hh ht1
      (fun h => hne2 h.symm)
    simp only at hr1
    have hi := relay_list_idle (region_bytes { s with tail := (s.tail + 1) % 32 })
      (Or.inr ⟨_, _, hr1, hb⟩)
    have h1 := comm_forward_list s hh ht
    have h2 := comm_forward_list { s with tail := (s.tail + 1) % 32 } hh ht1
    refine ⟨⟨_, h1⟩, ?_⟩
    rw [h1, h2, hr, h80, hi]
    have e : ((s.tail + 1) % 32
        + (relay_list (region_bytes { s with tail := (s.tail + 1) % 32 })).2.1) % 32
        = (s.tail
          + ((relay_list (region_bytes { s with tail := (s.tail + 1) % 32 })).2.1 + 1)) % 32 := by
      omega
    simp only [e]
  · intro hall
    have hr := region_bytes_idle s hall
    have hl := relay_list_idles ((s.head + 32 - s.tail) % 32) [] (Or.inl rfl)
    rw [List.append_nil] at hl
    have h1 := comm_forward_list s hh ht
    rw [hr, hl, report_overflow_out] at h1
    have e : (s.tail + ((relay_list []).2.1 + (s.head + 32 - s.tail) % 32)) % 32 = s.head := by
      have : (relay_list []).2.1 = 0 := rfl
      rw [this]; omega
    simp only [e] at h1
    obtain ⟨f1, f2, f3, _⟩ := report_overflow_fields { s with tail := s.head }
    exact ⟨_, _, h1, f3, f2, f1⟩

/-- Witness for C16: two idle frames received after power-up. -/
theorem C16_idle_frames_witness :
    ((∃ r, comm_forward (receive_all RxState.init idle_only_example) = some r) ∧
      comm_forward (receive_all RxState.init idle_only_example) =
        comm_forward { receive_all RxState.init idle_only_example with tail := (0 + 1) % 32 }) ∧
    (∃ s2 ret, comm_forward (receive_all RxState.init idle_only_example) = some (s2,
          (if (receive_all RxState.init idle_only_example).global_prot_var
            &&& CHAIN_OVERFLOW_BIT = 0 then [] else [0x80, 0x04, 0x00, 0x04]), ret) ∧
        s2.tail = (receive_all RxState.init idle_only_example).head ∧
        s2.head = (receive_all RxState.init idle_only_example).head ∧
        s2.buf = (receive_all RxState.init idle_only_example).buf) :=
  ⟨(C16_idle_frames (receive_all RxState.init idle_only_example) (by decide) (by decide)).1
      (by decide) (by decide) (by decide) (by decide),
    (C16_idle_frames (receive_all RxState.init idle_only_example) (by decide) (by decide)).2
      (by decide)⟩

/-- C19: on a buffer whose unread region is a sequence of complete units (`k`
idle frames, then either nothing or a further unit `u` followed by the units
`rest`), `comm_forward` terminates; `tail` advances past the idle frames and
past exactly the unit `u`, never beyond `head`; and the bytes sent are the one
frame for `u` (none when there is no further unit) and the Soft-Overflow
report. -/
theorem C19_forward_drains_one_unit (s : RxState) (hh : s.head < 32) (ht : s.tail < 32)
    (k : Nat) (u rest : List Nat)
    (hreg : region_bytes s = List.replicate k 0x80 ++ (u ++ rest))
    (hu : (u = [] ∧ rest = []) ∨
      ∃ S body, u = S :: body ∧ S &&& (1 <<< 7) ≠ 0 ∧ (S ≠ 0x80 ∨ body ≠ []) ∧
        ∀ b ∈ body, b &&& (1 <<< 7) = 0)
    (hrest : rest = [] ∨ ∃ S2 r, rest = S2 :: r ∧ S2 &&& (1 <<< 7) ≠ 0) :
    ∃ s2 ret,
      comm_forward s = some (s2,
        unit_frame u ++ (if s.global_prot_var &&& CHAIN_OVERFLOW_BIT = 0 then []
          else [0x80, 0x04, 0x00, 0x04]), ret) ∧
      s2.tail = (s.tail + (k + u.length)) % 32 ∧
      k + u.length ≤ (s.head + 32 - s.tail) % 32 ∧
      s2.head = s.head ∧ s2.buf = s.buf := by
  have hlen : k + u.length ≤ (s.head + 32 - s.tail) % 32 := by
    have := congrArg List.length hreg
    rw [region_bytes_length] at this
    simp only [List.length_append, List.length_replicate] at this
    omega
  have hrl : relay_list (u ++ rest) = (unit_frame u, u.length, (relay_list (u ++ rest)).2.2) := by
    rcases hu with ⟨rfl, rfl⟩ | ⟨S, body, rfl, _, hne, hbody⟩
    · rfl
    · rw [relay_list_unit S body rest hne hbody hrest]
      simp only [List.length_cons]
      congr 2
      omega
  have hL : (u ++ rest = [] ∨ ∃ b l, u ++ rest = b :: l ∧ b &&& (1 <<< 7) ≠ 0) := by
    rcases hu with ⟨rfl, rfl⟩ | ⟨S, body, rfl, hS, _, _⟩
    · exact Or.inl rfl
    · exact Or.inr ⟨S, body ++ rest, rfl, hS⟩
  have hi := relay_list_idles k (u ++ rest) hL
  have h1 := comm_forward_list s hh ht
  rw [hreg, hi, report_overflow_out] at h1
  have e1 : (relay_list (u ++ rest)).1 = unit_frame u := by rw [hrl]
  have e2 : (relay_list (u ++ rest)).2.1 = u.length := by rw [hrl]
  simp only [e1, e2] at h1
  have e3 : (s.tail + (u.length + k)) % 32 = (s.tail + (k + u.length)) % 32 := by
    rw [Nat.add_comm u.length k]
  rw [e3] at h1
  obtain ⟨f1, f2, f3, _⟩ := report_overflow_fields { s with tail := (s.tail + (k + u.length)) % 32 }
  exact ⟨_, _, h1, f3, hlen, f2, f1⟩

/-- Witness for C19: two idle frames and the frame `A5 10 00 35` are drained in
one call, which relays `B5 10 00 25`. -/
theorem C19_forward_drains_one_unit_witness :
    ∃ s2 ret,
      comm_forward (receive_all RxState.init idle_example) = some (s2,
        unit_frame [0xA5, 0x10, 0x00, 0x35] ++
          (if (receive_all RxState.init idle_example).global_prot_var
            &&& CHAIN_OVERFLOW_BIT = 0 then [] else [0x80, 0x04, 0x00, 0x04]), ret) ∧
      s2.tail = ((receive_all RxState.init idle_example).tail + (2 + 4)) % 32 ∧
      2 + 4 ≤ ((receive_all RxState.init idle_example).head + 32
        - (receive_all RxState.init idle_example).tail) % 32 ∧
      s2.head = (receive_all RxState.init idle_example).head ∧
      s2.buf = (receive_all RxState.init idle_example).buf :=
  C19_forward_drains_one_unit (receive_all RxState.init idle_example) (by decide) (by decide)
    2 [0xA5, 0x10, 0x00, 0x35] [] (by decide)
    (Or.inr ⟨0xA5, [0x10, 0x00, 0x35], rfl, by decide, Or.inl (by decide), by decide⟩)
    (Or.inl rfl)
/-! ### The reception handler -/

theorem zero_and_top : (0 : Nat) &&& (1 <<< 7) = 0 := by decide

theorem buf_set_same (b : Nat → Nat) (i v : Nat) : buf_set b i v i = v := by
  simp only [buf_set, if_true]

theorem buf_set_other (b : Nat → Nat) (i v j : Nat) (h : j ≠ i) : buf_set b i v j = b j := by
  simp only [buf_set, h, if_false]

theorem codes_top : RECV_ERR_MALFORMED &&& (1 <<< 7) ≠ 0 ∧
    RECV_ERR_CHAIN_LONG &&& (1 <<< 7) ≠ 0 ∧ RECV_ERR_H_OVERFLOW &&& (1 <<< 7) ≠ 0 := by decide

/-- The invariant for a state written by a handler step, from what the step
does to `head`, the unread region, the slot at the old `head` and the open
frame. -/
theorem isr_leaf (s : RxState) (hs : rx_inv s) (b2 : Nat → Nat) (h2 w2 g2 : Nat)
    (H1 : h2 < 32 ∧ (s.head + 32 - s.tail) % 32 + (h2 + 32 - s.head) % 32 < 32)
    (H2 : ∀ i, i < (s.head + 32 - s.tail) % 32 →
      b2 ((s.tail + i) % 32) = s.buf ((s.tail + i) % 32))
    (H3 : h2 ≠ s.head → b2 s.head &&& (1 <<< 7) ≠ 0)
    (H4 : b2 h2 &&& (1 <<< 7) ≠ 0 → w2 < 32 ∧ open_frame_fits w2 h2 s.tail) :
    rx_inv ⟨b2, h2, s.tail, w2, g2⟩ := by
  obtain ⟨hh, ht, h3, _⟩ := hs
  refine ⟨H1.1, ht, ?_, H4⟩
  intro hne
  simp only at hne ⊢
  by_cases hd : s.head = s.tail
  · rw [← hd]
    exact H3 (by rw [hd]; exact hne)
  · have := H2 0 (by omega)
    simp only [Nat.add_zero, Nat.mod_eq_of_lt ht] at this
    rw [this]
    exact h3 hd

theorem errcode_zero (s : RxState) (err wp h t : Nat) :
    errcode_and_framebyte s err 0 wp h t =
      if (h + 1) % 32 = t then
        (⟨buf_set s.buf h 0, s.head, s.tail, s.write_pos,
          s.global_prot_var ||| CHAIN_OVERFLOW_BIT⟩, (h + 1) % 32)
      else
        (⟨buf_set (buf_set s.buf h err) ((h + 1) % 32) 0, (h + 1) % 32, s.tail, s.write_pos,
          s.global_prot_var⟩, ((h + 1) % 32 + 1) % 32) := by
  unfold errcode_and_framebyte
  simp only [incr32]
  have : ¬ (0 ≥ 0xF0) := by decide
  simp only [this, if_false]

/-- A step that drops the open frame without room for an error code: the slot
at `head` is cleared and the sticky overflow flag is set. -/
theorem leaf_drop (s : RxState) (hs : rx_inv s) (fe1 : Bool) (udr1 g : Nat) :
    isr_step_ok s fe1 udr1
      ⟨buf_set s.buf s.head 0, s.head, s.tail, s.write_pos, g ||| CHAIN_OVERFLOW_BIT⟩ := by
  have hs2 := hs
  obtain ⟨hh, ht, h3, h4⟩ := hs2
  have keep : ∀ i, i < (s.head + 32 - s.tail) % 32 →
      buf_set s.buf s.head 0 ((s.tail + i) % 32) = s.buf ((s.tail + i) % 32) := by
    intro i hi
    rw [buf_set_other _ _ _ _ (by omega)]
  refine ⟨isr_leaf s hs _ _ _ _ ⟨hh, by omega⟩ keep (fun h => absurd rfl h) ?_, rfl,
    by simp only; omega, keep, fun _ => Or.inr (Or.inl (or_bit_and_bit _)),
    fun _ _ => Or.inr (Or.inl (or_bit_and_bit _))⟩
  intro hb
  rw [buf_set_same] at hb
  exact absurd zero_and_top hb

/-- A step that replaces the open frame by the error code `err` and leaves the
handler discarding: the code is published, the slot after it is cleared. -/
theorem leaf_code (s : RxState) (hs : rx_inv s) (fe1 : Bool) (udr1 err g : Nat)
    (herr : err = RECV_ERR_MALFORMED ∨ err = RECV_ERR_CHAIN_LONG ∨ err = RECV_ERR_H_OVERFLOW)
    (c1 : (s.head + 1) % 32 ≠ s.tail)
    (Hd : err = RECV_ERR_MALFORMED ∨ err = RECV_ERR_H_OVERFLOW ∨
      g &&& CHAIN_OVERFLOW_BIT ≠ 0 ∨ s.buf s.head &&& (1 <<< 7) = 0)
    (Hr : err = RECV_ERR_CHAIN_LONG ∨ g &&& CHAIN_OVERFLOW_BIT ≠ 0 ∨ fe1 = true ∨
      udr1 &&& (1 <<< 7) = 0) :
    isr_step_ok s fe1 udr1
      ⟨buf_set (buf_set s.buf s.head err) ((s.head + 1) % 32) 0, (s.head + 1) % 32, s.tail,
        s.write_pos, g⟩ := by
  have hs2 := hs
  obtain ⟨hh, ht, h3, h4⟩ := hs2
  have htop : err &&& (1 <<< 7) ≠ 0 := by
    rcases herr with h | h | h <;> rw [h]
    · exact codes_top.1
    · exact codes_top.2.1
    · exact codes_top.2.2
  have keep : ∀ i, i < (s.head + 32 - s.tail) % 32 →
      buf_set (buf_set s.buf s.head err) ((s.head + 1) % 32) 0 ((s.tail + i) % 32)
        = s.buf ((s.tail + i) % 32) := by
    intro i hi
    rw [buf_set_other _ _ _ _ (by omega), buf_set_other _ _ _ _ (by omega)]
  have hat2 : buf_set (buf_set s.buf s.head err) ((s.head + 1) % 32) 0 s.head = err := by
    rw [buf_set_other _ _ _ _ (by omega), buf_set_same]
  refine ⟨isr_leaf s hs _ _ _ _ ⟨Nat.mod_lt _ (by decide), by omega⟩ keep ?_ ?_, rfl,
    by simp only; omega, keep, ?_, ?_⟩
  · intro _
    rw [hat2]; exact htop
  · intro hb
    rw [buf_set_same] at hb
    exact absurd zero_and_top hb
  · intro hv
    rcases Hd with h | h | h | h
    · exact Or.inr (Or.inr ⟨0, by simp only; omega, Or.inl (by simp only [Nat.add_zero, Nat.mod_eq_of_lt hh, hat2]; exact h)⟩)
    · exact Or.inr (Or.inr ⟨0, by simp only; omega, Or.inr (by simp only [Nat.add_zero, Nat.mod_eq_of_lt hh, hat2]; exact h)⟩)
    · exact Or.inr (Or.inl h)
    · exact absurd h hv
  · intro hf htp
    rcases Hr with h | h | h | h
    · exact Or.inr (Or.inr ⟨0, by simp only; omega, by simp only [Nat.add_zero, Nat.mod_eq_of_lt hh, hat2]; exact h⟩)
    · exact Or.inr (Or.inl h)
    · rw [h] at hf; exact absurd hf (by decide)
    · exact absurd h htp

/-- The interrupt routine with a framing error. -/
theorem isr_fe (s : RxState) (dor1 : Bool) (udr1 : Nat) (hs : rx_inv s) :
    isr_step_ok s true udr1 (ISR_USART1_RXC s true dor1 udr1) := by
  unfold ISR_USART1_RXC
  simp only [if_true, errcode_zero]
  by_cases c1 : (s.head + 1) % 32 = s.tail
  · simp only [c1, if_true]
    exact leaf_drop s hs true udr1 _
  · simp only [c1, if_false]
    exact leaf_code s hs true udr1 _ _ (Or.inl rfl) c1 (Or.inl rfl) (Or.inr (Or.inr (Or.inl rfl)))

/-- A step that replaces the open frame by the received byte `b` at `head`. -/
theorem leaf_restart (s : RxState) (hs : rx_inv s) (b g : Nat) :
    rx_inv ⟨buf_set s.buf s.head b, s.head, s.tail, (s.head + 1) % 32, g⟩ ∧
    (s.head + 32 - s.tail) % 32 + (s.head + 32 - s.head) % 32 < 32 ∧
    (∀ i, i < (s.head + 32 - s.tail) % 32 →
      buf_set s.buf s.head b ((s.tail + i) % 32) = s.buf ((s.tail + i) % 32)) := by
  have hs2 := hs
  obtain ⟨hh, ht, h3, h4⟩ := hs2
  have keep : ∀ i, i < (s.head + 32 - s.tail) % 32 →
      buf_set s.buf s.head b ((s.tail + i) % 32) = s.buf ((s.tail + i) % 32) := by
    intro i hi
    rw [buf_set_other _ _ _ _ (by omega)]
  refine ⟨isr_leaf s hs _ _ _ _ ⟨hh, by omega⟩ keep (fun h => absurd rfl h) ?_, by omega, keep⟩
  intro _
  refine ⟨Nat.mod_lt _ (by decide), ?_⟩
  unfold open_frame_fits
  omega

/-- A step that publishes the error code `err` for the discarded frame and
opens a frame with the received byte `b` behind it. -/
theorem leaf_code_restart (s : RxState) (hs : rx_inv s) (fe1 : Bool) (err b g : Nat)
    (herr : err = RECV_ERR_MALFORMED ∨ err = RECV_ERR_H_OVERFLOW)
    (c1 : (s.head + 1) % 32 ≠ s.tail) :
    isr_step_ok s fe1 b
      ⟨buf_set (buf_set s.buf s.head err) ((s.head + 1) % 32) b, (s.head + 1) % 32, s.tail,
        ((s.head + 1) % 32 + 1) % 32, g⟩ := by
  have hs2 := hs
  obtain ⟨hh, ht, h3, h4⟩ := hs2
  have htop : err &&& (1 <<< 7) ≠ 0 := by
    rcases herr with h | h <;> rw [h]
    · exact codes_top.1
    · exact codes_top.2.2
  have keep : ∀ i, i < (s.head + 32 - s.tail) % 32 →
      buf_set (buf_set s.buf s.head err) ((s.head + 1) % 32) b ((s.tail + i) % 32)
        = s.buf ((s.tail + i) % 32) := by
    intro i hi
    rw [buf_set_other _ _ _ _ (by omega), buf_set_other _ _ _ _ (by omega)]
  have hat2 : buf_set (buf_set s.buf s.head err) ((s.head + 1) % 32) b s.head = err := by
    rw [buf_set_other _ _ _ _ (by omega), buf_set_same]
  refine ⟨isr_leaf s hs _ _ _ _ ⟨Nat.mod_lt _ (by decide), by omega⟩ keep ?_ ?_, rfl,
    by simp only; omega, keep,
    fun _ => Or.inr (Or.inr ⟨0, by simp only; omega, by simp only [Nat.add_zero, Nat.mod_eq_of_lt hh, hat2]; exact herr⟩),
    fun _ _ => Or.inl ⟨buf_set_same _ _ _, rfl⟩⟩
  · intro _
    rw [hat2]; exact htop
  · intro _
    refine ⟨Nat.mod_lt _ (by decide), ?_⟩
    unfold open_frame_fits
    omega

/-- A step that publishes the hard-overflow code and the chain-too-long code
and leaves the handler discarding. -/
theorem leaf_two_codes (s : RxState) (hs : rx_inv s) (fe1 : Bool) (udr1 g : Nat)
    (c1 : (s.head + 1) % 32 ≠ s.tail) (c3 : ((s.head + 1) % 32 + 1) % 32 ≠ s.tail) :
    isr_step_ok s fe1 udr1
      ⟨buf_set (buf_set (buf_set s.buf s.head RECV_ERR_H_OVERFLOW) ((s.head + 1) % 32)
          RECV_ERR_CHAIN_LONG) (((s.head + 1) % 32 + 1) % 32) 0,
        ((s.head + 1) % 32 + 1) % 32, s.tail, s.write_pos, g⟩ := by
  have hs2 := hs
  obtain ⟨hh, ht, h3, h4⟩ := hs2
  have keep : ∀ i, i < (s.head + 32 - s.tail) % 32 →
      buf_set (buf_set (buf_set s.buf s.head RECV_ERR_H_OVERFLOW) ((s.head + 1) % 32)
          RECV_ERR_CHAIN_LONG) (((s.head + 1) % 32 + 1) % 32) 0 ((s.tail + i) % 32)
        = s.buf ((s.tail + i) % 32) := by
    intro i hi
    rw [buf_set_other _ _ _ _ (by omega), buf_set_other _ _ _ _ (by omega),
      buf_set_other _ _ _ _ (by omega)]
  have hat2 : buf_set (buf_set (buf_set s.buf s.head RECV_ERR_H_OVERFLOW) ((s.head + 1) % 32)
      RECV_ERR_CHAIN_LONG) (((s.head + 1) % 32 + 1) % 32) 0 s.head = RECV_ERR_H_OVERFLOW := by
    rw [buf_set_other _ _ _ _ (by omega), buf_set_other _ _ _ _ (by omega), buf_set_same]
  have hat3 : buf_set (buf_set (buf_set s.buf s.head RECV_ERR_H_OVERFLOW) ((s.head + 1) % 32)
      RECV_ERR_CHAIN_LONG) (((s.head + 1) % 32 + 1) % 32) 0 ((s.head + 1) % 32)
      = RECV_ERR_CHAIN_LONG := by
    rw [buf_set_other _ _ _ _ (by omega), buf_set_same]
  refine ⟨isr_leaf s hs _ _ _ _ ⟨Nat.mod_lt _ (by decide), by omega⟩ keep ?_ ?_, rfl,
    by simp only; omega, keep,
    fun _ => Or.inr (Or.inr ⟨0, by simp only; omega,
      Or.inr (by simp only [Nat.add_zero, Nat.mod_eq_of_lt hh, hat2])⟩),
    fun _ _ => Or.inr (Or.inr ⟨1, by simp only; omega, hat3⟩)⟩
  · intro _
    rw [hat2]; exact codes_top.2.2
  · intro hb
    rw [buf_set_same] at hb
    exact absurd zero_and_top hb

/-- The interrupt routine with a data overrun and no framing error. -/
theorem isr_dor (s : RxState) (udr1 : Nat) (hs : rx_inv s) :
    isr_step_ok s false udr1 (ISR_USART1_RXC s false true udr1) := by
  unfold ISR_USART1_RXC errcode_and_framebyte
  simp only [Bool.false_eq_true, if_false, if_true, incr32]
  by_cases c1 : (s.head + 1) % 32 = s.tail
  · simp only [c1, if_true]
    by_cases c2 : udr1 ≥ 0xF0
    · simp only [c2, if_true]
      exact leaf_drop s hs false udr1 _
    · simp only [c2, if_false]
      obtain ⟨a1, a2, a3⟩ := leaf_restart s hs udr1 (s.global_prot_var ||| CHAIN_OVERFLOW_BIT)
      rw [c1] at a1
      exact ⟨a1, rfl, a2, a3, fun _ => Or.inr (Or.inl (or_bit_and_bit _)),
        fun _ _ => Or.inr (Or.inl (or_bit_and_bit _))⟩
  · simp only [c1, if_false]
    by_cases c2 : udr1 ≥ 0xF0
    · simp only [c2, if_true]
      by_cases c3 : ((s.head + 1) % 32 + 1) % 32 = s.tail
      · simp only [c3, if_true]
        exact leaf_code s hs false udr1 _ _ (Or.inr (Or.inr rfl)) c1 (Or.inr (Or.inl rfl))
          (Or.inr (Or.inl (or_bit_and_bit _)))
      · simp only [c3, if_false]
        exact leaf_two_codes s hs false udr1 _ c1 c3
    · simp only [c2, if_false]
      exact leaf_code_restart s hs false _ udr1 _ (Or.inr rfl) c1

/-- A step that appends the data byte `b` to the open frame. -/
theorem leaf_append (s : RxState) (hs : rx_inv s) (fe1 : Bool) (b : Nat)
    (c0 : s.buf s.head &&& (1 <<< 7) ≠ 0) (cw : s.write_pos ≠ s.tail)
    (cd : b &&& (1 <<< 7) = 0) :
    isr_step_ok s fe1 b
      ⟨buf_set s.buf s.write_pos b, s.head, s.tail, (s.write_pos + 1) % 32,
        s.global_prot_var⟩ := by
  have hs2 := hs
  obtain ⟨hh, ht, h3, h4⟩ := hs2
  obtain ⟨hw, hfit⟩ := h4 c0
  unfold open_frame_fits at hfit
  have keep : ∀ i, i < (s.head + 32 - s.tail) % 32 →
      buf_set s.buf s.write_pos b ((s.tail + i) % 32) = s.buf ((s.tail + i) % 32) := by
    intro i hi
    rw [buf_set_other _ _ _ _ (by omega)]
  refine ⟨isr_leaf s hs _ _ _ _ ⟨hh, by omega⟩ keep (fun h => absurd rfl h) ?_, rfl,
    by simp only; omega, keep, fun _ => Or.inl ⟨?_, Or.inl ⟨rfl, Or.inr rfl⟩⟩,
    fun _ hb => absurd cd hb⟩
  · intro _
    refine ⟨Nat.mod_lt _ (by decide), ?_⟩
    unfold open_frame_fits
    omega
  · intro i hi
    unfold open_frame_length at hi
    simp only
    rw [buf_set_other _ _ _ _ (by omega)]

/-- A step that publishes the open frame and opens a frame with the received
start byte `b` behind it. -/
theorem leaf_publish (s : RxState) (hs : rx_inv s) (fe1 : Bool) (b : Nat)
    (c0 : s.buf s.head &&& (1 <<< 7) ≠ 0) (cw : s.write_pos ≠ s.tail) :
    isr_step_ok s fe1 b
      ⟨buf_set s.buf s.write_pos b, s.write_pos, s.tail, (s.write_pos + 1) % 32,
        s.global_prot_var⟩ := by
  have hs2 := hs
  obtain ⟨hh, ht, h3, h4⟩ := hs2
  obtain ⟨hw, hfit⟩ := h4 c0
  unfold open_frame_fits at hfit
  have keep : ∀ i, i < (s.head + 32 - s.tail) % 32 →
      buf_set s.buf s.write_pos b ((s.tail + i) % 32) = s.buf ((s.tail + i) % 32) := by
    intro i hi
    rw [buf_set_other _ _ _ _ (by omega)]
  have hne : s.write_pos ≠ s.head := by omega
  refine ⟨isr_leaf s hs _ _ _ _ ⟨hw, by omega⟩ keep ?_ ?_, rfl,
    by simp only; omega, keep,
    fun _ => Or.inl ⟨?_, Or.inr ⟨hne, Or.inl rfl⟩⟩, fun _ _ => Or.inl ⟨buf_set_same _ _ _, rfl⟩⟩
  · intro _
    rw [buf_set_other _ _ _ _ (fun h => hne h.symm)]
    exact c0
  · intro _
    refine ⟨Nat.mod_lt _ (by decide), ?_⟩
    unfold open_frame_fits
    omega
  · intro i hi
    unfold open_frame_length at hi
    simp only
    rw [buf_set_other _ _ _ _ (by omega)]

/-- A step that refuses a start byte with address 7 while there is no room for
the error code: the open frame stays, the sticky overflow flag is set. -/
theorem leaf_refuse_full (s : RxState) (hs : rx_inv s) (fe1 : Bool) (udr1 : Nat)
    (c0 : s.buf s.head &&& (1 <<< 7) ≠ 0) (cw : s.write_pos ≠ s.tail) :
    isr_step_ok s fe1 udr1
      ⟨buf_set s.buf s.write_pos 0, s.head, s.tail, s.write_pos,
        s.global_prot_var ||| CHAIN_OVERFLOW_BIT⟩ := by
  have hs2 := hs
  obtain ⟨hh, ht, h3, h4⟩ := hs2
  obtain ⟨hw, hfit⟩ := h4 c0
  have hfit2 := hfit
  unfold open_frame_fits at hfit2
  have keep : ∀ i, i < (s.head + 32 - s.tail) % 32 →
      buf_set s.buf s.write_pos 0 ((s.tail + i) % 32) = s.buf ((s.tail + i) % 32) := by
    intro i hi
    rw [buf_set_other _ _ _ _ (by omega)]
  exact ⟨isr_leaf s hs _ _ _ _ ⟨hh, by omega⟩ keep (fun h => absurd rfl h)
    (fun _ => ⟨hw, hfit⟩), rfl, by simp only; omega, keep,
    fun _ => Or.inr (Or.inl (or_bit_and_bit _)), fun _ _ => Or.inr (Or.inl (or_bit_and_bit _))⟩

/-- A step that publishes the open frame and the chain-too-long code behind
it, and leaves the handler discarding. -/
theorem leaf_publish_code (s : RxState) (hs : rx_inv s) (fe1 : Bool) (udr1 : Nat)
    (c0 : s.buf s.head &&& (1 <<< 7) ≠ 0) (cw : s.write_pos ≠ s.tail)
    (c1 : (s.write_pos + 1) % 32 ≠ s.tail) :
    isr_step_ok s fe1 udr1
      ⟨buf_set (buf_set s.buf s.write_pos RECV_ERR_CHAIN_LONG) ((s.write_pos + 1) % 32) 0,
        (s.write_pos + 1) % 32, s.tail, s.write_pos, s.global_prot_var⟩ := by
  have hs2 := hs
  obtain ⟨hh, ht, h3, h4⟩ := hs2
  obtain ⟨hw, hfit⟩ := h4 c0
  unfold open_frame_fits at hfit
  have keep : ∀ i, i < (s.head + 32 - s.tail) % 32 →
      buf_set (buf_set s.buf s.write_pos RECV_ERR_CHAIN_LONG) ((s.write_pos + 1) % 32) 0
        ((s.tail + i) % 32) = s.buf ((s.tail + i) % 32) := by
    intro i hi
    rw [buf_set_other _ _ _ _ (by omega), buf_set_other _ _ _ _ (by omega)]
  refine ⟨isr_leaf s hs _ _ _ _ ⟨Nat.mod_lt _ (by decide), by omega⟩ keep ?_ ?_, rfl,
    by simp only; omega, keep,
    fun _ => Or.inl ⟨?_, Or.inr ⟨by simp only; omega, Or.inr rfl⟩⟩,
    fun _ _ => Or.inr (Or.inr ⟨(s.write_pos + 32 - s.head) % 32, by simp only; omega, ?_⟩)⟩
  · intro _
    rw [buf_set_other _ _ _ _ (by omega), buf_set_other _ _ _ _ (by omega)]
    exact c0
  · intro hb
    rw [buf_set_same] at hb
    exact absurd zero_and_top hb
  · intro i hi
    unfold open_frame_length at hi
    simp only
    rw [buf_set_other _ _ _ _ (by omega), buf_set_other _ _ _ _ (by omega)]
  · have e : (s.head + (s.write_pos + 32 - s.head) % 32) % 32 = s.write_pos := by omega
    simp only [e]
    rw [buf_set_other _ _ _ _ (by omega), buf_set_same]

/-- The interrupt routine without line error. -/
theorem isr_rx (s : RxState) (udr1 : Nat) (hs : rx_inv s) :
    isr_step_ok s false udr1 (ISR_USART1_RXC s false false udr1) := by
  have hs2 := hs
  obtain ⟨hh, ht, h3, h4⟩ := hs2
  unfold ISR_USART1_RXC append_circ_buf
  simp only [Bool.false_eq_true, if_false, incr32, errcode_zero]
  by_cases c0 : s.buf s.head &&& (1 <<< 7) = 0
  · simp only [c0, if_true]
    by_cases cd : udr1 &&& (1 <<< 7) = 0
    · simp only [cd, if_true]
      exact ⟨hs, rfl, by omega, fun _ _ => rfl, fun hv => absurd c0 hv,
        fun _ hb => absurd cd hb⟩
    · simp only [cd, if_false]
      by_cases cF : udr1 ≥ 0xF0
      · simp only [cF, if_true]
        by_cases c1 : (s.head + 1) % 32 = s.tail
        · simp only [c1, if_true]
          exact leaf_drop s hs false udr1 _
        · simp only [c1, if_false]
          exact leaf_code s hs false udr1 _ _ (Or.inr (Or.inl rfl)) c1
            (Or.inr (Or.inr (Or.inr c0))) (Or.inl rfl)
      · simp only [cF, if_false]
        obtain ⟨a1, a2, a3⟩ := leaf_restart s hs udr1 s.global_prot_var
        exact ⟨a1, rfl, a2, a3, fun hv => absurd c0 hv,
          fun _ _ => Or.inl ⟨buf_set_same _ _ _, rfl⟩⟩
  · simp only [c0, if_false]
    by_cases cd : udr1 &&& (1 <<< 7) = 0
    · simp only [cd, if_true]
      by_cases cw : s.write_pos = s.tail
      · have n1 : ¬ ((-1 : Int) = 0) := by decide
        simp only [cw, if_true, n1, if_false]
        by_cases ce : s.head = s.tail
        · simp only [ce, if_true]
          have c1 : (s.head + 1) % 32 ≠ s.tail := by omega
          have := leaf_code s hs false udr1 RECV_ERR_MALFORMED s.global_prot_var (Or.inl rfl) c1
            (Or.inl rfl) (Or.inr (Or.inr (Or.inr cd)))
          simp only [ce, cw] at this
          exact this
        · simp only [ce, if_false]
          have := leaf_drop s hs false udr1 s.global_prot_var
          simp only [cw] at this
          exact this
      · simp only [cw, if_false, if_true]
        exact leaf_append s hs false udr1 c0 cw cd
    · simp only [cd, if_false]
      by_cases cw : s.write_pos = s.tail
      · simp only [cw, if_true]
        by_cases ce : s.head = s.tail
        · simp only [ce, if_true]
          have c1 : (s.head + 1) % 32 ≠ s.tail := by omega
          have := leaf_code_restart s hs false RECV_ERR_MALFORMED udr1 s.global_prot_var
            (Or.inl rfl) c1
          simp only [ce, cw] at this
          exact this
        · simp only [ce, if_false]
          by_cases cF : udr1 ≥ 0xF0
          · simp only [cF, if_true]
            by_cases c1 : (s.head + 1) % 32 = s.tail
            · simp only [c1, if_true]
              have := leaf_drop s hs false udr1 (s.global_prot_var ||| CHAIN_OVERFLOW_BIT)
              simp only [cw] at this
              exact this
            · simp only [c1, if_false]
              have := leaf_code s hs false udr1 RECV_ERR_CHAIN_LONG
                (s.global_prot_var ||| CHAIN_OVERFLOW_BIT) (Or.inr (Or.inl rfl)) c1
                (Or.inr (Or.inr (Or.inl (or_bit_and_bit _)))) (Or.inl rfl)
              simp only [cw] at this
              exact this
          · simp only [cF, if_false]
            obtain ⟨a1, a2, a3⟩ := leaf_restart s hs udr1
              (s.global_prot_var ||| CHAIN_OVERFLOW_BIT)
            exact ⟨a1, rfl, a2, a3, fun _ => Or.inr (Or.inl (or_bit_and_bit _)),
              fun _ _ => Or.inr (Or.inl (or_bit_and_bit _))⟩
      · simp only [cw, if_false]
        by_cases cF : udr1 ≥ 0xF0
        · simp only [cF, if_true]
          by_cases c1 : (s.write_pos + 1) % 32 = s.tail
          · simp only [c1, if_true]
            exact leaf_refuse_full s hs false udr1 c0 cw
          · simp only [c1, if_false]
            exact leaf_publish_code s hs false udr1 c0 cw c1
        · simp only [cF, if_false]
          exact leaf_publish s hs false udr1 c0 cw

/-- Every step of the interrupt routine from a state that satisfies the
invariant. -/
theorem isr_step (s : RxState) (fe1 dor1 : Bool) (udr1 : Nat) (hs : rx_inv s) :
    isr_step_ok s fe1 udr1 (ISR_USART1_RXC s fe1 dor1 udr1) := by
  cases fe1 with
  | true => exact isr_fe s dor1 udr1 hs
  | false =>
    cases dor1 with
    | true => exact isr_dor s udr1 hs
    | false => exact isr_rx s udr1 hs


/-! ### Reachable states -/

theorem relay_data_list_stop (pc : Nat) : ∀ (rest : List Nat) (old : Nat),
    (relay_data_list pc old rest).2 ≤ rest.length ∧
    ((relay_data_list pc old rest).2 < rest.length →
      rest.getD (relay_data_list pc old rest).2 0 &&& (1 <<< 7) ≠ 0)
  | [], old => by simp [relay_data_list]
  | b :: rest, old => by
    obtain ⟨i1, i2⟩ := relay_data_list_stop pc rest b
    rw [relay_data_list]
    by_cases hb : b &&& (1 <<< 7) = 0
    · rw [if_pos hb]
      simp only [List.length_cons, List.getD_cons_succ]
      exact ⟨by omega, fun h => i2 (by omega)⟩
    · rw [if_neg hb]
      simp only [List.length_cons, List.getD_cons_zero]
      exact ⟨by omega, fun _ => hb⟩

theorem relay_unit_list_stop : ∀ (rest : List Nat) (fs : Nat),
    (relay_unit_list fs rest).2.1 ≤ rest.length ∧
    ((relay_unit_list fs rest).2.1 < rest.length →
      rest.getD (relay_unit_list fs rest).2.1 0 &&& (1 <<< 7) ≠ 0)
  | [], fs => by
    rw [relay_unit_list]
    by_cases h80 : fs = 0x80
    · rw [if_pos h80]; simp
    · rw [if_neg h80]; simp
  | b :: rest, fs => by
    rw [relay_unit_list]
    by_cases hb : b &&& (1 <<< 7) ≠ 0
    · rw [if_pos hb]
      by_cases h80 : fs = 0x80
      · obtain ⟨i1, i2⟩ := relay_unit_list_stop rest b
        rw [if_pos h80]
        simp only [List.length_cons, List.getD_cons_succ]
        exact ⟨by omega, fun h => i2 (by omega)⟩
      · rw [if_neg h80]
        simp only [List.length_cons, List.getD_cons_zero]
        exact ⟨by omega, fun _ => hb⟩
    · obtain ⟨i1, i2⟩ := relay_data_list_stop (fs ^^^ ((fs + (1 <<< 4)) % 256)) rest b
      rw [if_neg hb]
      simp only [List.length_cons, List.getD_cons_succ]
      exact ⟨by omega, fun h => i2 (by omega)⟩

/-- Where `comm_forward` stops: inside the unread region, at its end or in
front of a byte with its top bit set. -/
theorem relay_list_stop (l : List Nat) :
    (relay_list l).2.1 ≤ l.length ∧
    ((relay_list l).2.1 < l.length → l.getD (relay_list l).2.1 0 &&& (1 <<< 7) ≠ 0) := by
  cases l with
  | nil => simp [relay_list]
  | cons fs rest =>
    obtain ⟨i1, i2⟩ := relay_unit_list_stop rest fs
    rw [relay_list]
    simp only [List.length_cons, List.getD_cons_succ]
    exact ⟨by omega, fun h => i2 (by omega)⟩

/-- `comm_forward` keeps the invariant and leaves `tail` inside the unread
region. -/
theorem rx_inv_forward (s s2 : RxState) (out : List Nat) (ret : Int) (hs : rx_inv s)
    (hc : comm_forward s = some (s2, out, ret)) :
    rx_inv s2 ∧ (s2.tail + 32 - s.tail) % 32 ≤ (s.head + 32 - s.tail) % 32 := by
  obtain ⟨hh, ht, h3, h4⟩ := hs
  rw [comm_forward_list s hh ht] at hc
  obtain ⟨f1, f2, f3, f4⟩ := report_overflow_fields
    { s with tail := (s.tail + (relay_list (region_bytes s)).2.1) % 32 }
  have e := congrArg (fun r => r.1) (Option.some.inj hc)
  simp only at e
  obtain ⟨i1, i2⟩ := relay_list_stop (region_bytes s)
  rw [region_bytes_length] at i1 i2
  have hb : s2.buf = s.buf := by rw [← e]; exact f1
  have hhd : s2.head = s.head := by rw [← e]; exact f2
  have htl : s2.tail = (s.tail + (relay_list (region_bytes s)).2.1) % 32 := by rw [← e]; exact f3
  have hwp : s2.write_pos = s.write_pos := by rw [← e]; exact f4
  refine ⟨⟨by omega, by omega, ?_, ?_⟩, by omega⟩
  · intro hne
    rw [hb, htl, ← region_bytes_getD s _ (by omega)]
    exact i2 (by omega)
  · rw [hb, hhd, hwp]
    intro hv
    obtain ⟨hw, hfit⟩ := h4 hv
    refine ⟨hw, ?_⟩
    unfold open_frame_fits at hfit ⊢
    omega

theorem rx_inv_init : rx_inv RxState.init := by
  refine ⟨by decide, by decide, fun h => absurd rfl h, fun h => absurd zero_and_top h⟩

/-- Every reachable state satisfies the invariant. -/
theorem reachable_inv (s : RxState) (hr : Reachable s) : rx_inv s := by
  induction hr with
  | init => exact rx_inv_init
  | isr s fe1 dor1 udr1 _ _ ih => exact (isr_step s fe1 dor1 udr1 ih).1
  | forward s s2 out ret _ hc ih => exact (rx_inv_forward s s2 out ret ih hc).1

theorem reachable_receive_all : ∀ (xs : List (Bool × Bool × Nat)) (s : RxState),
    Reachable s → (∀ x ∈ xs, x.2.2 < 256) → Reachable (receive_all s xs)
  | [], s, hr, _ => hr
  | x :: xs, s, hr, hx => by
    rw [receive_all]
    exact reachable_receive_all xs _
      (Reachable.isr s x.1 x.2.1 x.2.2 hr (hx x (List.mem_cons_self _ _)))
      (fun y hy => hx y (List.mem_cons_of_mem _ hy))

/-- Every list of bytes is a run of body bytes followed by units. -/
theorem units_of_list : ∀ l : List Nat, ∃ body units, l = body ++ List.flatten units ∧
    (∀ b ∈ body, b &&& (1 <<< 7) = 0) ∧ ∀ u ∈ units, is_unit u
  | [] => ⟨[], [], rfl, by simp, by simp⟩
  | x :: l => by
    obtain ⟨body, units, h1, h2, h3⟩ := units_of_list l
    by_cases hx : x &&& (1 <<< 7) = 0
    · refine ⟨x :: body, units, by rw [h1]; rfl, ?_, h3⟩
      intro b hb
      rcases List.mem_cons.1 hb with rfl | hb
      · exact hx
      · exact h2 b hb
    · refine ⟨[], (x :: body) :: units, by rw [h1]; simp, by simp, ?_⟩
      intro u hu
      rcases List.mem_cons.1 hu with rfl | hu
      · exact ⟨x, body, rfl, hx, h2⟩
      · exact h3 u hu

theorem report_overflow_gpv (s : RxState) :
    (report_overflow s).1.global_prot_var =
      if s.global_prot_var &&& CHAIN_OVERFLOW_BIT = 0 then s.global_prot_var
      else s.global_prot_var &&& (255 - CHAIN_OVERFLOW_BIT) := by
  unfold report_overflow
  by_cases h : s.global_prot_var &&& CHAIN_OVERFLOW_BIT = 0
  · rw [if_pos h, if_pos h]
  · rw [if_neg h, if_neg h]

/-- C11: in every reachable state a handler step leaves `tail` alone, never
moves `head` onto or past `tail` (the unread byte count `(head - tail) mod 32`
plus the advance of `head` stays below 32, so the count never decreases) and
leaves every slot of the unread region `[tail, head)` with its value. -/
theorem C11_handler_keeps_unread_region (s : RxState) (fe1 dor1 : Bool) (udr1 : Nat)
    (hr : Reachable s) :
    (ISR_USART1_RXC s fe1 dor1 udr1).tail = s.tail ∧
    (s.head + 32 - s.tail) % 32 + ((ISR_USART1_RXC s fe1 dor1 udr1).head + 32 - s.head) % 32
      < 32 ∧
    (s.head + 32 - s.tail) % 32 ≤
      ((ISR_USART1_RXC s fe1 dor1 udr1).head + 32 - (ISR_USART1_RXC s fe1 dor1 udr1).tail) % 32 ∧
    ∀ i, i < (s.head + 32 - s.tail) % 32 →
      (ISR_USART1_RXC s fe1 dor1 udr1).buf ((s.tail + i) % 32) = s.buf ((s.tail + i) % 32) := by
  have hs := reachable_inv s hr
  obtain ⟨⟨hh2, _, _, _⟩, a2, a3, a4, _⟩ := isr_step s fe1 dor1 udr1 hs
  obtain ⟨hh, ht, _, _⟩ := hs
  refine ⟨a2, a3, ?_, a4⟩
  rw [a2]
  omega

/-- Witness for C11: a body byte arriving when a closed frame and the open
frame fill the buffer. -/
theorem C11_handler_keeps_unread_region_witness :
    (ISR_USART1_RXC (receive_all RxState.init full_example) false false 0x00).tail
      = (receive_all RxState.init full_example).tail ∧
    ((receive_all RxState.init full_example).head + 32
        - (receive_all RxState.init full_example).tail) % 32
      + ((ISR_USART1_RXC (receive_all RxState.init full_example) false false 0x00).head + 32
        - (receive_all RxState.init full_example).head) % 32 < 32 ∧
    ((receive_all RxState.init full_example).head + 32
        - (receive_all RxState.init full_example).tail) % 32 ≤
      ((ISR_USART1_RXC (receive_all RxState.init full_example) false false 0x00).head + 32
        - (ISR_USART1_RXC (receive_all RxState.init full_example) false false 0x00).tail) % 32 ∧
    ∀ i, i < ((receive_all RxState.init full_example).head + 32
        - (receive_all RxState.init full_example).tail) % 32 →
      (ISR_USART1_RXC (receive_all RxState.init full_example) false false 0x00).buf
          (((receive_all RxState.init full_example).tail + i) % 32)
        = (receive_all RxState.init full_example).buf
          (((receive_all RxState.init full_example).tail + i) % 32) :=
  C11_handler_keeps_unread_region (receive_all RxState.init full_example) false false 0x00
    (reachable_receive_all full_example _ Reachable.init (by decide))

/-- C13: for every handler step from a reachable state, if the step discards
the open frame and writes no error code for it (malformed packet or hard
overflow) into the buffer, or refuses the incoming frame-start byte and writes
no error code for it (chain too long) into the buffer, then the sticky overflow
flag is set after the step. -/
theorem C13_silent_loss_sets_flag (s : RxState) (fe1 dor1 : Bool) (udr1 : Nat)
    (hr : Reachable s)
    (hloss :
      (discards_open_frame s (ISR_USART1_RXC s fe1 dor1 udr1) ∧
        ¬ discard_code_written s (ISR_USART1_RXC s fe1 dor1 udr1)) ∨
      (refuses_frame_start fe1 udr1 (ISR_USART1_RXC s fe1 dor1 udr1) ∧
        ¬ refusal_code_written s (ISR_USART1_RXC s fe1 dor1 udr1))) :
    overflow_flag (ISR_USART1_RXC s fe1 dor1 udr1) := by
  obtain ⟨_, _, _, _, h5, h6⟩ := isr_step s fe1 dor1 udr1 (reachable_inv s hr)
  rcases hloss with ⟨⟨hv, hnk⟩, hnc⟩ | ⟨⟨hf, htop, hna⟩, hnc⟩
  · rcases h5 hv with h | h | h
    · exact absurd h hnk
    · exact h
    · exact absurd h hnc
  · rcases h6 hf htop with h | h | h
    · exact absurd h hna
    · exact h
    · exact absurd h hnc

set_option maxRecDepth 100000 in
/-- Witness for C13: a body byte arriving when a closed frame and the open
frame fill the buffer; the open frame is discarded without an error code and
the flag is set. -/
theorem C13_silent_loss_sets_flag_witness :
    overflow_flag (ISR_USART1_RXC (receive_all RxState.init full_example) false false 0x00) :=
  C13_silent_loss_sets_flag (receive_all RxState.init full_example) false false 0x00
    (reachable_receive_all full_example _ Reachable.init (by decide))
    (Or.inl (by decide))

/-! ### The branches of the reception handler -/

set_option maxRecDepth 100000 in
theorem start_byte_top : ∀ r < 256, 128 ≤ r → r &&& (1 <<< 7) ≠ 0 := by decide

/-- A body byte while the handler is discarding is dropped. -/
theorem isr_body_discard (s : RxState) (r : Nat) (c0 : s.buf s.head &&& (1 <<< 7) = 0)
    (cd : r &&& (1 <<< 7) = 0) : ISR_USART1_RXC s false false r = s := by
  unfold ISR_USART1_RXC
  simp only [Bool.false_eq_true, if_false, c0, cd, if_true]

/-- A start byte with a legal address while the handler is discarding opens a
frame at `head`. -/
theorem isr_start_discard (s : RxState) (r : Nat) (c0 : s.buf s.head &&& (1 <<< 7) = 0)
    (cd : r &&& (1 <<< 7) ≠ 0) (cF : r < 0xF0) :
    ISR_USART1_RXC s false false r =
      ⟨buf_set s.buf s.head r, s.head, s.tail, (s.head + 1) % 32, s.global_prot_var⟩ := by
  have cF2 : ¬ (r ≥ 0xF0) := by omega
  unfold ISR_USART1_RXC
  simp only [Bool.false_eq_true, if_false, c0, cd, if_true, cF2, incr32]

/-- A start byte with address 7 while the handler is discarding. -/
theorem isr_start7_discard (s : RxState) (r : Nat) (c0 : s.buf s.head &&& (1 <<< 7) = 0)
    (cd : r &&& (1 <<< 7) ≠ 0) (cF : 0xF0 ≤ r) :
    ISR_USART1_RXC s false false r =
      if (s.head + 1) % 32 = s.tail then
        ⟨buf_set s.buf s.head 0, s.head, s.tail, s.write_pos,
          s.global_prot_var ||| CHAIN_OVERFLOW_BIT⟩
      else
        ⟨buf_set (buf_set s.buf s.head RECV_ERR_CHAIN_LONG) ((s.head + 1) % 32) 0,
          (s.head + 1) % 32, s.tail, s.write_pos, s.global_prot_var⟩ := by
  have cF2 : r ≥ 0xF0 := cF
  unfold ISR_USART1_RXC
  simp only [Bool.false_eq_true, if_false, c0, cd, if_true, cF2, errcode_zero]
  by_cases c1 : (s.head + 1) % 32 = s.tail
  · simp only [c1, if_true]
  · simp only [c1, if_false]

/-- A body byte appended to the open frame. -/
theorem isr_body_room (s : RxState) (r : Nat) (c0 : s.buf s.head &&& (1 <<< 7) ≠ 0)
    (cd : r &&& (1 <<< 7) = 0) (cw : s.write_pos ≠ s.tail) :
    ISR_USART1_RXC s false false r =
      ⟨buf_set s.buf s.write_pos r, s.head, s.tail, (s.write_pos + 1) % 32,
        s.global_prot_var⟩ := by
  unfold ISR_USART1_RXC append_circ_buf
  simp only [Bool.false_eq_true, if_false, c0, cd, cw, if_true, incr32]

/-- A body byte when the open frame fills the whole buffer. -/
theorem isr_body_full_alone (s : RxState) (r : Nat) (c0 : s.buf s.head &&& (1 <<< 7) ≠ 0)
    (cd : r &&& (1 <<< 7) = 0) (cw : s.write_pos = s.tail) (ce : s.head = s.tail) :
    ISR_USART1_RXC s false false r =
      ⟨buf_set (buf_set s.buf s.head RECV_ERR_MALFORMED) ((s.head + 1) % 32) 0,
        (s.head + 1) % 32, s.tail, s.write_pos, s.global_prot_var⟩ := by
  have n1 : ¬ ((-1 : Int) = 0) := by decide
  have c0t : s.buf s.tail &&& (1 <<< 7) ≠ 0 := by rw [← ce]; exact c0
  unfold ISR_USART1_RXC append_circ_buf
  simp only [Bool.false_eq_true, if_false, c0t, cd, cw, ce, if_true, incr32, n1]

/-- A body byte when the buffer is full and closed frames are unread. -/
theorem isr_body_full (s : RxState) (r : Nat) (c0 : s.buf s.head &&& (1 <<< 7) ≠ 0)
    (cd : r &&& (1 <<< 7) = 0) (cw : s.write_pos = s.tail) (ce : s.head ≠ s.tail) :
    ISR_USART1_RXC s false false r =
      ⟨buf_set s.buf s.head 0, s.head, s.tail, s.write_pos,
        s.global_prot_var ||| CHAIN_OVERFLOW_BIT⟩ := by
  have n1 : ¬ ((-1 : Int) = 0) := by decide
  unfold ISR_USART1_RXC append_circ_buf
  simp only [Bool.false_eq_true, if_false, c0, cd, cw, ce, if_true, incr32, n1]

/-- A start byte with a legal address that closes the open frame. -/
theorem isr_start_room (s : RxState) (r : Nat) (c0 : s.buf s.head &&& (1 <<< 7) ≠ 0)
    (cd : r &&& (1 <<< 7) ≠ 0) (cw : s.write_pos ≠ s.tail) (cF : r < 0xF0) :
    ISR_USART1_RXC s false false r =
      ⟨buf_set s.buf s.write_pos r, s.write_pos, s.tail, (s.write_pos + 1) % 32,
        s.global_prot_var⟩ := by
  have cF2 : ¬ (r ≥ 0xF0) := by omega
  unfold ISR_USART1_RXC
  simp only [Bool.false_eq_true, if_false, c0, cd, cw, cF2, incr32]

/-- A start byte with address 7 while the open frame is valid and the buffer
is not full. -/
theorem isr_start7_room (s : RxState) (r : Nat) (c0 : s.buf s.head &&& (1 <<< 7) ≠ 0)
    (cd : r &&& (1 <<< 7) ≠ 0) (cw : s.write_pos ≠ s.tail) (cF : 0xF0 ≤ r) :
    ISR_USART1_RXC s false false r =
      if (s.write_pos + 1) % 32 = s.tail then
        ⟨buf_set s.buf s.write_pos 0, s.head, s.tail, s.write_pos,
          s.global_prot_var ||| CHAIN_OVERFLOW_BIT⟩
      else
        ⟨buf_set (buf_set s.buf s.write_pos RECV_ERR_CHAIN_LONG) ((s.write_pos + 1) % 32) 0,
          (s.write_pos + 1) % 32, s.tail, s.write_pos, s.global_prot_var⟩ := by
  have cF2 : r ≥ 0xF0 := cF
  unfold ISR_USART1_RXC
  simp only [Bool.false_eq_true, if_false, c0, cd, cw, cF2, if_true, errcode_zero]
  by_cases c1 : (s.write_pos + 1) % 32 = s.tail
  · simp only [c1, if_true]
  · simp only [c1, if_false]

/-- A start byte when the open frame fills the whole buffer: the received byte
is stored whatever its address. -/
theorem isr_start_full_alone (s : RxState) (r : Nat) (c0 : s.buf s.head &&& (1 <<< 7) ≠ 0)
    (cd : r &&& (1 <<< 7) ≠ 0) (cw : s.write_pos = s.tail) (ce : s.head = s.tail) :
    ISR_USART1_RXC s false false r =
      ⟨buf_set (buf_set s.buf s.head RECV_ERR_MALFORMED) ((s.head + 1) % 32) r,
        (s.head + 1) % 32, s.tail, ((s.head + 1) % 32 + 1) % 32, s.global_prot_var⟩ := by
  have c0t : s.buf s.tail &&& (1 <<< 7) ≠ 0 := by rw [← ce]; exact c0
  unfold ISR_USART1_RXC
  simp only [Bool.false_eq_true, if_false, c0t, cd, cw, ce, if_true, incr32]

/-- A start byte with a legal address when the buffer is full and closed frames
are unread: the new frame replaces the open frame at `head`. -/
theorem isr_start_full (s : RxState) (r : Nat) (c0 : s.buf s.head &&& (1 <<< 7) ≠ 0)
    (cd : r &&& (1 <<< 7) ≠ 0) (cw : s.write_pos = s.tail) (ce : s.head ≠ s.tail)
    (cF : r < 0xF0) :
    ISR_USART1_RXC s false false r =
      ⟨buf_set s.buf s.head r, s.head, s.tail, (s.head + 1) % 32,
        s.global_prot_var ||| CHAIN_OVERFLOW_BIT⟩ := by
  have cF2 : ¬ (r ≥ 0xF0) := by omega
  unfold ISR_USART1_RXC
  simp only [Bool.false_eq_true, if_false, c0, cd, cw, ce, if_true, cF2, incr32]

/-- A start byte with address 7 when the buffer is full and closed frames are
unread. -/
theorem isr_start7_full (s : RxState) (r : Nat) (c0 : s.buf s.head &&& (1 <<< 7) ≠ 0)
    (cd : r &&& (1 <<< 7) ≠ 0) (cw : s.write_pos = s.tail) (ce : s.head ≠ s.tail)
    (cF : 0xF0 ≤ r) :
    ISR_USART1_RXC s false false r =
      if (s.head + 1) % 32 = s.tail then
        ⟨buf_set s.buf s.head 0, s.head, s.tail, s.write_pos,
          s.global_prot_var ||| CHAIN_OVERFLOW_BIT ||| CHAIN_OVERFLOW_BIT⟩
      else
        ⟨buf_set (buf_set s.buf s.head RECV_ERR_CHAIN_LONG) ((s.head + 1) % 32) 0,
          (s.head + 1) % 32, s.tail, s.write_pos,
          s.global_prot_var ||| CHAIN_OVERFLOW_BIT⟩ := by
  have cF2 : r ≥ 0xF0 := cF
  unfold ISR_USART1_RXC
  simp only [Bool.false_eq_true, if_false, c0, cd, cw, ce, if_true, cF2, errcode_zero]
  by_cases c1 : (s.head + 1) % 32 = s.tail
  · simp only [c1, if_true]
  · simp only [c1, if_false]

/-- A byte received with a framing error. -/
theorem isr_fe_eq (s : RxState) (dor1 : Bool) (r : Nat) :
    ISR_USART1_RXC s true dor1 r =
      if (s.head + 1) % 32 = s.tail then
        ⟨buf_set s.buf s.head 0, s.head, s.tail, s.write_pos,
          s.global_prot_var ||| CHAIN_OVERFLOW_BIT⟩
      else
        ⟨buf_set (buf_set s.buf s.head RECV_ERR_MALFORMED) ((s.head + 1) % 32) 0,
          (s.head + 1) % 32, s.tail, s.write_pos, s.global_prot_var⟩ := by
  unfold ISR_USART1_RXC
  simp only [if_true, errcode_zero]
  by_cases c1 : (s.head + 1) % 32 = s.tail
  · simp only [c1, if_true]
  · simp only [c1, if_false]

/-- A byte below `0xF0` received after a data overrun, with room for the error
code. -/
theorem isr_dor_eq (s : RxState) (r : Nat) (c1 : (s.head + 1) % 32 ≠ s.tail)
    (cF : r < 0xF0) :
    ISR_USART1_RXC s false true r =
      ⟨buf_set (buf_set s.buf s.head RECV_ERR_H_OVERFLOW) ((s.head + 1) % 32) r,
        (s.head + 1) % 32, s.tail, ((s.head + 1) % 32 + 1) % 32, s.global_prot_var⟩ := by
  have cF2 : ¬ (r ≥ 0xF0) := by omega
  unfold ISR_USART1_RXC errcode_and_framebyte
  simp only [Bool.false_eq_true, if_false, if_true, incr32, c1, cF2]


/-! ### The reception handler, case by case -/

/-- C21: a frame-start byte `r` in `0x80..0xEF` received without line error
while the open frame is valid and the buffer is not full (`write_pos ≠ tail`)
is stored at `write_pos`; `head` is set to that position, which publishes
exactly the bytes of the previous frame, and `r` is the open frame with
`write_pos` one further. No other slot changes, so the bytes of the previous
frame are unchanged; `tail` and the flags are unchanged. -/
theorem C21_start_byte_publishes_previous (s : RxState) (r : Nat) (hr : Reachable s)
    (hv : open_frame_valid s) (hw : s.write_pos ≠ s.tail) (h1 : 0x80 ≤ r) (h2 : r < 0xF0) :
    (ISR_USART1_RXC s false false r).buf s.write_pos = r ∧
    (ISR_USART1_RXC s false false r).head = s.write_pos ∧
    (ISR_USART1_RXC s false false r).write_pos = (s.write_pos + 1) % 32 ∧
    open_frame_valid (ISR_USART1_RXC s false false r) ∧
    (ISR_USART1_RXC s false false r).tail = s.tail ∧
    (ISR_USART1_RXC s false false r).global_prot_var = s.global_prot_var ∧
    (∀ j, j ≠ s.write_pos → (ISR_USART1_RXC s false false r).buf j = s.buf j) ∧
    (∀ i, i < open_frame_length s →
      (ISR_USART1_RXC s false false r).buf ((s.head + i) % 32) = s.buf ((s.head + i) % 32)) ∧
    ((ISR_USART1_RXC s false false r).head + 32 - s.head) % 32 = open_frame_length s := by
  have htop := start_byte_top r (by omega) h1
  obtain ⟨hh, ht, _, h4⟩ := reachable_inv s hr
  obtain ⟨hwp, hfit⟩ := h4 hv
  unfold open_frame_fits at hfit
  rw [isr_start_room s r hv htop hw h2]
  unfold open_frame_length open_frame_valid
  refine ⟨buf_set_same _ _ _, rfl, rfl, ?_, rfl, rfl, fun j hj => buf_set_other _ _ _ _ hj,
    ?_, ?_⟩
  · simp only [buf_set_same]
    exact htop
  · intro i hi
    simp only
    rw [buf_set_other _ _ _ _ (by omega)]
  · simp only
    omega

/-- Witness for C21: after the frame `A5 10 00 35` and the start byte `80`, the
start byte `81` arrives. -/
theorem C21_start_byte_publishes_previous_witness :
    (ISR_USART1_RXC (receive_all RxState.init relay_example) false false 0x81).buf 5 = 0x81 ∧
    (ISR_USART1_RXC (receive_all RxState.init relay_example) false false 0x81).head = 5 ∧
    (ISR_USART1_RXC (receive_all RxState.init relay_example) false false 0x81).write_pos = 6 :=
  ⟨(C21_start_byte_publishes_previous (receive_all RxState.init relay_example) 0x81
      (reachable_receive_all relay_example _ Reachable.init (by decide))
      (by decide) (by decide) (by decide) (by decide)).1,
    (C21_start_byte_publishes_previous (receive_all RxState.init relay_example) 0x81
      (reachable_receive_all relay_example _ Reachable.init (by decide))
      (by decide) (by decide) (by decide) (by decide)).2.1,
    (C21_start_byte_publishes_previous (receive_all RxState.init relay_example) 0x81
      (reachable_receive_all relay_example _ Reachable.init (by decide))
      (by decide) (by decide) (by decide) (by decide)).2.2.1⟩

/-- C22: a body byte `r` (top bit clear) received without line error while the
open frame is valid and the buffer has room (`write_pos ≠ tail`) is stored at
`write_pos`, and `write_pos` advances by one modulo 32; `head`, `tail`,
`global_prot_var` with the sticky overflow flag, and every other slot are
unchanged. -/
theorem C22_body_byte_appended (s : RxState) (r : Nat)
    (hv : open_frame_valid s) (hw : s.write_pos ≠ s.tail) (hb : r &&& (1 <<< 7) = 0) :
    (ISR_USART1_RXC s false false r).buf s.write_pos = r ∧
    (ISR_USART1_RXC s false false r).write_pos = (s.write_pos + 1) % 32 ∧
    (ISR_USART1_RXC s false false r).head = s.head ∧
    (ISR_USART1_RXC s false false r).tail = s.tail ∧
    (ISR_USART1_RXC s false false r).global_prot_var = s.global_prot_var ∧
    ∀ j, j ≠ s.write_pos → (ISR_USART1_RXC s false false r).buf j = s.buf j := by
  rw [isr_body_room s r hv hb hw]
  exact ⟨buf_set_same _ _ _, rfl, rfl, rfl, rfl, fun j hj => buf_set_other _ _ _ _ hj⟩

/-- Witness for C22: after the frame `A5 10 00 35` and the start byte `80`, the
body byte `11` arrives. -/
theorem C22_body_byte_appended_witness :
    (ISR_USART1_RXC (receive_all RxState.init relay_example) false false 0x11).buf 5 = 0x11 ∧
    (ISR_USART1_RXC (receive_all RxState.init relay_example) false false 0x11).write_pos = 6 ∧
    (ISR_USART1_RXC (receive_all RxState.init relay_example) false false 0x11).head = 4 :=
  ⟨(C22_body_byte_appended (receive_all RxState.init relay_example) 0x11
      (by decide) (by decide) (by decide)).1,
    (C22_body_byte_appended (receive_all RxState.init relay_example) 0x11
      (by decide) (by decide) (by decide)).2.1,
    (C22_body_byte_appended (receive_all RxState.init relay_example) 0x11
      (by decide) (by decide) (by decide)).2.2.1⟩

/-- C23: a frame-start byte `r` received without line error while there is no
valid open frame (the byte at `head` has its top bit clear). For `r` in
`0x80..0xEF` the byte is written at `head` and is the open frame, `write_pos`
right after it; `head`, `tail`, the flags and every other slot are unchanged,
so nothing is published. For `r` in `0xF0..0xFF` the byte is not admitted: the
handler is discarding afterwards; when the slot after `head` is free the code
`0xF3` is published at the old `head`, `head` advances by one and the flags are
unchanged; when it is not free, `head` stays and the sticky overflow flag is
set. -/
theorem C23_start_byte_no_open_frame (s : RxState) (r : Nat)
    (hn : ¬ open_frame_valid s) (h1 : 0x80 ≤ r) (h2 : r < 256) :
    (r < 0xF0 →
      (ISR_USART1_RXC s false false r).buf s.head = r ∧
      (ISR_USART1_RXC s false false r).head = s.head ∧
      (ISR_USART1_RXC s false false r).write_pos = (s.head + 1) % 32 ∧
      (ISR_USART1_RXC s false false r).tail = s.tail ∧
      (ISR_USART1_RXC s false false r).global_prot_var = s.global_prot_var ∧
      ∀ j, j ≠ s.head → (ISR_USART1_RXC s false false r).buf j = s.buf j) ∧
    (0xF0 ≤ r →
      ¬ open_frame_valid (ISR_USART1_RXC s false false r) ∧
      (ISR_USART1_RXC s false false r).tail = s.tail ∧
      ((s.head + 1) % 32 ≠ s.tail →
        (ISR_USART1_RXC s false false r).buf s.head = RECV_ERR_CHAIN_LONG ∧
        (ISR_USART1_RXC s false false r).head = (s.head + 1) % 32 ∧
        (ISR_USART1_RXC s false false r).global_prot_var = s.global_prot_var ∧
        ∀ j, j ≠ s.head → j ≠ (s.head + 1) % 32 →
          (ISR_USART1_RXC s false false r).buf j = s.buf j) ∧
      ((s.head + 1) % 32 = s.tail →
        (ISR_USART1_RXC s false false r).head = s.head ∧
        overflow_flag (ISR_USART1_RXC s false false r))) := by
  have htop := start_byte_top r h2 h1
  have c0 : s.buf s.head &&& (1 <<< 7) = 0 := Decidable.not_not.1 hn
  refine ⟨fun hlt => ?_, fun hge => ?_⟩
  · rw [isr_start_discard s r c0 htop hlt]
    exact ⟨buf_set_same _ _ _, rfl, rfl, rfl, rfl, fun j hj => buf_set_other _ _ _ _ hj⟩
  · rw [isr_start7_discard s r c0 htop hge]
    by_cases c1 : (s.head + 1) % 32 = s.tail
    · rw [if_pos c1]
      refine ⟨?_, rfl, fun h => absurd c1 h, fun _ => ⟨rfl, or_bit_and_bit _⟩⟩
      intro hb
      unfold open_frame_valid at hb
      simp only [buf_set_same] at hb
      exact absurd zero_and_top hb
    · rw [if_neg c1]
      refine ⟨?_, rfl, fun _ => ⟨?_, rfl, rfl, fun j hj hj2 => ?_⟩, fun h => absurd h c1⟩
      · intro hb
        unfold open_frame_valid at hb
        simp only [buf_set_same] at hb
        exact absurd zero_and_top hb
      · simp only
        rw [buf_set_other _ _ _ _ (by omega), buf_set_same]
      · simp only
        rw [buf_set_other _ _ _ _ hj2, buf_set_other _ _ _ _ hj]

/-- Witness for C23: the start bytes `85` and `F1` arriving in the power-up
state. -/
theorem C23_start_byte_no_open_frame_witness :
    ((ISR_USART1_RXC RxState.init false false 0x85).buf 0 = 0x85 ∧
      (ISR_USART1_RXC RxState.init false false 0x85).head = 0 ∧
      (ISR_USART1_RXC RxState.init false false 0x85).write_pos = 1) ∧
    ((ISR_USART1_RXC RxState.init false false 0xF1).buf 0 = 0xF3 ∧
      (ISR_USART1_RXC RxState.init false false 0xF1).head = 1 ∧
      ¬ open_frame_valid (ISR_USART1_RXC RxState.init false false 0xF1)) :=
  ⟨⟨((C23_start_byte_no_open_frame RxState.init 0x85 (by decide) (by decide) (by decide)).1
        (by decide)).1,
      ((C23_start_byte_no_open_frame RxState.init 0x85 (by decide) (by decide) (by decide)).1
        (by decide)).2.1,
      ((C23_start_byte_no_open_frame RxState.init 0x85 (by decide) (by decide) (by decide)).1
        (by decide)).2.2.1⟩,
    ⟨(((C23_start_byte_no_open_frame RxState.init 0xF1 (by decide) (by decide) (by decide)).2
        (by decide)).2.2.1 (by decide)).1,
      (((C23_start_byte_no_open_frame RxState.init 0xF1 (by decide) (by decide) (by decide)).2
        (by decide)).2.2.1 (by decide)).2.1,
      ((C23_start_byte_no_open_frame RxState.init 0xF1 (by decide) (by decide) (by decide)).2
        (by decide)).1⟩⟩


/-- Where a frame-start byte with address 7 is refused: without line error the
handler is discarding after the step in every buffer condition but two, an open
frame that fills the whole buffer (`write_pos = tail = head`) and an open frame
with a single free slot behind it (`write_pos + 1 = tail`). -/
theorem address7_refused (s : RxState) (r : Nat) (h1 : 0xF0 ≤ r) (h2 : r < 256)
    (hc : ¬ open_frame_valid s ∨ (s.write_pos = s.tail ∧ s.head ≠ s.tail) ∨
      (s.write_pos ≠ s.tail ∧ (s.write_pos + 1) % 32 ≠ s.tail)) :
    ¬ open_frame_valid (ISR_USART1_RXC s false false r) := by
  have htop := start_byte_top r h2 (by omega)
  have hz : ∀ (b : Nat → Nat) (i : Nat), ¬ (buf_set b i 0 i &&& (1 <<< 7) ≠ 0) := by
    intro b i hb
    rw [buf_set_same] at hb
    exact absurd zero_and_top hb
  by_cases c0 : s.buf s.head &&& (1 <<< 7) = 0
  · rw [isr_start7_discard s r c0 htop h1]
    by_cases c1 : (s.head + 1) % 32 = s.tail
    · rw [if_pos c1]; exact hz _ _
    · rw [if_neg c1]; exact hz _ _
  · rcases hc with h | ⟨cw, ce⟩ | ⟨cw, c1⟩
    · exact absurd h (not_not.2 c0)
    · rw [isr_start7_full s r c0 htop cw ce h1]
      by_cases c1 : (s.head + 1) % 32 = s.tail
      · rw [if_pos c1]; exact hz _ _
      · rw [if_neg c1]; exact hz _ _
    · rw [isr_start7_room s r c0 htop cw h1, if_neg c1]
      exact hz _ _

set_option maxRecDepth 100000 in
/-- C24, the code at the failing input: after the start byte `80` and 30 body
bytes the open frame is valid and the buffer is not full (`write_pos = 31`,
`tail = 0`). The start byte `F0` (address 7) then clears the slot at
`write_pos` only: `head` stays at 0 with the start byte `80` in it, so the
open frame stays valid and is not published, and the body byte `70` of the
address-7 frame is stored at slot 31 as part of the open frame. With one more
body byte before it (`write_pos = tail = head`) the start byte `F0` itself is
stored as the start of the open frame. -/
theorem C24_address7_frame_not_ignored :
    open_frame_valid (receive_all RxState.init almost_full_trace) ∧
    (receive_all RxState.init almost_full_trace).write_pos = 31 ∧
    (receive_all RxState.init almost_full_trace).tail = 0 ∧
    (ISR_USART1_RXC (receive_all RxState.init almost_full_trace) false false 0xF0).head = 0 ∧
    (ISR_USART1_RXC (receive_all RxState.init almost_full_trace) false false 0xF0).buf 0
      = 0x80 ∧
    open_frame_valid
      (ISR_USART1_RXC (receive_all RxState.init almost_full_trace) false false 0xF0) ∧
    (receive_all RxState.init (almost_full_trace ++ [rx_ok 0xF0, rx_ok 0x70])).buf 31 = 0x70 ∧
    (receive_all RxState.init (almost_full_trace ++ [rx_ok 0xF0, rx_ok 0x70])).write_pos = 0 ∧
    open_frame_valid (receive_all RxState.init (almost_full_trace ++ [rx_ok 0xF0, rx_ok 0x70])) ∧
    (ISR_USART1_RXC (receive_all RxState.init whole_buffer_trace) false false 0xF0).head = 1 ∧
    (ISR_USART1_RXC (receive_all RxState.init whole_buffer_trace) false false 0xF0).buf 1
      = 0xF0 := by
  decide

/-- C25: a byte received with the framing-error flag set while the slot after
`head` is free. The handler writes the malformed-packet code `0xF2` at `head`
and clears the next slot, advances `head` by one, so the code is published as
a one-byte unit and the handler is discarding; `tail`, `write_pos`, the flags,
every other slot and so the unread region are unchanged, and the state does
not depend on the received byte. -/
theorem C25_framing_error (s : RxState) (dor1 : Bool) (r : Nat)
    (hh : s.head < 32) (ht : s.tail < 32) (h1 : (s.head + 1) % 32 ≠ s.tail) :
    (ISR_USART1_RXC s true dor1 r).buf s.head = RECV_ERR_MALFORMED ∧
    (ISR_USART1_RXC s true dor1 r).head = (s.head + 1) % 32 ∧
    ¬ open_frame_valid (ISR_USART1_RXC s true dor1 r) ∧
    (ISR_USART1_RXC s true dor1 r).tail = s.tail ∧
    (ISR_USART1_RXC s true dor1 r).write_pos = s.write_pos ∧
    (ISR_USART1_RXC s true dor1 r).global_prot_var = s.global_prot_var ∧
    (∀ j, j ≠ s.head → j ≠ (s.head + 1) % 32 → (ISR_USART1_RXC s true dor1 r).buf j = s.buf j) ∧
    (∀ i, i < (s.head + 32 - s.tail) % 32 →
      (ISR_USART1_RXC s true dor1 r).buf ((s.tail + i) % 32) = s.buf ((s.tail + i) % 32)) ∧
    (∀ r2, ISR_USART1_RXC s true dor1 r2 = ISR_USART1_RXC s true dor1 r) := by
  refine ⟨?_, ?_, ?_, ?_, ?_, ?_, ?_, ?_, fun r2 => by rw [isr_fe_eq, isr_fe_eq]⟩ <;>
    rw [isr_fe_eq, if_neg h1]
  · simp only
    rw [buf_set_other _ _ _ _ (by omega), buf_set_same]
  · intro hb
    unfold open_frame_valid at hb
    simp only [buf_set_same] at hb
    exact absurd zero_and_top hb
  · intro j hj hj2
    simp only
    rw [buf_set_other _ _ _ _ hj2, buf_set_other _ _ _ _ hj]
  · intro i hi
    simp only
    rw [buf_set_other _ _ _ _ (by omega), buf_set_other _ _ _ _ (by omega)]

/-- Witness for C25: a framing error after the frame `A5 10 00 35` and the
start byte `80`. -/
theorem C25_framing_error_witness :
    (ISR_USART1_RXC (receive_all RxState.init relay_example) true false 0x55).buf 4 = 0xF2 ∧
    (ISR_USART1_RXC (receive_all RxState.init relay_example) true false 0x55).head = 5 ∧
    ¬ open_frame_valid (ISR_USART1_RXC (receive_all RxState.init relay_example) true false 0x55) :=
  ⟨(C25_framing_error (receive_all RxState.init relay_example) false 0x55
      (by decide) (by decide) (by decide)).1,
    (C25_framing_error (receive_all RxState.init relay_example) false 0x55
      (by decide) (by decide) (by decide)).2.1,
    (C25_framing_error (receive_all RxState.init relay_example) false 0x55
      (by decide) (by decide) (by decide)).2.2.1⟩

/-- C26: a byte `r` below `0xF0` received with the overrun flag set and no
framing error while the slot after `head` is free. The handler writes the
hard-overflow code `0xF5` at `head` and `r` into the next slot and advances
`head` by one, so the code is published; `r` is at the new `head` with
`write_pos` right after it, and it starts the open frame when it is in
`0x80..0xEF`. `tail`, the flags, every other slot and so the unread region are
unchanged. -/
theorem C26_overrun (s : RxState) (r : Nat)
    (hh : s.head < 32) (ht : s.tail < 32) (h1 : (s.head + 1) % 32 ≠ s.tail) (h2 : r < 0xF0) :
    (ISR_USART1_RXC s false true r).buf s.head = RECV_ERR_H_OVERFLOW ∧
    (ISR_USART1_RXC s false true r).buf ((s.head + 1) % 32) = r ∧
    (ISR_USART1_RXC s false true r).head = (s.head + 1) % 32 ∧
    (ISR_USART1_RXC s false true r).write_pos = ((s.head + 1) % 32 + 1) % 32 ∧
    (0x80 ≤ r → open_frame_valid (ISR_USART1_RXC s false true r)) ∧
    (ISR_USART1_RXC s false true r).tail = s.tail ∧
    (ISR_USART1_RXC s false true r).global_prot_var = s.global_prot_var ∧
    (∀ j, j ≠ s.head → j ≠ (s.head + 1) % 32 → (ISR_USART1_RXC s false true r).buf j = s.buf j) ∧
    (∀ i, i < (s.head + 32 - s.tail) % 32 →
      (ISR_USART1_RXC s false true r).buf ((s.tail + i) % 32) = s.buf ((s.tail + i) % 32)) := by
  rw [isr_dor_eq s r h1 h2]
  refine ⟨?_, buf_set_same _ _ _, rfl, rfl, ?_, rfl, rfl, ?_, ?_⟩
  · simp only
    rw [buf_set_other _ _ _ _ (by omega), buf_set_same]
  · intro hr
    unfold open_frame_valid
    simp only [buf_set_same]
    exact start_byte_top r (by omega) hr
  · intro j hj hj2
    simp only
    rw [buf_set_other _ _ _ _ hj2, buf_set_other _ _ _ _ hj]
  · intro i hi
    simp only
    rw [buf_set_other _ _ _ _ (by omega), buf_set_other _ _ _ _ (by omega)]

/-- Witness for C26: the start byte `85` retrieved after an overrun that
follows the frame `A5 10 00 35` and the start byte `80`. -/
theorem C26_overrun_witness :
    (ISR_USART1_RXC (receive_all RxState.init relay_example) false true 0x85).buf 4 = 0xF5 ∧
    (ISR_USART1_RXC (receive_all RxState.init relay_example) false true 0x85).buf 5 = 0x85 ∧
    (ISR_USART1_RXC (receive_all RxState.init relay_example) false true 0x85).head = 5 ∧
    (ISR_USART1_RXC (receive_all RxState.init relay_example) false true 0x85).write_pos = 6 :=
  ⟨(C26_overrun (receive_all RxState.init relay_example) 0x85
      (by decide) (by decide) (by decide) (by decide)).1,
    (C26_overrun (receive_all RxState.init relay_example) 0x85
      (by decide) (by decide) (by decide) (by decide)).2.1,
    (C26_overrun (receive_all RxState.init relay_example) 0x85
      (by decide) (by decide) (by decide) (by decide)).2.2.1,
    (C26_overrun (receive_all RxState.init relay_example) 0x85
      (by decide) (by decide) (by decide) (by decide)).2.2.2.1⟩

/-- C27: a body byte received without line error while the open frame is
valid, the buffer is full (`write_pos = tail`) and closed frames are unread
(`head ≠ tail`). The handler clears the byte at `head`, so it is discarding,
and sets the sticky overflow flag; `head`, `tail`, every other slot and so
every slot of the unread region `[tail, head)` are unchanged. -/
theorem C27_body_byte_evicts_open_frame (s : RxState) (r : Nat)
    (hv : open_frame_valid s) (hw : s.write_pos = s.tail) (hne : s.head ≠ s.tail)
    (hb : r &&& (1 <<< 7) = 0) :
    (ISR_USART1_RXC s false false r).buf s.head = 0 ∧
    ¬ open_frame_valid (ISR_USART1_RXC s false false r) ∧
    overflow_flag (ISR_USART1_RXC s false false r) ∧
    (ISR_USART1_RXC s false false r).head = s.head ∧
    (ISR_USART1_RXC s false false r).tail = s.tail ∧
    (∀ j, j ≠ s.head → (ISR_USART1_RXC s false false r).buf j = s.buf j) ∧
    (∀ i, i < (s.head + 32 - s.tail) % 32 →
      (ISR_USART1_RXC s false false r).buf ((s.tail + i) % 32) = s.buf ((s.tail + i) % 32)) := by
  rw [isr_body_full s r hv hb hw hne]
  refine ⟨buf_set_same _ _ _, ?_, or_bit_and_bit _, rfl, rfl,
    fun j hj => buf_set_other _ _ _ _ hj, ?_⟩
  · intro hb
    unfold open_frame_valid at hb
    simp only [buf_set_same] at hb
    exact absurd zero_and_top hb
  · intro i hi
    simp only
    rw [buf_set_other _ _ _ _ (by omega)]

set_option maxRecDepth 100000 in
/-- Witness for C27: a body byte arriving when the closed frame `81 01` and an
open frame of 30 bytes fill the buffer. -/
theorem C27_body_byte_evicts_open_frame_witness :
    (ISR_USART1_RXC (receive_all RxState.init full_example) false false 0x00).buf 2 = 0 ∧
    ¬ open_frame_valid (ISR_USART1_RXC (receive_all RxState.init full_example) false false 0x00) ∧
    overflow_flag (ISR_USART1_RXC (receive_all RxState.init full_example) false false 0x00) := by
  have h := C27_body_byte_evicts_open_frame (receive_all RxState.init full_example) 0x00
    (by decide) (by decide) (by decide) (by decide)
  exact ⟨h.1, h.2.1, h.2.2.1⟩

/-! ### A frame that fills the whole buffer -/

theorem receive_all_append : ∀ (xs ys : List (Bool × Bool × Nat)) (s : RxState),
    receive_all s (xs ++ ys) = receive_all (receive_all s xs) ys
  | [], _, _ => rfl
  | x :: xs, ys, s => by
    rw [List.cons_append, receive_all, receive_all, receive_all_append xs ys]

theorem receive_all_ok_cons (s : RxState) (b : Nat) (xs : List (Bool × Bool × Nat)) :
    receive_all s (rx_ok b :: xs) = receive_all (ISR_USART1_RXC s false false b) xs := rfl

/-- The unread region is the list `l` when it has the length of `l` and holds
its bytes. -/
theorem region_bytes_eq (s : RxState) (l : List Nat)
    (hlen : (s.head + 32 - s.tail) % 32 = l.length)
    (h : ∀ i, i < l.length → s.buf ((s.tail + i) % 32) = l.getD i 0) :
    region_bytes s = l := by
  apply List.ext_getElem
  · rw [region_bytes_length, hlen]
  · intro i h1 h2
    have e := region_bytes_getD s i (by rw [hlen]; exact h2)
    rw [h i h2, List.getD_eq_getElem _ _ h1, List.getD_eq_getElem _ _ h2] at e
    exact e

/-- Body bytes received while the handler is discarding leave the state
unchanged. -/
theorem receive_body_discard : ∀ (body : List Nat) (s : RxState),
    ¬ open_frame_valid s → (∀ b ∈ body, b &&& (1 <<< 7) = 0) →
    receive_all s (body.map rx_ok) = s
  | [], _, _, _ => rfl
  | b :: rest, s, hn, hb => by
    rw [List.map_cons, receive_all_ok_cons,
      isr_body_discard s b (Decidable.not_not.1 hn) (hb b (List.mem_cons_self _ _))]
    exact receive_body_discard rest s hn (fun x hx => hb x (List.mem_cons_of_mem _ hx))

/-- Body bytes received while a frame that starts at slot 0 is open in an
otherwise empty buffer, as long as they fit: they are stored in the slots from
`write_pos` on. -/
theorem receive_body_room : ∀ (body : List Nat) (s : RxState) (w : Nat),
    s.head = 0 → s.tail = 0 → s.buf 0 &&& (1 <<< 7) ≠ 0 → s.write_pos = w % 32 → 1 ≤ w →
    w + body.length ≤ 32 → (∀ b ∈ body, b &&& (1 <<< 7) = 0) →
    (receive_all s (body.map rx_ok)).head = 0 ∧
    (receive_all s (body.map rx_ok)).tail = 0 ∧
    (receive_all s (body.map rx_ok)).global_prot_var = s.global_prot_var ∧
    (receive_all s (body.map rx_ok)).write_pos = (w + body.length) % 32 ∧
    (∀ j, j < w → (receive_all s (body.map rx_ok)).buf j = s.buf j) ∧
    (∀ i, i < body.length → (receive_all s (body.map rx_ok)).buf (w + i) = body.getD i 0)
  | [], s, w, hh, ht, _, hw, _, _, _ =>
    ⟨hh, ht, rfl, hw, fun _ _ => rfl, fun i hi => absurd hi (Nat.not_lt_zero i)⟩
  | b :: rest, s, w, hh, ht, hv, hw, h1, hlen, hb => by
    rw [List.length_cons] at hlen
    have hv2 : s.buf s.head &&& (1 <<< 7) ≠ 0 := by rw [hh]; exact hv
    have cw : s.write_pos ≠ s.tail := by rw [hw, ht]; omega
    rw [List.map_cons, receive_all_ok_cons,
      isr_body_room s b hv2 (hb b (List.mem_cons_self _ _)) cw]
    have hne : (0 : Nat) ≠ s.write_pos := by rw [hw]; omega
    obtain ⟨a1, a2, a3, a4, a5, a6⟩ := receive_body_room rest
      ⟨buf_set s.buf s.write_pos b, s.head, s.tail, (s.write_pos + 1) % 32, s.global_prot_var⟩
      (w + 1) hh ht (by simp only; rw [buf_set_other _ _ _ _ hne]; exact hv)
      (by simp only; rw [hw]; omega) (by omega) (by omega)
      (fun x hx => hb x (List.mem_cons_of_mem _ hx))
    refine ⟨a1, a2, a3, by rw [a4, List.length_cons]; congr 1; omega, ?_, ?_⟩
    · intro j hj
      rw [a5 j (by omega)]
      simp only
      rw [buf_set_other _ _ _ _ (by rw [hw]; omega)]
    · intro i hi
      cases i with
      | zero =>
        have e0 : w + 0 = w := rfl
        rw [e0, a5 w (by omega)]
        simp only
        have e : s.write_pos = w := by rw [hw]; omega
        rw [e, buf_set_same]
        rfl
      | succ k =>
        have e : w + (k + 1) = w + 1 + k := by omega
        rw [e, a6 k (by rw [List.length_cons] at hi; omega)]
        rfl


theorem receive_all_ok_one (s : RxState) (b : Nat) :
    receive_all s [rx_ok b] = ISR_USART1_RXC s false false b := rfl

/-- The start byte `S` of a frame received in the power-up state. -/
theorem receive_start_init (S : Nat) (h1 : 0x80 ≤ S) (h2 : S < 0xF0) :
    ISR_USART1_RXC RxState.init false false S = ⟨buf_set (fun _ => 0) 0 S, 0, 0, 1, 0⟩ :=
  isr_start_discard RxState.init S (by decide) (start_byte_top S (by omega) h1) h2

/-- C28: from the power-up state, without line error and without a
`comm_forward` call, a frame of `L` wire bytes (start byte `S` in `0x80..0xEF`
and `L - 1` body bytes) followed by a start byte `S2` in `0x80..0xEF`. The
sticky overflow flag is not set, `tail` is 0 and `S2` starts the open frame.
For `L ≤ 31` the unread region holds the frame intact; for `L ≥ 32` it holds
the single malformed-packet code `0xF2`. -/
theorem C28_whole_buffer_frame (S : Nat) (body : List Nat) (S2 : Nat)
    (hS1 : 0x80 ≤ S) (hS2 : S < 0xF0) (hbody : ∀ b ∈ body, b &&& (1 <<< 7) = 0)
    (hT1 : 0x80 ≤ S2) (hT2 : S2 < 0xF0) :
    (receive_all RxState.init (frame_trace S body S2)).tail = 0 ∧
    ¬ overflow_flag (receive_all RxState.init (frame_trace S body S2)) ∧
    frame_start_admitted S2 (receive_all RxState.init (frame_trace S body S2)) ∧
    (body.length + 1 ≤ 31 →
      region_bytes (receive_all RxState.init (frame_trace S body S2)) = S :: body) ∧
    (32 ≤ body.length + 1 →
      region_bytes (receive_all RxState.init (frame_trace S body S2))
        = [RECV_ERR_MALFORMED]) := by
  have hS := start_byte_top S (by omega) hS1
  have hT := start_byte_top S2 (by omega) hT1
  have hflag : ∀ g : Nat, g = 0 → ¬ (g &&& CHAIN_OVERFLOW_BIT ≠ 0) := by
    intro g hg
    rw [hg]
    decide
  unfold frame_trace
  rw [receive_all_ok_cons, receive_start_init S hS1 hS2, receive_all_append, receive_all_ok_one]
  by_cases hl : body.length ≤ 30
  · obtain ⟨a1, a2, a3, a4, a5, a6⟩ := receive_body_room body
      ⟨buf_set (fun _ => 0) 0 S, 0, 0, 1, 0⟩ 1 rfl rfl (by simp only [buf_set_same]; exact hS) rfl
      (le_refl 1) (by omega) hbody
    generalize receive_all ⟨buf_set (fun _ => 0) 0 S, 0, 0, 1, 0⟩ (body.map rx_ok) = s2
      at a1 a2 a3 a4 a5 a6 ⊢
    have b0 : s2.buf 0 = S := by rw [a5 0 (by omega)]; simp only [buf_set_same]
    have hv : s2.buf s2.head &&& (1 <<< 7) ≠ 0 := by rw [a1, b0]; exact hS
    have cw : s2.write_pos ≠ s2.tail := by rw [a4, a2]; omega
    rw [isr_start_room s2 S2 hv hT cw hT2]
    refine ⟨a2, hflag _ a3, ⟨buf_set_same _ _ _, rfl⟩, fun _ => ?_, fun h => absurd h (by omega)⟩
    apply region_bytes_eq
    · simp only
      rw [a4, a2, List.length_cons]
      omega
    · intro i hi
      rw [List.length_cons] at hi
      simp only
      have e : (s2.tail + i) % 32 = i := by rw [a2]; omega
      rw [e, buf_set_other _ _ _ _ (by rw [a4]; omega)]
      cases i with
      | zero => exact b0
      | succ k =>
        have e2 := a6 k (by omega)
        rw [Nat.add_comm 1 k] at e2
        rw [e2]
        rfl
  · have hr : receive_all ⟨buf_set (fun _ => 0) 0 S, 0, 0, 1, 0⟩ (body.map rx_ok) =
        receive_all (receive_all ⟨buf_set (fun _ => 0) 0 S, 0, 0, 1, 0⟩
          ((body.take 31).map rx_ok)) ((body.drop 31).map rx_ok) := by
      rw [← receive_all_append, ← List.map_append, List.take_append_drop]
    have hlt : (body.take 31).length = 31 := by rw [List.length_take]; omega
    obtain ⟨a1, a2, a3, a4, a5, _⟩ := receive_body_room (body.take 31)
      ⟨buf_set (fun _ => 0) 0 S, 0, 0, 1, 0⟩ 1 rfl rfl (by simp only [buf_set_same]; exact hS) rfl
      (le_refl 1) (by omega) (fun b hb => hbody b (List.mem_of_mem_take hb))
    rw [hr]
    rw [hlt] at a4
    generalize receive_all ⟨buf_set (fun _ => 0) 0 S, 0, 0, 1, 0⟩ ((body.take 31).map rx_ok)
      = s2 at a1 a2 a3 a4 a5 ⊢
    have b0 : s2.buf 0 = S := by rw [a5 0 (by omega)]; simp only [buf_set_same]
    have hv : s2.buf s2.head &&& (1 <<< 7) ≠ 0 := by rw [a1, b0]; exact hS
    have cw : s2.write_pos = s2.tail := by rw [a4, a2]
    have ce : s2.head = s2.tail := by rw [a1, a2]
    have hrest : ∀ b ∈ body.drop 31, b &&& (1 <<< 7) = 0 :=
      fun b hb => hbody b (List.mem_of_mem_drop hb)
    have hone : ((s2.head + 1) % 32 + 32 - s2.tail) % 32 = 1 := by rw [a1, a2]
    have hat : (s2.tail + 0) % 32 ≠ (s2.head + 1) % 32 := by rw [a1, a2]; decide
    have hat2 : (s2.tail + 0) % 32 = s2.head := by rw [a1, a2]
    cases hd : body.drop 31 with
    | nil =>
      rw [List.map_nil]
      have e0 : receive_all s2 [] = s2 := rfl
      rw [e0, isr_start_full_alone s2 S2 hv hT cw ce]
      refine ⟨a2, hflag _ a3, ⟨buf_set_same _ _ _, rfl⟩, fun h => absurd h (by omega),
        fun _ => ?_⟩
      apply region_bytes_eq
      · exact hone
      · intro i hi
        obtain rfl : i = 0 := by
          rw [List.length_singleton] at hi
          omega
        simp only
        rw [buf_set_other _ _ _ _ hat, hat2, buf_set_same]
        rfl
    | cons b rest =>
      rw [hd] at hrest
      rw [List.map_cons, receive_all_ok_cons,
        isr_body_full_alone s2 b hv (hrest b (List.mem_cons_self _ _)) cw ce]
      have hn : ¬ open_frame_valid
          ⟨buf_set (buf_set s2.buf s2.head RECV_ERR_MALFORMED) ((s2.head + 1) % 32) 0,
            (s2.head + 1) % 32, s2.tail, s2.write_pos, s2.global_prot_var⟩ := by
        intro hb
        unfold open_frame_valid at hb
        simp only [buf_set_same] at hb
        exact absurd zero_and_top hb
      rw [receive_body_discard rest _ hn (fun x hx => hrest x (List.mem_cons_of_mem _ hx)),
        isr_start_discard _ S2 (Decidable.not_not.1 hn) hT hT2]
      refine ⟨a2, hflag _ a3, ⟨buf_set_same _ _ _, rfl⟩, fun h => absurd h (by omega),
        fun _ => ?_⟩
      apply region_bytes_eq
      · exact hone
      · intro i hi
        obtain rfl : i = 0 := by
          rw [List.length_singleton] at hi
          omega
        simp only
        rw [buf_set_other _ _ _ _ hat, buf_set_other _ _ _ _ hat, hat2, buf_set_same]
        rfl

set_option maxRecDepth 100000 in
/-- Witness for C28: the frame `85 01 02 06` followed by the start byte `80`,
and the frame of 32 bytes `80 00 .. 00` followed by the start byte `81`. -/
theorem C28_whole_buffer_frame_witness :
    region_bytes (receive_all RxState.init (frame_trace 0x85 [0x01, 0x02, 0x06] 0x80))
      = [0x85, 0x01, 0x02, 0x06] ∧
    region_bytes (receive_all RxState.init (frame_trace 0x80 (List.replicate 31 0x00) 0x81))
      = [0xF2] ∧
    ¬ overflow_flag (receive_all RxState.init (frame_trace 0x80 (List.replicate 31 0x00) 0x81)) := by
  have h := C28_whole_buffer_frame 0x85 [0x01, 0x02, 0x06] 0x80
    (by decide) (by decide) (by decide) (by decide) (by decide)
  have h2 := C28_whole_buffer_frame 0x80 (List.replicate 31 0x00) 0x81
    (by decide) (by decide) (by decide) (by decide) (by decide)
  exact ⟨h.2.2.2.1 (by decide), h2.2.2.2.2 (by decide), h2.2.1⟩


set_option maxRecDepth 100000 in
/-- C29, the code at the failing input: after the start byte `80` and 31 body
bytes the open frame is valid and fills the whole buffer
(`write_pos = tail = head = 0`). The start byte `F0` (address 7) then has the
frame overwritten with the malformed-packet code `0xF2`, not `0xF3`, and is
itself stored behind the code as the start of the new open frame. -/
theorem C29_address7_start_admitted :
    open_frame_valid (receive_all RxState.init whole_buffer_trace) ∧
    (receive_all RxState.init whole_buffer_trace).write_pos
      = (receive_all RxState.init whole_buffer_trace).tail ∧
    (receive_all RxState.init whole_buffer_trace).head
      = (receive_all RxState.init whole_buffer_trace).tail ∧
    (ISR_USART1_RXC (receive_all RxState.init whole_buffer_trace) false false 0xF0).buf 0
      = 0xF2 ∧
    (ISR_USART1_RXC (receive_all RxState.init whole_buffer_trace) false false 0xF0).head = 1 ∧
    (ISR_USART1_RXC (receive_all RxState.init whole_buffer_trace) false false 0xF0).buf 1
      = 0xF0 ∧
    (ISR_USART1_RXC (receive_all RxState.init whole_buffer_trace) false false 0xF0).write_pos
      = 2 ∧
    open_frame_valid
      (ISR_USART1_RXC (receive_all RxState.init whole_buffer_trace) false false 0xF0) := by
  decide

set_option maxRecDepth 100000 in
/-- C30 as stated fails: when the closed frame `81 01` and an open frame of 30
bytes fill the buffer, the start byte `83` sets the sticky overflow flag but is
not dropped; it is stored at `head` and the byte at `head` has its top bit
set. -/
theorem C30_counterexample :
    open_frame_valid (receive_all RxState.init full_example) ∧
    (receive_all RxState.init full_example).write_pos
      = (receive_all RxState.init full_example).tail ∧
    (receive_all RxState.init full_example).head
      ≠ (receive_all RxState.init full_example).tail ∧
    ¬ (overflow_flag (ISR_USART1_RXC (receive_all RxState.init full_example) false false 0x83) ∧
      (ISR_USART1_RXC (receive_all RxState.init full_example) false false 0x83).buf
        (ISR_USART1_RXC (receive_all RxState.init full_example) false false 0x83).head
        &&& (1 <<< 7) = 0) := by
  decide

/-- C30, amended: a frame-start byte `r` received without line error while the
open frame is valid, the buffer is full (`write_pos = tail`) and closed frames
are unread (`head ≠ tail`). The handler sets the sticky overflow flag and
leaves `tail`. A byte in `0x80..0xEF` replaces the open frame: it is stored at
`head` as the start of the new open frame, `write_pos` right after it, `head`
and every other slot unchanged. A byte in `0xF0..0xFF` is dropped and the
handler is discarding afterwards. -/
theorem C30_start_byte_replaces_open_frame (s : RxState) (r : Nat)
    (hv : open_frame_valid s) (hw : s.write_pos = s.tail) (hne : s.head ≠ s.tail)
    (h1 : 0x80 ≤ r) (h2 : r < 256) :
    overflow_flag (ISR_USART1_RXC s false false r) ∧
    (ISR_USART1_RXC s false false r).tail = s.tail ∧
    (r < 0xF0 →
      (ISR_USART1_RXC s false false r).buf s.head = r ∧
      (ISR_USART1_RXC s false false r).head = s.head ∧
      (ISR_USART1_RXC s false false r).write_pos = (s.head + 1) % 32 ∧
      open_frame_valid (ISR_USART1_RXC s false false r) ∧
      ∀ j, j ≠ s.head → (ISR_USART1_RXC s false false r).buf j = s.buf j) ∧
    (0xF0 ≤ r → ¬ open_frame_valid (ISR_USART1_RXC s false false r)) := by
  have htop := start_byte_top r h2 h1
  by_cases cF : r < 0xF0
  · rw [isr_start_full s r hv htop hw hne cF]
    refine ⟨or_bit_and_bit _, rfl, fun _ => ⟨buf_set_same _ _ _, rfl, rfl, ?_,
      fun j hj => buf_set_other _ _ _ _ hj⟩, fun h => absurd cF (by omega)⟩
    unfold open_frame_valid
    simp only [buf_set_same]
    exact htop
  · refine ⟨?_, ?_, fun h => absurd h cF,
      fun h => address7_refused s r h h2 (Or.inr (Or.inl ⟨hw, hne⟩))⟩ <;>
      rw [isr_start7_full s r hv htop hw hne (by omega)]
    · by_cases c1 : (s.head + 1) % 32 = s.tail
      · rw [if_pos c1]; exact or_bit_and_bit _
      · rw [if_neg c1]; exact or_bit_and_bit _
    · by_cases c1 : (s.head + 1) % 32 = s.tail
      · rw [if_pos c1]
      · rw [if_neg c1]

set_option maxRecDepth 100000 in
/-- Witness for C30: the start bytes `83` and `F3` arriving when the closed
frame `81 01` and an open frame of 30 bytes fill the buffer. -/
theorem C30_start_byte_replaces_open_frame_witness :
    (overflow_flag (ISR_USART1_RXC (receive_all RxState.init full_example) false false 0x83) ∧
      (ISR_USART1_RXC (receive_all RxState.init full_example) false false 0x83).buf 2 = 0x83) ∧
    ¬ open_frame_valid (ISR_USART1_RXC (receive_all RxState.init full_example) false false 0xF3) := by
  have h := C30_start_byte_replaces_open_frame (receive_all RxState.init full_example) 0x83
    (by decide) (by decide) (by decide) (by decide) (by decide)
  have h7 := C30_start_byte_replaces_open_frame (receive_all RxState.init full_example) 0xF3
    (by decide) (by decide) (by decide) (by decide) (by decide)
  exact ⟨⟨h.1, (h.2.2.1 (by decide)).1⟩, h7.2.2.2 (by decide)⟩

/-! ### The idle timer -/

theorem rtc_period_100ms : rtc_period (mseconds 100) = 1080 := by decide

theorem idle_threshold : rtc_period (mseconds 100) >>> 8 = 4 := by decide

theorem sync_pause_threshold :
    rtc_period_least (F_CPU * 9 * 1000000 % 2 ^ 64 / UART_BAUD) + 1 = 3 := by decide

/-- C31: a body byte (top bit clear) received without line error while there is
no valid open frame (the byte at `head` has its top bit clear) changes nothing:
the state after the handler, buffer contents, `head`, `tail`, `write_pos` and
`global_prot_var` with the sticky overflow flag, is the state before. -/
theorem C31_body_byte_dropped (s : RxState) (r : Nat)
    (hn : ¬ open_frame_valid s) (hb : r &&& (1 <<< 7) = 0) :
    ISR_USART1_RXC s false false r = s :=
  isr_body_discard s r (Decidable.not_not.1 hn) hb

/-- Witness for C31: the body byte `11` arriving in the power-up state. -/
theorem C31_body_byte_dropped_witness :
    ISR_USART1_RXC RxState.init false false 0x11 = RxState.init :=
  C31_body_byte_dropped RxState.init 0x11 (by decide) (by decide)

/-- A poll that finds the line not yet recorded as idle sends nothing; it
leaves `last_byte_time` at 0 or records a time that is neither 0 nor 1. -/
theorem check_idle_active (now : Nat) (txc0 : Bool) :
    (comm_check_idle_timer 0 now txc0).2 = [] ∧
    ((comm_check_idle_timer 0 now txc0).1 = 0 ∨ 2 ≤ (comm_check_idle_timer 0 now txc0).1) := by
  unfold comm_check_idle_timer
  simp only [if_true]
  cases txc0 with
  | false => exact ⟨rfl, Or.inl rfl⟩
  | true =>
    simp only [if_true]
    by_cases h : ((now % 2 ^ 16) >>> 8) % 256 = 0 ∨ ((now % 2 ^ 16) >>> 8) % 256 = 1
    · rw [if_pos h]; exact ⟨rfl, Or.inr (by decide)⟩
    · rw [if_neg h]; exact ⟨rfl, Or.inr (by omega)⟩

/-- A poll after the Idle Frame has been sent does nothing. -/
theorem check_idle_sent (now : Nat) (txc0 : Bool) :
    comm_check_idle_timer 1 now txc0 = (1, []) := by
  unfold comm_check_idle_timer
  have h : ¬ ((1 : Nat) = 0) := by decide
  simp only [h, if_false, if_true]

/-- A poll while the line is recorded as idle either sends nothing and keeps
the recorded time, or sends the Idle Frame and records that. -/
theorem check_idle_waiting (l now : Nat) (txc0 : Bool) (hl : 2 ≤ l) :
    comm_check_idle_timer l now txc0 = (l, []) ∨
    comm_check_idle_timer l now txc0 = (1, [0x80]) := by
  unfold comm_check_idle_timer
  have h0 : ¬ (l = 0) := by omega
  have h1 : ¬ (l = 1) := by omega
  simp only [h0, h1, if_false]
  by_cases h : (((now % 2 ^ 16) >>> 8) % 256 + 256 - l % 256) % 256
      > rtc_period (mseconds 100) >>> 8
  · rw [if_pos h]; exact Or.inr rfl
  · rw [if_neg h]; exact Or.inl rfl

theorem idle_polls_sent : ∀ cs : List (Nat × Bool), idle_polls 1 cs = (1, [])
  | [] => rfl
  | c :: cs => by
    rw [idle_polls, check_idle_sent, idle_polls_sent cs]
    rfl

theorem idle_polls_waiting : ∀ (cs : List (Nat × Bool)) (l : Nat), 2 ≤ l →
    idle_polls l cs = (l, []) ∨ idle_polls l cs = (1, [0x80])
  | [], _, _ => Or.inl rfl
  | c :: cs, l, hl => by
    rw [idle_polls]
    rcases check_idle_waiting l c.1 c.2 hl with h | h
    · rw [h]
      rcases idle_polls_waiting cs l hl with h2 | h2
      · rw [h2]; exact Or.inl rfl
      · rw [h2]; exact Or.inr rfl
    · rw [h, idle_polls_sent cs]
      exact Or.inr rfl

theorem idle_polls_active : ∀ cs : List (Nat × Bool),
    (idle_polls 0 cs).2 = [] ∨ idle_polls 0 cs = (1, [0x80])
  | [] => Or.inl rfl
  | c :: cs => by
    rw [idle_polls]
    obtain ⟨h1, h2⟩ := check_idle_active c.1 c.2
    rw [h1]
    rcases h2 with h | h
    · rw [h]
      rcases idle_polls_active cs with h3 | h3
      · exact Or.inl h3
      · rw [h3]; exact Or.inr rfl
    · rcases idle_polls_waiting cs _ h with h3 | h3
      · rw [h3]; exact Or.inl rfl
      · rw [h3]; exact Or.inr rfl

theorem idle_polls_append : ∀ (a b : List (Nat × Bool)) (l : Nat),
    idle_polls l (a ++ b) =
      ((idle_polls (idle_polls l a).1 b).1, (idle_polls l a).2 ++ (idle_polls (idle_polls l a).1 b).2)
  | [], _, _ => rfl
  | c :: a, b, l => by
    rw [List.cons_append, idle_polls, idle_polls, idle_polls_append a b, List.append_assoc]

/-- C32: after `comm_start_idle_timer`, whatever the values of `now` and the
transmit-complete readings of a sequence of `comm_check_idle_timer` calls, the
bytes sent in total are none or the single byte `0x80`; once it has been sent
(by a first part `a` of the calls), the remaining calls `b` send nothing and
`last_byte_time` stays at 1; and a call that finds the line not yet recorded as
idle (`last_byte_time = 0`) sends nothing. -/
theorem C32_idle_frame_sent_once (l0 : Nat) (calls : List (Nat × Bool)) :
    ((idle_polls (comm_start_idle_timer l0) calls).2 = [] ∨
      (idle_polls (comm_start_idle_timer l0) calls).2 = [0x80]) ∧
    (∀ a b, calls = a ++ b → (idle_polls (comm_start_idle_timer l0) a).2 = [0x80] →
      idle_polls (idle_polls (comm_start_idle_timer l0) a).1 b = (1, [])) ∧
    (∀ now txc0, (comm_check_idle_timer (comm_start_idle_timer l0) now txc0).2 = []) := by
  unfold comm_start_idle_timer
  refine ⟨?_, ?_, fun now txc0 => (check_idle_active now txc0).1⟩
  · rcases idle_polls_active calls with h | h
    · exact Or.inl h
    · rw [h]; exact Or.inr rfl
  · intro a b _ ha
    rcases idle_polls_active a with h | h
    · rw [h] at ha
      exact absurd ha (by decide)
    · rw [h]
      exact idle_polls_sent b

/-- C33 as stated fails: the call with `now = 0x02FF` records the line as idle
and the call with `now = 0x0700` sends the Idle Frame, 1025 ticks later, which
is less than `rtc_period (100 mseconds) = 1080`. -/
theorem C33_counterexample :
    (comm_check_idle_timer 0 0x02FF true).1 ≠ 0 ∧
    (comm_check_idle_timer (comm_check_idle_timer 0 0x02FF true).1 0x0700 true).2 = [0x80] ∧
    ¬ ((0x0700 + 2 ^ 16 - 0x02FF) % 2 ^ 16 ≥ rtc_period (mseconds 100)) := by
  decide

/-- C33, amended: the comparison is made on the high byte of the real-time
counter. If `comm_check_idle_timer (now1)` recorded the line as idle, the calls
`mid` after it sent nothing and the call `comm_check_idle_timer (now2)` sends
`0x80`, then the high byte of `now2` is more than
`rtc_period (100 mseconds) >> 8 = 4` counts past the recorded time, which is
the high byte of `now1`, or 255 when that high byte is 0 or 1. Hence
`(now2 - now1) mod 2^16` is at least 1025 ticks when the high byte of `now1` is
2 or more, and at least 513 ticks otherwise. -/
theorem C33_idle_threshold (now1 now2 : Nat) (txc2 : Bool) (mid : List (Nat × Bool))
    (h1 : now1 < 2 ^ 16) (h2 : now2 < 2 ^ 16)
    (hmid : (idle_polls (comm_check_idle_timer 0 now1 true).1 mid).2 = [])
    (hsend : (comm_check_idle_timer
      (idle_polls (comm_check_idle_timer 0 now1 true).1 mid).1 now2 txc2).2 = [0x80]) :
    (comm_check_idle_timer 0 now1 true).1 = (if now1 >>> 8 = 0 ∨ now1 >>> 8 = 1 then 255
      else now1 >>> 8) ∧
    (now2 >>> 8 + 256 - (comm_check_idle_timer 0 now1 true).1) % 256
      > rtc_period (mseconds 100) >>> 8 ∧
    (2 ≤ now1 >>> 8 → (now2 + 2 ^ 16 - now1) % 2 ^ 16 ≥ 1025) ∧
    (now2 + 2 ^ 16 - now1) % 2 ^ 16 ≥ 513 := by
  have e1 : ((now1 % 2 ^ 16) >>> 8) % 256 = now1 / 256 := by
    rw [Nat.shiftRight_eq_div_pow]; omega
  have e2 : ((now2 % 2 ^ 16) >>> 8) % 256 = now2 / 256 := by
    rw [Nat.shiftRight_eq_div_pow]; omega
  have e3 : now1 >>> 8 = now1 / 256 := by rw [Nat.shiftRight_eq_div_pow]
  have e4 : now2 >>> 8 = now2 / 256 := by rw [Nat.shiftRight_eq_div_pow]
  have hrec : (comm_check_idle_timer 0 now1 true).1
      = (if now1 / 256 = 0 ∨ now1 / 256 = 1 then 255 else now1 / 256) := by
    unfold comm_check_idle_timer
    simp only [if_true, e1]
    by_cases h : now1 / 256 = 0 ∨ now1 / 256 = 1
    · rw [if_pos h, if_pos h]
    · rw [if_neg h, if_neg h]
  have hL : 2 ≤ (comm_check_idle_timer 0 now1 true).1 ∧
      (comm_check_idle_timer 0 now1 true).1 < 256 := by
    rw [hrec]
    by_cases h : now1 / 256 = 0 ∨ now1 / 256 = 1
    · rw [if_pos h]; omega
    · rw [if_neg h]; omega
  have hstay : (idle_polls (comm_check_idle_timer 0 now1 true).1 mid).1
      = (comm_check_idle_timer 0 now1 true).1 := by
    rcases idle_polls_waiting mid _ hL.1 with h | h
    · rw [h]
    · rw [h] at hmid
      exact absurd hmid (by decide)
  rw [hstay] at hsend
  rw [e3, e4, idle_threshold]
  generalize (comm_check_idle_timer 0 now1 true).1 = L at hrec hL hsend ⊢
  have hgt : (now2 / 256 + 256 - L) % 256 > 4 := by
    unfold comm_check_idle_timer at hsend
    have h0 : ¬ (L = 0) := by omega
    have hone : ¬ (L = 1) := by omega
    simp only [h0, hone, if_false, e2, idle_threshold, Nat.mod_eq_of_lt hL.2] at hsend
    by_cases h : (now2 / 256 + 256 - L) % 256 > 4
    · exact h
    · rw [if_neg h] at hsend
      exact absurd hsend (by simp)
  refine ⟨hrec, hgt, ?_, ?_⟩
  · intro h
    have hn : ¬ (now1 / 256 = 0 ∨ now1 / 256 = 1) := by omega
    rw [if_neg hn] at hrec
    omega
  · by_cases h : now1 / 256 = 0 ∨ now1 / 256 = 1
    · rw [if_pos h] at hrec
      omega
    · rw [if_neg h] at hrec
      omega

/-- Witness for C33: the line is recorded as idle at `now = 0x02FF`, a poll at
`0x0500` sends nothing and the poll at `0x0700` sends the Idle Frame, 1025
ticks after the first. -/
theorem C33_idle_threshold_witness :
    (0x0700 + 2 ^ 16 - 0x02FF) % 2 ^ 16 ≥ 1025 ∧ (0x0700 + 2 ^ 16 - 0x02FF) % 2 ^ 16 = 1025 :=
  ⟨(C33_idle_threshold 0x02FF 0x0700 true [(0x0500, true)] (by decide) (by decide)
      (by decide) (by decide)).2.2.1 (by decide), by decide⟩

/-! ### Ownership of the buffer variables -/

/-- What `errcode_and_framebyte` leaves alone: `tail` and `write_pos` of the
state, and all of `global_prot_var` but the sticky overflow flag, which it may
set. -/
theorem errcode_fields (s : RxState) (err fb wp h t : Nat) :
    (errcode_and_framebyte s err fb wp h t).1.tail = s.tail ∧
    ((errcode_and_framebyte s err fb wp h t).1.global_prot_var = s.global_prot_var ∨
      (errcode_and_framebyte s err fb wp h t).1.global_prot_var
        = s.global_prot_var ||| CHAIN_OVERFLOW_BIT) := by
  unfold errcode_and_framebyte
  simp only
  split_ifs
  · exact ⟨rfl, Or.inr rfl⟩
  · exact ⟨rfl, Or.inr rfl⟩
  · exact ⟨rfl, Or.inr rfl⟩
  · exact ⟨rfl, Or.inl rfl⟩
  · exact ⟨rfl, Or.inl rfl⟩

theorem or_bit_twice (g : Nat) :
    g ||| CHAIN_OVERFLOW_BIT ||| CHAIN_OVERFLOW_BIT = g ||| CHAIN_OVERFLOW_BIT := by
  rw [Nat.or_assoc, Nat.or_self]

/-- The interrupt routine never writes `tail`, and of `global_prot_var` it can
only set the sticky overflow flag. -/
theorem isr_fields (s : RxState) (fe1 dor1 : Bool) (udr1 : Nat) :
    (ISR_USART1_RXC s fe1 dor1 udr1).tail = s.tail ∧
    ((ISR_USART1_RXC s fe1 dor1 udr1).global_prot_var = s.global_prot_var ∨
      (ISR_USART1_RXC s fe1 dor1 udr1).global_prot_var
        = s.global_prot_var ||| CHAIN_OVERFLOW_BIT) := by
  unfold ISR_USART1_RXC append_circ_buf
  simp only
  split_ifs
  all_goals first
    | exact ⟨rfl, Or.inl rfl⟩
    | exact ⟨rfl, Or.inr rfl⟩
    | exact errcode_fields _ _ _ _ _ _
    | exact ⟨(errcode_fields _ _ _ _ _ _).1, Or.inr (by
        rcases (errcode_fields ⟨s.buf, s.head, s.tail, s.write_pos,
          s.global_prot_var ||| CHAIN_OVERFLOW_BIT⟩ RECV_ERR_CHAIN_LONG 0 s.write_pos s.head
          s.tail).2 with b | b
        · rw [b]
        · rw [b]
          exact or_bit_twice _)⟩


/-- C34: single-producer/single-consumer ownership of the ring buffer. A
`comm_forward` call, which returns for all buffer indices `head` and `tail`,
leaves `head`, every buffer slot and `write_pos` unchanged; of the state it
changes only `tail` and the sticky overflow flag in bit 0 of
`global_prot_var`. The reception handler, whatever the line-status flags and
the received byte, never changes `tail`. -/
theorem C34_buffer_ownership (s : RxState) (hh : s.head < 32) (ht : s.tail < 32) :
    (∃ s2 out ret, comm_forward s = some (s2, out, ret) ∧
      s2.head = s.head ∧ s2.buf = s.buf ∧ s2.write_pos = s.write_pos ∧
      (s2.global_prot_var = s.global_prot_var ∨
        s2.global_prot_var = s.global_prot_var &&& (255 - CHAIN_OVERFLOW_BIT))) ∧
    (∀ (fe1 dor1 : Bool) (udr1 : Nat), (ISR_USART1_RXC s fe1 dor1 udr1).tail = s.tail) := by
  refine ⟨⟨_, _, _, comm_forward_list s hh ht, (report_overflow_fields _).2.1,
    (report_overflow_fields _).1, (report_overflow_fields _).2.2.2, ?_⟩,
    fun fe1 dor1 udr1 => (isr_fields s fe1 dor1 udr1).1⟩
  rw [report_overflow_gpv]
  simp only
  by_cases h : s.global_prot_var &&& CHAIN_OVERFLOW_BIT = 0
  · rw [if_pos h]; exact Or.inl rfl
  · rw [if_neg h]; exact Or.inr rfl

/-- Witness for C34: the state after receiving the frame `A5 10 00 35` and the
start byte `80`. -/
theorem C34_buffer_ownership_witness :
    (∃ s2 out ret, comm_forward (receive_all RxState.init relay_example) = some (s2, out, ret) ∧
      s2.head = (receive_all RxState.init relay_example).head ∧
      s2.buf = (receive_all RxState.init relay_example).buf) ∧
    (ISR_USART1_RXC (receive_all RxState.init relay_example) true true 0x55).tail
      = (receive_all RxState.init relay_example).tail := by
  obtain ⟨⟨s2, out, ret, h1, h2, h3, _⟩, h5⟩ :=
    C34_buffer_ownership (receive_all RxState.init relay_example) (by decide) (by decide)
  exact ⟨⟨s2, out, ret, h1, h2, h3⟩, h5 true true 0x55⟩

/-! ### Reception and relay of one frame, end to end -/

/-- The state after a frame of at most 31 bytes and the start byte of the next
frame have been received in the power-up state: the frame is in the slots from
0 on, `head` is behind it and the sticky overflow flag is clear. -/
theorem receive_frame_short (S : Nat) (body : List Nat) (S2 : Nat)
    (hS1 : 0x80 ≤ S) (hS2 : S < 0xF0) (hbody : ∀ b ∈ body, b &&& (1 <<< 7) = 0)
    (hT1 : 0x80 ≤ S2) (hT2 : S2 < 0xF0) (hl : body.length ≤ 30) :
    (receive_all RxState.init (frame_trace S body S2)).tail = 0 ∧
    (receive_all RxState.init (frame_trace S body S2)).head = 1 + body.length ∧
    (receive_all RxState.init (frame_trace S body S2)).global_prot_var = 0 ∧
    ∀ i, i < body.length + 1 →
      (receive_all RxState.init (frame_trace S body S2)).buf i = (S :: body).getD i 0 := by
  have hS := start_byte_top S (by omega) hS1
  have hT := start_byte_top S2 (by omega) hT1
  unfold frame_trace
  rw [receive_all_ok_cons, receive_start_init S hS1 hS2, receive_all_append, receive_all_ok_one]
  obtain ⟨a1, a2, a3, a4, a5, a6⟩ := receive_body_room body
    ⟨buf_set (fun _ => 0) 0 S, 0, 0, 1, 0⟩ 1 rfl rfl (by simp only [buf_set_same]; exact hS) rfl
    (le_refl 1) (by omega) hbody
  generalize receive_all ⟨buf_set (fun _ => 0) 0 S, 0, 0, 1, 0⟩ (body.map rx_ok) = s2
    at a1 a2 a3 a4 a5 a6 ⊢
  have b0 : s2.buf 0 = S := by rw [a5 0 (by omega)]; simp only [buf_set_same]
  have hv : s2.buf s2.head &&& (1 <<< 7) ≠ 0 := by rw [a1, b0]; exact hS
  have cw : s2.write_pos ≠ s2.tail := by rw [a4, a2]; omega
  have hw : s2.write_pos = 1 + body.length := by rw [a4]; omega
  rw [isr_start_room s2 S2 hv hT cw hT2]
  refine ⟨a2, hw, a3, ?_⟩
  intro i hi
  simp only
  rw [buf_set_other _ _ _ _ (by omega)]
  cases i with
  | zero => exact b0
  | succ k =>
    have e2 := a6 k (by omega)
    rw [Nat.add_comm 1 k] at e2
    rw [e2]
    rfl

/-- C35: transparent relay end to end. From the power-up state, without line
error, the handler receives the frame `S, b_1, ..., b_k` (`S` in `0x80..0xEF`,
`1 ≤ k ≤ 30`, every `b_i ≤ 0x7F`) and a frame-start byte `S2` in `0x80..0xEF`.
One call of `comm_forward` then returns non-zero, has sent exactly
`S + 0x10, b_1, ..., b_(k-1), b_k XOR S XOR (S + 0x10)` and leaves `tail`
equal to `head`. -/
theorem C35_transparent_relay (S : Nat) (body : List Nat) (c S2 : Nat)
    (hS1 : 0x80 ≤ S) (hS2 : S < 0xF0) (hk : body.length + 1 ≤ 30)
    (hb : ∀ b ∈ body ++ [c], b ≤ 0x7F) (hT1 : 0x80 ≤ S2) (hT2 : S2 < 0xF0) :
    ∃ s2, comm_forward (receive_all RxState.init (frame_trace S (body ++ [c]) S2)) =
        some (s2, (S + 0x10) :: (body ++ [c ^^^ S ^^^ (S + 0x10)]), -1) ∧
      s2.tail = s2.head ∧
      s2.head = (receive_all RxState.init (frame_trace S (body ++ [c]) S2)).head := by
  have hlen : (body ++ [c]).length = body.length + 1 := by
    rw [List.length_append, List.length_singleton]
  obtain ⟨a1, a2, a3, a4⟩ := receive_frame_short S (body ++ [c]) S2 hS1 hS2
    (fun b hm => body_byte_and b (Nat.lt_succ_of_le (hb b hm))) hT1 hT2 (by rw [hlen]; omega)
  rw [hlen] at a2 a4
  generalize receive_all RxState.init (frame_trace S (body ++ [c]) S2) = s at a1 a2 a3 a4 ⊢
  have hf : frame_at_tail s (S :: (body ++ [c])) := by
    unfold frame_at_tail
    rw [List.length_cons, hlen, a1, a2]
    refine ⟨by omega, ?_, Or.inl (by omega)⟩
    intro i hi
    have e : (0 + i) % 32 = i := by omega
    rw [e]
    exact a4 i (by omega)
  have hc := comm_forward_data_frame s S body c (by omega) (by omega) ⟨hS1, by omega⟩ hb hf
  have hg : ({ s with tail := (s.tail + (body.length + 2)) % 32 } : RxState).global_prot_var
      &&& CHAIN_OVERFLOW_BIT = 0 := by
    simp only
    rw [a3]
    decide
  rw [report_overflow_out, if_pos hg, List.append_nil] at hc
  refine ⟨_, hc, ?_, (report_overflow_fields _).2.1⟩
  rw [(report_overflow_fields _).2.2.1, (report_overflow_fields _).2.1]
  simp only
  rw [a1, a2]
  omega

/-- Witness for C35: the frame `A5 10 00 35` followed by the start byte `80` is
relayed as `B5 10 00 25`. -/
theorem C35_transparent_relay_witness :
    ∃ s2, comm_forward (receive_all RxState.init (frame_trace 0xA5 ([0x10, 0x00] ++ [0x35]) 0x80))
        = some (s2, [0xB5, 0x10, 0x00, 0x25], -1) ∧ s2.tail = s2.head := by
  obtain ⟨s2, h1, h2, _⟩ := C35_transparent_relay 0xA5 [0x10, 0x00] 0x35 0x80
    (by decide) (by decide) (by decide) (by decide) (by decide) (by decide)
  exact ⟨s2, h1, h2⟩

/-! ### The encoder state between `comm_start_frame` and `comm_end_frame` -/

set_option maxRecDepth 100000 in
theorem run_hi_marker : ∀ k < 7, ∀ s < 64, s < 2 ^ k →
    run_hi k s ≠ 0 ∧ run_hi k s < 256 ∧ run_hi k s % 2 ^ (7 - k) = 0 ∧
    (run_hi k s).testBit (7 - k) = true := by
  decide

set_option maxRecDepth 100000 in
theorem run_hi_shifts_short : ∀ k < 7, ∀ s < 64, 0 < k → s < 2 ^ k →
    end_frame_shift (7 - k) (run_hi k s) = none := by
  decide

set_option maxRecDepth 100000 in
theorem run_hi_shifts : ∀ k < 7, ∀ s < 64, 0 < k → s < 2 ^ k →
    end_frame_shift (8 - k) (run_hi k s) = some (1 + 2 * s) ∧
    end_frame_shift 7 (run_hi k s) = some (1 + 2 * s) := by
  decide

theorem pow_lt_64 (k s : Nat) (hk : k < 7) (hs : s < 2 ^ k) : s < 64 :=
  lt_of_lt_of_le hs (by
    calc 2 ^ k ≤ 2 ^ 6 := Nat.pow_le_pow_right (by decide) (by omega)
      _ = 64 := by norm_num)

/-- One `comm_send_byte` call moves the marker in `hi_bits` one place down, or
back to bit 7 after the seventh byte of a run. -/
theorem send_byte_hi (e : Encoder) (c k s : Nat) (hk : k < 7) (hs : s < 2 ^ k)
    (he : e.hi_bits = run_hi k s) :
    ∃ s2, s2 < 2 ^ ((k + 1) % 7) ∧ (comm_send_byte e c).1.hi_bits = run_hi ((k + 1) % 7) s2 := by
  have hs64 := pow_lt_64 k s hk hs
  by_cases hk6 : k < 6
  · obtain ⟨⟨h1, h2⟩, h3, h4⟩ := run_hi_step k hk6 s hs64 hs
    have hm : (k + 1) % 7 = k + 1 := Nat.mod_eq_of_lt (by omega)
    have hpow : (2 : Nat) ^ (k + 1) = 2 * 2 ^ k := by rw [pow_succ]; ring
    rw [hm]
    by_cases hc : c &&& (1 <<< 7) ≠ 0
    · refine ⟨s + 2 ^ k, by omega, ?_⟩
      simp only [comm_send_byte, he, hc, h3, h4, ne_eq, not_true_eq_false, not_false_eq_true,
        if_true, if_false]
    · refine ⟨s, by omega, ?_⟩
      simp only [comm_send_byte, he, hc, h1, h2, ne_eq, not_true_eq_false, not_false_eq_true,
        if_true, if_false]
  · have hk' : k = 6 := by omega
    subst hk'
    obtain ⟨⟨h1, _⟩, h3, _⟩ := run_hi_full s hs64
    have hz : run_hi ((6 + 1) % 7) 0 = 1 <<< 7 := by decide
    refine ⟨0, by decide, ?_⟩
    rw [hz]
    by_cases hc : c &&& (1 <<< 7) ≠ 0
    · simp only [comm_send_byte, he, hc, h3, ne_eq, not_true_eq_false, not_false_eq_true,
        if_true, if_false]
    · simp only [comm_send_byte, he, hc, h1, ne_eq, not_true_eq_false, not_false_eq_true,
        if_true, if_false]

/-- After `comm_start_frame` and any number of `comm_send_byte` calls, started
with the marker `k` places down, the marker is `(k + n) mod 7` places down. -/
theorem send_bytes_hi : ∀ (payload : List Nat) (e : Encoder) (k s : Nat), k < 7 → s < 2 ^ k →
    e.hi_bits = run_hi k s →
    ∃ s2, s2 < 2 ^ ((k + payload.length) % 7) ∧
      (send_bytes e payload).1.hi_bits = run_hi ((k + payload.length) % 7) s2
  | [], e, k, s, hk, hs, he => by
    rw [List.length_nil, Nat.add_zero, Nat.mod_eq_of_lt hk]
    exact ⟨s, hs, he⟩
  | c :: cs, e, k, s, hk, hs, he => by
    obtain ⟨s1, h1, h2⟩ := send_byte_hi e c k s hk hs he
    obtain ⟨s2, h3, h4⟩ := send_bytes_hi cs (comm_send_byte e c).1 ((k + 1) % 7) s1
      (Nat.mod_lt _ (by decide)) h1 h2
    have e1 : ((k + 1) % 7 + cs.length) % 7 = (k + (c :: cs).length) % 7 := by
      rw [List.length_cons]; omega
    rw [e1] at h3 h4
    exact ⟨s2, h3, h4⟩

/-- C36: `comm_end_frame` terminates after `comm_start_frame`. In the encoder
state reached by `comm_start_frame` and `n` calls of `comm_send_byte`,
`hi_bits` is a non-zero byte whose lowest set bit is the counting marker, at
bit `7 - n mod 7`. For `n mod 7 = 0` it is the marker alone and the shift loop
is not entered; otherwise the loop is left at its evaluation number
`8 - n mod 7` of the condition and not before, so it shifts `7 - n mod 7`
times, at most 6, and `comm_end_frame` returns. -/
theorem C36_end_frame_terminates (e : Encoder) (proto : Nat) (payload : List Nat) :
    (send_bytes (comm_start_frame e proto).1 payload).1.hi_bits ≠ 0 ∧
    (send_bytes (comm_start_frame e proto).1 payload).1.hi_bits < 256 ∧
    (send_bytes (comm_start_frame e proto).1 payload).1.hi_bits
      % 2 ^ (7 - payload.length % 7) = 0 ∧
    (send_bytes (comm_start_frame e proto).1 payload).1.hi_bits.testBit
      (7 - payload.length % 7) = true ∧
    (payload.length % 7 = 0 →
      (send_bytes (comm_start_frame e proto).1 payload).1.hi_bits = 1 <<< 7) ∧
    (payload.length % 7 ≠ 0 →
      (send_bytes (comm_start_frame e proto).1 payload).1.hi_bits ≠ 1 <<< 7 ∧
      end_frame_shift (7 - payload.length % 7)
        (send_bytes (comm_start_frame e proto).1 payload).1.hi_bits = none ∧
      (∃ t, end_frame_shift (8 - payload.length % 7)
        (send_bytes (comm_start_frame e proto).1 payload).1.hi_bits = some t) ∧
      7 - payload.length % 7 ≤ 6) ∧
    (∃ out, comm_end_frame_fuel 7 (send_bytes (comm_start_frame e proto).1 payload).1
        = some out ∧
      comm_end_frame (send_bytes (comm_start_frame e proto).1 payload).1 = some out) := by
  obtain ⟨s, hs, hh⟩ := send_bytes_hi payload (comm_start_frame e proto).1 0 0 (by decide)
    (by decide) (by rw [run_hi_zero]; rfl)
  rw [Nat.zero_add] at hs hh
  have hk : payload.length % 7 < 7 := Nat.mod_lt _ (by decide)
  have hs64 := pow_lt_64 _ s hk hs
  obtain ⟨m1, m2, m3, m4⟩ := run_hi_marker _ hk s hs64 hs
  rw [hh]
  refine ⟨m1, m2, m3, m4, ?_, ?_, ?_⟩
  · intro h0
    rw [h0] at hs ⊢
    have : s = 0 := by omega
    rw [this]
    exact run_hi_zero
  · intro h0
    exact ⟨(run_hi_end _ hk s hs64 (by omega) hs).1,
      run_hi_shifts_short _ hk s hs64 (by omega) hs,
      ⟨_, (run_hi_shifts _ hk s hs64 (by omega) hs).1⟩, by omega⟩
  · unfold comm_end_frame comm_end_frame_fuel
    rw [hh]
    by_cases h0 : payload.length % 7 = 0
    · rw [h0] at hs ⊢
      have : s = 0 := by omega
      rw [this, run_hi_zero]
      simp only [ne_eq, not_true_eq_false, if_false]
      exact ⟨_, rfl, rfl⟩
    · obtain ⟨_, a3⟩ := run_hi_shifts _ hk s hs64 (by omega) hs
      obtain ⟨b1, b2⟩ := run_hi_end _ hk s hs64 (by omega) hs
      simp only [b1, ne_eq, not_false_eq_true, if_true, a3, b2]
      exact ⟨_, rfl, rfl⟩

/-- C37: `comm_start_frame` resets the checksum and side-channel state
completely. Whatever the transmission variables `e1` and `e2` before the call,
the state after `comm_start_frame (p)` and the byte it sends are the same, and
so are the state and the bytes sent after the same `comm_send_byte` calls and
all bytes of the frame up to and including those of `comm_end_frame`, which
returns. -/
theorem C37_start_frame_resets (e1 e2 : Encoder) (proto : Nat) (payload : List Nat) :
    comm_start_frame e1 proto = comm_start_frame e2 proto ∧
    send_bytes (comm_start_frame e1 proto).1 payload
      = send_bytes (comm_start_frame e2 proto).1 payload ∧
    encode_frame e1 proto payload = encode_frame e2 proto payload ∧
    ∃ w, encode_frame e1 proto payload = some w :=
  ⟨rfl, rfl, by rw [encode_frame_eq, encode_frame_eq], ⟨_, encode_frame_eq e1 proto payload⟩⟩

/-! ### The shared flag byte -/

set_option maxRecDepth 100000 in
theorem bits_kept : ∀ i < 8, 1 ≤ i →
    (CHAIN_OVERFLOW_BIT.testBit i = false ∧ (255 - CHAIN_OVERFLOW_BIT).testBit i = true) := by
  decide

/-- C38: the communication code touches `global_prot_var` in bit 0 only. A
reception-handler step leaves the variable unchanged or sets bit 0; a
`comm_forward` call leaves it unchanged or clears bit 0; both leave the bits
1 to 7, the DCC overflow bit 1 among them, unchanged. -/
theorem C38_flag_byte_bit0_only (s : RxState) (hh : s.head < 32) (ht : s.tail < 32) :
    (∀ (fe1 dor1 : Bool) (udr1 : Nat),
      ((ISR_USART1_RXC s fe1 dor1 udr1).global_prot_var = s.global_prot_var ∨
        (ISR_USART1_RXC s fe1 dor1 udr1).global_prot_var
          = s.global_prot_var ||| CHAIN_OVERFLOW_BIT) ∧
      ∀ i, 1 ≤ i → i ≤ 7 →
        (ISR_USART1_RXC s fe1 dor1 udr1).global_prot_var.testBit i
          = s.global_prot_var.testBit i) ∧
    (∃ s2 out ret, comm_forward s = some (s2, out, ret) ∧
      (s2.global_prot_var = s.global_prot_var ∨
        s2.global_prot_var = s.global_prot_var &&& (255 - CHAIN_OVERFLOW_BIT)) ∧
      ∀ i, 1 ≤ i → i ≤ 7 → s2.global_prot_var.testBit i = s.global_prot_var.testBit i) := by
  refine ⟨fun fe1 dor1 udr1 => ⟨(isr_fields s fe1 dor1 udr1).2, fun i h1 h7 => ?_⟩,
    ⟨_, _, _, comm_forward_list s hh ht, ?_, fun i h1 h7 => ?_⟩⟩
  · rcases (isr_fields s fe1 dor1 udr1).2 with h | h
    · rw [h]
    · rw [h, Nat.testBit_or, (bits_kept i (by omega) h1).1, Bool.or_false]
  · rw [report_overflow_gpv]
    simp only
    by_cases h : s.global_prot_var &&& CHAIN_OVERFLOW_BIT = 0
    · rw [if_pos h]; exact Or.inl rfl
    · rw [if_neg h]; exact Or.inr rfl
  · rw [report_overflow_gpv]
    simp only
    by_cases h : s.global_prot_var &&& CHAIN_OVERFLOW_BIT = 0
    · rw [if_pos h]
    · rw [if_neg h, Nat.testBit_and, (bits_kept i (by omega) h1).2, Bool.and_true]

set_option maxRecDepth 100000 in
/-- Witness for C38: a body byte arriving when the closed frame `81 01` and an
open frame of 30 bytes fill the buffer, with the DCC overflow bit set. -/
theorem C38_flag_byte_bit0_only_witness :
    (ISR_USART1_RXC { receive_all RxState.init full_example with global_prot_var := 2 }
      false false 0x00).global_prot_var.testBit 1 = true ∧
    ∃ s2 out ret,
      comm_forward { receive_all RxState.init full_example with global_prot_var := 3 }
        = some (s2, out, ret) ∧ s2.global_prot_var.testBit 1 = true := by
  have h := C38_flag_byte_bit0_only
    { receive_all RxState.init full_example with global_prot_var := 2 } (by decide) (by decide)
  obtain ⟨_, s2, out, ret, h1, _, h3⟩ := C38_flag_byte_bit0_only
    { receive_all RxState.init full_example with global_prot_var := 3 } (by decide) (by decide)
  exact ⟨((h.1 false false 0x00).2 1 (by decide) (by decide)).trans (by decide),
    s2, out, ret, h1, (h3 1 (by decide) (by decide)).trans (by decide)⟩

/-! ### Circular buffer arithmetic -/

set_option maxRecDepth 100000 in
theorem pow_two_sizes : ∀ n < 256, n ≠ 0 → n &&& (n - 1) = 0 → ∃ k < 8, n = 2 ^ k := by
  decide

/-- C39: for every buffer size `n` from 1 to 256, passed in the 8-bit
parameter as `n mod 256`, and every pointer `p < n`, `circ_buf_incr_ptr` sets
the pointer to `(p + 1) mod n`, which is below `n`; the branch for a power of
two and the branch for any other size compute the same increment. -/
theorem C39_incr_ptr_modular (n p : Nat) (h1 : 1 ≤ n) (h2 : n ≤ 256) (hp : p < n) :
    circ_buf_incr_ptr p (n % 256) = (p + 1) % n ∧ circ_buf_incr_ptr p (n % 256) < n := by
  have hlt : (p + 1) % n < n := Nat.mod_lt _ (by omega)
  have key : circ_buf_incr_ptr p (n % 256) = (p + 1) % n := by
    unfold circ_buf_incr_ptr
    by_cases h256 : n = 256
    · subst h256
      have e0 : (256 : Nat) % 256 = 0 := by decide
      have e1 : ¬ ((0 : Nat) &&& (0 - 1) ≠ 0) := by decide
      rw [e0, if_neg e1, if_pos rfl]
    · have hn : n % 256 = n := Nat.mod_eq_of_lt (by omega)
      rw [hn]
      by_cases hpow : n &&& (n - 1) ≠ 0
      · rw [if_pos hpow]
        by_cases hge : p ≥ n - 1
        · rw [if_pos hge]
          have : p + 1 = n := by omega
          rw [this, Nat.mod_self]
        · rw [if_neg hge, Nat.mod_eq_of_lt (by omega), Nat.mod_eq_of_lt (by omega)]
      · rw [if_neg hpow, if_neg (by omega)]
        obtain ⟨k, hk, rfl⟩ := pow_two_sizes n (by omega) (by omega) (not_not.1 hpow)
        rw [Nat.and_pow_two_sub_one_eq_mod]
        exact Nat.mod_eq_of_lt (by omega)
  exact ⟨key, by rw [key]; exact hlt⟩

/-- Witness for C39: the size 32 of the reception buffer at its last index, and
the sizes 12 and 256. -/
theorem C39_incr_ptr_modular_witness :
    circ_buf_incr_ptr 31 (32 % 256) = 0 ∧ circ_buf_incr_ptr 11 (12 % 256) = 0 ∧
    circ_buf_incr_ptr 255 (256 % 256) = 0 :=
  ⟨(C39_incr_ptr_modular 32 31 (by decide) (by decide) (by decide)).1,
    (C39_incr_ptr_modular 12 11 (by decide) (by decide) (by decide)).1,
    (C39_incr_ptr_modular 256 255 (by decide) (by decide) (by decide)).1⟩

/-! ### The synchronisation pause -/

/-- The busy-wait loop is left only at a reading of `TCNT1L` that is at least
3 counts past `pause_start`, and it is left at the first such reading. -/
theorem sync_pause_wait_exit : ∀ (readings : List Nat) (pause_start i : Nat),
    sync_pause_wait pause_start readings = some i →
    i < readings.length ∧ 3 ≤ (readings.getD i 0 + 256 - pause_start % 256) % 256 ∧
    ∀ j, j < i → (readings.getD j 0 + 256 - pause_start % 256) % 256 < 3
  | [], _, _, h => by simp [sync_pause_wait] at h
  | r :: rs, p, i, h => by
    rw [sync_pause_wait] at h
    simp only [sync_pause_threshold] at h
    by_cases hc : (r + 256 - p % 256) % 256 < 3
    · rw [if_pos hc] at h
      cases hr : sync_pause_wait p rs with
      | none => rw [hr] at h; simp at h
      | some i2 =>
        rw [hr] at h
        simp only [Option.map_some', Option.some.injEq] at h
        subst h
        obtain ⟨a1, a2, a3⟩ := sync_pause_wait_exit rs p i2 hr
        refine ⟨by rw [List.length_cons]; omega, a2, ?_⟩
        intro j hj
        cases j with
        | zero => exact hc
        | succ j2 => exact a3 j2 (by omega)
    · rw [if_neg hc] at h
      simp only [Option.some.injEq] at h
      subst h
      exact ⟨by rw [List.length_cons]; omega, by simp only [List.getD_cons_zero]; omega,
        fun j hj => absurd hj (Nat.not_lt_zero j)⟩

/-- The busy-wait loop is left when a reading is at least 3 counts past
`pause_start`. -/
theorem sync_pause_wait_returns : ∀ (readings : List Nat) (pause_start : Nat),
    (∃ r ∈ readings, 3 ≤ (r + 256 - pause_start % 256) % 256) →
    ∃ i, sync_pause_wait pause_start readings = some i
  | [], _, h => by simp at h
  | r :: rs, p, h => by
    rw [sync_pause_wait]
    simp only [sync_pause_threshold]
    by_cases hc : (r + 256 - p % 256) % 256 < 3
    · rw [if_pos hc]
      obtain ⟨x, hx, hx3⟩ := h
      rcases List.mem_cons.1 hx with rfl | hx
      · omega
      · obtain ⟨i, hi⟩ := sync_pause_wait_returns rs p ⟨x, hx, hx3⟩
        rw [hi]
        exact ⟨_, rfl⟩
    · rw [if_neg hc]
      exact ⟨_, rfl⟩

/-- C40: the synchronisation pause lasts at least 9 bit periods. With
`F_CPU = 11059200` and `UART_BAUD = 57600` the loop bound
`rtc_period_least (F_CPU * 9 * 1000000 / UART_BAUD) + 1` is 3, which fits the
8-bit arithmetic, and 9 bit periods are 1728 clock ticks. When `pause_start` is
read from `TCNT1L` at clock tick `t0` and the loop reads it `d` ticks later for
the delays `d` of `delays`, the loop is left only at a reading at least 3
counts past `pause_start`, and then more than two full counter periods, 2048
clock ticks, have passed, whatever the phase of the counter at `t0`. -/
theorem C40_sync_pause_duration (phase t0 : Nat) (delays : List Nat) (i : Nat)
    (hexit : sync_pause_wait (TCNT1L phase t0)
      (delays.map (fun d => TCNT1L phase (t0 + d))) = some i) :
    rtc_period_least (F_CPU * 9 * 1000000 % 2 ^ 64 / UART_BAUD) + 1 = 3 ∧
    rtc_period_least (F_CPU * 9 * 1000000 % 2 ^ 64 / UART_BAUD) + 1 < 256 ∧
    9 * F_CPU / UART_BAUD = 1728 ∧
    i < delays.length ∧
    3 ≤ (TCNT1L phase (t0 + delays.getD i 0) + 256 - TCNT1L phase t0) % 256 ∧
    2 * 1024 < delays.getD i 0 ∧
    9 * F_CPU / UART_BAUD ≤ delays.getD i 0 := by
  obtain ⟨a1, a2, _⟩ := sync_pause_wait_exit _ _ i hexit
  rw [List.length_map] at a1
  have e : (delays.map (fun d => TCNT1L phase (t0 + d))).getD i 0
      = TCNT1L phase (t0 + delays.getD i 0) := by
    rw [List.getD_eq_getElem _ _ (by rw [List.length_map]; exact a1), List.getElem_map,
      List.getD_eq_getElem _ _ a1]
  rw [e] at a2
  have hb : 9 * F_CPU / UART_BAUD = 1728 := by decide
  have hm : TCNT1L phase t0 % 256 = TCNT1L phase t0 := by
    unfold TCNT1L; omega
  rw [hm] at a2
  have hd : 2 * 1024 < delays.getD i 0 := by
    unfold TCNT1L at a2
    omega
  refine ⟨sync_pause_threshold, by rw [sync_pause_threshold]; decide, hb, a1, a2, hd, ?_⟩
  rw [hb]
  omega

/-- Witness for C40: the counter is one clock tick before its next count when
the pause starts; the loop reads it after 1, 1025, 2048 and 2049 clock ticks
and is left at the last reading. -/
theorem C40_sync_pause_duration_witness :
    sync_pause_wait (TCNT1L 1023 0) ([1, 1025, 2048, 2049].map (fun d => TCNT1L 1023 (0 + d)))
      = some 3 ∧
    2 * 1024 < [1, 1025, 2048, 2049].getD 3 0 :=
  ⟨by decide, (C40_sync_pause_duration 1023 0 [1, 1025, 2048, 2049] 3 (by decide)).2.2.2.2.2.1⟩

/-! ### Publication of whole units -/

theorem published_none (s s2 : RxState) (h : s2.head = s.head) : published_bytes s s2 = [] := by
  unfold published_bytes
  have e : (s2.head + 32 - s.head) % 32 = 0 := by rw [h]; omega
  rw [e]
  rfl

theorem published_one (s s2 : RxState) (hh : s.head < 32) (h : s2.head = (s.head + 1) % 32) :
    published_bytes s s2 = [s2.buf s.head] := by
  unfold published_bytes
  have e : (s2.head + 32 - s.head) % 32 = 1 := by rw [h]; omega
  have e0 : (s.head + 0) % 32 = s.head := by omega
  rw [e]
  simp only [List.range_succ, List.range_zero, List.nil_append, List.map_cons, List.map_nil, e0]

theorem published_two (s s2 : RxState) (hh : s.head < 32)
    (h : s2.head = ((s.head + 1) % 32 + 1) % 32) :
    published_bytes s s2 = [s2.buf s.head, s2.buf ((s.head + 1) % 32)] := by
  unfold published_bytes
  have e : (s2.head + 32 - s.head) % 32 = 2 := by rw [h]; omega
  have e0 : (s.head + 0) % 32 = s.head := by omega
  rw [e]
  simp only [List.range_succ, List.range_zero, List.nil_append, List.map_cons, List.map_nil, e0,
    List.cons_append, List.map_append]

theorem published_frame (s s2 : RxState) (hlen : (s2.head + 32 - s.head) % 32 = open_frame_length s)
    (keep : ∀ i, i < open_frame_length s →
      s2.buf ((s.head + i) % 32) = s.buf ((s.head + i) % 32)) :
    published_bytes s s2 = open_frame_bytes s := by
  unfold published_bytes open_frame_bytes
  rw [hlen]
  apply List.map_congr_left
  intro i hi
  exact keep i (List.mem_range.1 hi)

theorem published_frame_code (s s2 : RxState) (c : Nat)
    (hlen : (s2.head + 32 - s.head) % 32 = open_frame_length s + 1)
    (keep : ∀ i, i < open_frame_length s →
      s2.buf ((s.head + i) % 32) = s.buf ((s.head + i) % 32))
    (hc : s2.buf ((s.head + open_frame_length s) % 32) = c) :
    published_bytes s s2 = open_frame_bytes s ++ [c] := by
  unfold published_bytes open_frame_bytes
  rw [hlen, List.range_succ, List.map_append, List.map_cons, List.map_nil, hc]
  congr 1
  apply List.map_congr_left
  intro i hi
  exact keep i (List.mem_range.1 hi)

/-- A state whose byte at `head` is no start byte, or whose open frame is its
start byte alone, has no body bytes to check. -/
theorem body_clear_fresh (s2 : RxState)
    (h : s2.buf s2.head &&& (1 <<< 7) = 0 ∨ s2.write_pos = (s2.head + 1) % 32) :
    open_body_clear s2 := by
  intro hv i h1 hi
  rcases h with h | h
  · exact absurd h hv
  · unfold open_frame_length at hi
    rw [h] at hi
    omega

/-- A step that leaves `head` and rewrites the slot at `head`. -/
theorem units_same (s : RxState) (_hs : rx_inv s) (fe1 dor1 : Bool) (udr1 v w g : Nat)
    (h : v &&& (1 <<< 7) = 0 ∨ w = (s.head + 1) % 32) :
    step_units s fe1 dor1 udr1 ⟨buf_set s.buf s.head v, s.head, s.tail, w, g⟩ := by
  refine ⟨Or.inl (published_none _ _ rfl), fun _ => body_clear_fresh _ ?_⟩
  rcases h with h | h
  · left
    simp only [buf_set_same]
    exact h
  · exact Or.inr h

/-- A step that writes the error code `err` at `head` and moves `head` one
slot on. -/
theorem units_code (s : RxState) (hs : rx_inv s) (fe1 dor1 : Bool) (udr1 err v w g : Nat)
    (herr : err = RECV_ERR_MALFORMED ∨ err = RECV_ERR_CHAIN_LONG ∨ err = RECV_ERR_H_OVERFLOW)
    (h : v &&& (1 <<< 7) = 0 ∨ w = ((s.head + 1) % 32 + 1) % 32) :
    step_units s fe1 dor1 udr1
      ⟨buf_set (buf_set s.buf s.head err) ((s.head + 1) % 32) v, (s.head + 1) % 32, s.tail, w,
        g⟩ := by
  have hh := hs.1
  have hp : published_bytes s
      ⟨buf_set (buf_set s.buf s.head err) ((s.head + 1) % 32) v, (s.head + 1) % 32, s.tail, w, g⟩
      = [err] := by
    rw [published_one _ _ hh rfl]
    simp only
    rw [buf_set_other _ _ _ _ (by omega), buf_set_same]
  refine ⟨?_, fun _ => body_clear_fresh _ ?_⟩
  · unfold publishes_whole
    rw [hp]
    rcases herr with e | e | e
    · exact Or.inr (Or.inl (by rw [e]))
    · exact Or.inr (Or.inr (Or.inl (by rw [e])))
    · exact Or.inr (Or.inr (Or.inr (Or.inl (by rw [e]))))
  · rcases h with h | h
    · left
      simp only [buf_set_same]
      exact h
    · exact Or.inr h

/-- A step that writes the hard-overflow and the chain-too-long code and moves
`head` two slots on. -/
theorem units_two_codes (s : RxState) (hs : rx_inv s) (fe1 dor1 : Bool) (udr1 w g : Nat) :
    step_units s fe1 dor1 udr1
      ⟨buf_set (buf_set (buf_set s.buf s.head RECV_ERR_H_OVERFLOW) ((s.head + 1) % 32)
          RECV_ERR_CHAIN_LONG) (((s.head + 1) % 32 + 1) % 32) 0,
        ((s.head + 1) % 32 + 1) % 32, s.tail, w, g⟩ := by
  have hh := hs.1
  refine ⟨Or.inr (Or.inr (Or.inr (Or.inr (Or.inl ?_)))),
    fun _ => body_clear_fresh _ (Or.inl ?_)⟩
  · rw [published_two _ _ hh rfl]
    simp only
    rw [buf_set_other _ _ _ _ (by omega), buf_set_other _ _ _ _ (by omega), buf_set_same,
      buf_set_other _ _ _ _ (by omega), buf_set_same]
  · simp only [buf_set_same]
    exact zero_and_top

/-- A body byte appended to the open frame. -/
theorem units_append (s : RxState) (hs : rx_inv s) (fe1 dor1 : Bool) (b : Nat)
    (c0 : s.buf s.head &&& (1 <<< 7) ≠ 0)
    (cd : b &&& (1 <<< 7) = 0) :
    step_units s fe1 dor1 b
      ⟨buf_set s.buf s.write_pos b, s.head, s.tail, (s.write_pos + 1) % 32,
        s.global_prot_var⟩ := by
  obtain ⟨hh, ht, _, h4⟩ := hs
  obtain ⟨hw, hfit⟩ := h4 c0
  unfold open_frame_fits at hfit
  refine ⟨Or.inl (published_none _ _ rfl), ?_⟩
  intro hc _ i h1 hi
  unfold open_frame_length at hi
  simp only at hi ⊢
  by_cases hlast : (s.head + i) % 32 = s.write_pos
  · rw [hlast, buf_set_same]
    exact cd
  · rw [buf_set_other _ _ _ _ hlast]
    refine hc c0 i h1 ?_
    unfold open_frame_length
    omega

/-- A start byte with address 7 refused without room for the error code: the
open frame stays as it is. -/
theorem units_refuse_full (s : RxState) (hs : rx_inv s) (fe1 dor1 : Bool) (udr1 g : Nat)
    (c0 : s.buf s.head &&& (1 <<< 7) ≠ 0) :
    step_units s fe1 dor1 udr1
      ⟨buf_set s.buf s.write_pos 0, s.head, s.tail, s.write_pos, g⟩ := by
  obtain ⟨hh, ht, _, h4⟩ := hs
  obtain ⟨hw, hfit⟩ := h4 c0
  unfold open_frame_fits at hfit
  refine ⟨Or.inl (published_none _ _ rfl), ?_⟩
  intro hc _ i h1 hi
  unfold open_frame_length at hi
  simp only at hi ⊢
  rw [buf_set_other _ _ _ _ (by omega)]
  refine hc c0 i h1 ?_
  unfold open_frame_length
  exact hi

/-- A start byte that publishes the open frame and opens the next one. -/
theorem units_publish (s : RxState) (hs : rx_inv s) (b : Nat)
    (c0 : s.buf s.head &&& (1 <<< 7) ≠ 0) (cw : s.write_pos ≠ s.tail)
    (cd : b &&& (1 <<< 7) ≠ 0) :
    step_units s false false b
      ⟨buf_set s.buf s.write_pos b, s.write_pos, s.tail, (s.write_pos + 1) % 32,
        s.global_prot_var⟩ := by
  obtain ⟨hh, ht, _, h4⟩ := hs
  obtain ⟨hw, hfit⟩ := h4 c0
  unfold open_frame_fits at hfit
  refine ⟨Or.inr (Or.inr (Or.inr (Or.inr (Or.inr ⟨c0, rfl, rfl, cd, Or.inl ?_⟩)))),
    fun _ => body_clear_fresh _ (Or.inr rfl)⟩
  apply published_frame
  · unfold open_frame_length
    simp only
    omega
  · intro i hi
    unfold open_frame_length at hi
    simp only
    rw [buf_set_other _ _ _ _ (by omega)]

/-- A start byte with address 7 that publishes the open frame and the
chain-too-long code behind it. -/
theorem units_publish_code (s : RxState) (hs : rx_inv s) (b : Nat)
    (c0 : s.buf s.head &&& (1 <<< 7) ≠ 0) (cw : s.write_pos ≠ s.tail)
    (c1 : (s.write_pos + 1) % 32 ≠ s.tail) (cd : b &&& (1 <<< 7) ≠ 0) :
    step_units s false false b
      ⟨buf_set (buf_set s.buf s.write_pos RECV_ERR_CHAIN_LONG) ((s.write_pos + 1) % 32) 0,
        (s.write_pos + 1) % 32, s.tail, s.write_pos, s.global_prot_var⟩ := by
  obtain ⟨hh, ht, _, h4⟩ := hs
  obtain ⟨hw, hfit⟩ := h4 c0
  unfold open_frame_fits at hfit
  refine ⟨Or.inr (Or.inr (Or.inr (Or.inr (Or.inr ⟨c0, rfl, rfl, cd, Or.inr ?_⟩)))),
    fun _ => body_clear_fresh _ (Or.inl ?_)⟩
  · apply published_frame_code
    · unfold open_frame_length
      simp only
      omega
    · intro i hi
      unfold open_frame_length at hi
      simp only
      rw [buf_set_other _ _ _ _ (by omega), buf_set_other _ _ _ _ (by omega)]
    · have e : (s.head + open_frame_length s) % 32 = s.write_pos := by
        unfold open_frame_length
        omega
      simp only [e]
      rw [buf_set_other _ _ _ _ (by omega), buf_set_same]
  · simp only [buf_set_same]
    exact zero_and_top

/-- A byte received after a data overrun, in every buffer condition. -/
theorem isr_dor_gen (s : RxState) (r : Nat) :
    ISR_USART1_RXC s false true r =
      if (s.head + 1) % 32 = s.tail then
        if r ≥ 0xF0 then
          ⟨buf_set s.buf s.head 0, s.head, s.tail, s.write_pos,
            s.global_prot_var ||| CHAIN_OVERFLOW_BIT⟩
        else
          ⟨buf_set s.buf s.head r, s.head, s.tail, (s.head + 1) % 32,
            s.global_prot_var ||| CHAIN_OVERFLOW_BIT⟩
      else if r ≥ 0xF0 then
        if ((s.head + 1) % 32 + 1) % 32 = s.tail then
          ⟨buf_set (buf_set s.buf s.head RECV_ERR_H_OVERFLOW) ((s.head + 1) % 32) 0,
            (s.head + 1) % 32, s.tail, s.write_pos, s.global_prot_var ||| CHAIN_OVERFLOW_BIT⟩
        else
          ⟨buf_set (buf_set (buf_set s.buf s.head RECV_ERR_H_OVERFLOW) ((s.head + 1) % 32)
              RECV_ERR_CHAIN_LONG) (((s.head + 1) % 32 + 1) % 32) 0,
            ((s.head + 1) % 32 + 1) % 32, s.tail, s.write_pos, s.global_prot_var⟩
      else
        ⟨buf_set (buf_set s.buf s.head RECV_ERR_H_OVERFLOW) ((s.head + 1) % 32) r,
          (s.head + 1) % 32, s.tail, ((s.head + 1) % 32 + 1) % 32, s.global_prot_var⟩ := by
  unfold ISR_USART1_RXC errcode_and_framebyte
  simp only [Bool.false_eq_true, if_false, if_true, incr32]
  by_cases c1 : (s.head + 1) % 32 = s.tail
  · simp only [c1, if_true]
    by_cases cF : r ≥ 0xF0
    · simp only [cF, if_true]
    · simp only [cF, if_false]
  · simp only [c1, if_false]
    by_cases cF : r ≥ 0xF0
    · simp only [cF, if_true]
      by_cases c2 : ((s.head + 1) % 32 + 1) % 32 = s.tail
      · simp only [c2, if_true]
      · simp only [c2, if_false]
    · simp only [cF, if_false]

/-- Every step of the interrupt routine from a state that satisfies the
invariant publishes whole units only and keeps the open frame a start byte
followed by body bytes. -/
theorem isr_units (s : RxState) (fe1 dor1 : Bool) (udr1 : Nat) (hs : rx_inv s) :
    step_units s fe1 dor1 udr1 (ISR_USART1_RXC s fe1 dor1 udr1) := by
  cases fe1 with
  | true =>
    rw [isr_fe_eq]
    by_cases c1 : (s.head + 1) % 32 = s.tail
    · rw [if_pos c1]
      exact units_same s hs _ _ _ 0 _ _ (Or.inl zero_and_top)
    · rw [if_neg c1]
      exact units_code s hs _ _ _ _ 0 _ _ (Or.inl rfl) (Or.inl zero_and_top)
  | false =>
    cases dor1 with
    | true =>
      rw [isr_dor_gen]
      by_cases c1 : (s.head + 1) % 32 = s.tail
      · rw [if_pos c1]
        by_cases cF : udr1 ≥ 0xF0
        · rw [if_pos cF]
          exact units_same s hs _ _ _ 0 _ _ (Or.inl zero_and_top)
        · rw [if_neg cF]
          exact units_same s hs _ _ _ _ _ _ (Or.inr rfl)
      · rw [if_neg c1]
        by_cases cF : udr1 ≥ 0xF0
        · rw [if_pos cF]
          by_cases c2 : ((s.head + 1) % 32 + 1) % 32 = s.tail
          · rw [if_pos c2]
            exact units_code s hs _ _ _ _ 0 _ _ (Or.inr (Or.inr rfl)) (Or.inl zero_and_top)
          · rw [if_neg c2]
            exact units_two_codes s hs _ _ _ _ _
        · rw [if_neg cF]
          exact units_code s hs _ _ _ _ _ _ _ (Or.inr (Or.inr rfl)) (Or.inr rfl)
    | false =>
      by_cases c0 : s.buf s.head &&& (1 <<< 7) = 0
      · by_cases cd : udr1 &&& (1 <<< 7) = 0
        · rw [isr_body_discard s udr1 c0 cd]
          exact ⟨Or.inl (published_none _ _ rfl), fun h => h⟩
        · by_cases cF : udr1 ≥ 0xF0
          · rw [isr_start7_discard s udr1 c0 cd cF]
            by_cases c1 : (s.head + 1) % 32 = s.tail
            · rw [if_pos c1]
              exact units_same s hs _ _ _ 0 _ _ (Or.inl zero_and_top)
            · rw [if_neg c1]
              exact units_code s hs _ _ _ _ 0 _ _ (Or.inr (Or.inl rfl)) (Or.inl zero_and_top)
          · rw [isr_start_discard s udr1 c0 cd (by omega)]
            exact units_same s hs _ _ _ _ _ _ (Or.inr rfl)
      · by_cases cd : udr1 &&& (1 <<< 7) = 0
        · by_cases cw : s.write_pos = s.tail
          · by_cases ce : s.head = s.tail
            · rw [isr_body_full_alone s udr1 c0 cd cw ce]
              exact units_code s hs _ _ _ _ 0 _ _ (Or.inl rfl) (Or.inl zero_and_top)
            · rw [isr_body_full s udr1 c0 cd cw ce]
              exact units_same s hs _ _ _ 0 _ _ (Or.inl zero_and_top)
          · rw [isr_body_room s udr1 c0 cd cw]
            exact units_append s hs _ _ udr1 c0 cd
        · by_cases cw : s.write_pos = s.tail
          · by_cases ce : s.head = s.tail
            · rw [isr_start_full_alone s udr1 c0 cd cw ce]
              exact units_code s hs _ _ _ _ _ _ _ (Or.inl rfl) (Or.inr rfl)
            · by_cases cF : udr1 ≥ 0xF0
              · rw [isr_start7_full s udr1 c0 cd cw ce cF]
                by_cases c1 : (s.head + 1) % 32 = s.tail
                · rw [if_pos c1]
                  exact units_same s hs _ _ _ 0 _ _ (Or.inl zero_and_top)
                · rw [if_neg c1]
                  exact units_code s hs _ _ _ _ 0 _ _ (Or.inr (Or.inl rfl))
                    (Or.inl zero_and_top)
              · rw [isr_start_full s udr1 c0 cd cw ce (by omega)]
                exact units_same s hs _ _ _ _ _ _ (Or.inr rfl)
          · by_cases cF : udr1 ≥ 0xF0
            · rw [isr_start7_room s udr1 c0 cd cw cF]
              by_cases c1 : (s.write_pos + 1) % 32 = s.tail
              · rw [if_pos c1]
                exact units_refuse_full s hs _ _ _ _ c0
              · rw [if_neg c1]
                exact units_publish_code s hs udr1 c0 cw c1 cd
            · rw [isr_start_room s udr1 c0 cd cw (by omega)]
              exact units_publish s hs udr1 c0 cw cd

/-- A handler step appends the bytes it publishes to the unread region. -/
theorem region_append (s s2 : RxState) (hh : s.head < 32) (ht : s.tail < 32)
    (h2 : s2.head < 32) (htail : s2.tail = s.tail)
    (hadv : (s.head + 32 - s.tail) % 32 + (s2.head + 32 - s.head) % 32 < 32)
    (keep : ∀ i, i < (s.head + 32 - s.tail) % 32 →
      s2.buf ((s.tail + i) % 32) = s.buf ((s.tail + i) % 32)) :
    region_bytes s2 = region_bytes s ++ published_bytes s s2 := by
  unfold region_bytes published_bytes
  have e : (s2.head + 32 - s2.tail) % 32
      = (s.head + 32 - s.tail) % 32 + (s2.head + 32 - s.head) % 32 := by
    rw [htail]; omega
  rw [e, htail, List.range_add, List.map_append, List.map_map]
  congr 1
  · apply List.map_congr_left
    intro i hi
    exact keep i (List.mem_range.1 hi)
  · apply List.map_congr_left
    intro i hi
    have hi2 := List.mem_range.1 hi
    have e2 : (s.tail + ((s.head + 32 - s.tail) % 32 + i)) % 32 = (s.head + i) % 32 := by omega
    simp only [Function.comp, e2]

/-- In every reachable state the bytes of the open frame behind its start byte
are body bytes. -/
theorem reachable_body_clear (s : RxState) (hr : Reachable s) : open_body_clear s := by
  induction hr with
  | init => exact fun hv => absurd zero_and_top hv
  | isr s fe1 dor1 udr1 hr _ ih => exact (isr_units s fe1 dor1 udr1 (reachable_inv s hr)).2 ih
  | forward s s2 out ret hr hc ih =>
    have hs := reachable_inv s hr
    have h := comm_forward_list s hs.1 hs.2.1
    rw [h] at hc
    have e := (Prod.mk.inj (Option.some.inj hc)).1
    obtain ⟨f1, f2, _, f4⟩ := report_overflow_fields
      { s with tail := (s.tail + (relay_list (region_bytes s)).2.1) % 32 }
    rw [e] at f1 f2 f4
    intro hv i h1 hi
    unfold open_frame_valid at hv
    unfold open_frame_length at hi
    rw [f1, f2] at hv
    rw [f2, f4] at hi
    rw [f1, f2]
    exact ih hv i h1 hi

/-- The open frame of a reachable state is one unit: its start byte followed by
body bytes. -/
theorem open_frame_unit (s : RxState) (hr : Reachable s) (hv : open_frame_valid s) :
    is_unit (open_frame_bytes s) := by
  have hc := reachable_body_clear s hr hv
  have hh := (reachable_inv s hr).1
  refine ⟨s.buf s.head,
    (List.range (open_frame_length s - 1)).map (fun i => s.buf ((s.head + (i + 1)) % 32)),
    ?_, hv, ?_⟩
  · unfold open_frame_bytes
    have e : open_frame_length s = 1 + (open_frame_length s - 1) := by
      unfold open_frame_length; omega
    have e0 : (s.head + 0) % 32 = s.head := by omega
    rw [e, List.range_add, List.map_append, List.map_map]
    simp only [List.range_succ, List.range_zero, List.nil_append, List.map_cons, List.map_nil,
      e0, List.singleton_append, Nat.add_sub_cancel_left]
    congr 1
    apply List.map_congr_left
    intro i _
    simp only [Function.comp, Nat.add_comm 1 i]
  · intro b hb
    obtain ⟨i, hi, rfl⟩ := List.mem_map.1 hb
    have hi2 := List.mem_range.1 hi
    exact hc (i + 1) (by omega) (by omega)

/-- What a step publishes is nothing or begins with a byte whose top bit is
set. -/
theorem published_starts_unit (s : RxState) (fe1 dor1 : Bool) (udr1 : Nat) (s2 : RxState)
    (hu : open_frame_valid s → is_unit (open_frame_bytes s))
    (hp : publishes_whole s fe1 dor1 udr1 s2) :
    published_bytes s s2 = [] ∨
      ∃ S r, published_bytes s s2 = S :: r ∧ S &&& (1 <<< 7) ≠ 0 := by
  rcases hp with h | h | h | h | h | ⟨hv, _, _, _, h | h⟩
  · exact Or.inl h
  · exact Or.inr ⟨_, _, h, codes_top.1⟩
  · exact Or.inr ⟨_, _, h, codes_top.2.1⟩
  · exact Or.inr ⟨_, _, h, codes_top.2.2⟩
  · exact Or.inr ⟨_, _, h, codes_top.2.2⟩
  · obtain ⟨S, body, e, hS, _⟩ := hu hv
    exact Or.inr ⟨S, body, by rw [h, e], hS⟩
  · obtain ⟨S, body, e, hS, _⟩ := hu hv
    exact Or.inr ⟨S, body ++ [RECV_ERR_CHAIN_LONG], by rw [h, e]; rfl, hS⟩

/-- C12: in every reachable state the unread region `[tail, head)` is empty or
begins with a byte whose top bit is set, and it is a sequence of complete
units. Whole units are all that is ever published: a handler step appends to
the region nothing, or error codes, or, when a frame-start byte arrives without
line error, the whole open frame from `head` up to `write_pos` (alone or with
the chain-too-long code behind it); that open frame is one unit, its start byte
followed by body bytes, and what is appended begins with a byte whose top bit is
set, so `head` moves only at a frame boundary and no unit of the region is ever
continued. `comm_forward` returns with `tail` inside the region, and what it
sends, returns and leaves in `tail` and the flag depends on no slot outside
`[tail, head)`: it is the same in every state that agrees on these slots,
whatever the open frame at or beyond `head` holds. -/
theorem C12_unread_region_complete_units (s : RxState) (hr : Reachable s) :
    s.head < 32 ∧ s.tail < 32 ∧
    (s.head ≠ s.tail → s.buf s.tail &&& (1 <<< 7) ≠ 0) ∧
    (∃ units, region_bytes s = List.flatten units ∧ ∀ u ∈ units, is_unit u) ∧
    (∃ s2 out ret, comm_forward s = some (s2, out, ret) ∧
      (s2.tail + 32 - s.tail) % 32 ≤ (s.head + 32 - s.tail) % 32) ∧
    (∀ t : RxState, t.head = s.head → t.tail = s.tail →
      t.global_prot_var = s.global_prot_var →
      (∀ i, i < (s.head + 32 - s.tail) % 32 →
        t.buf ((s.tail + i) % 32) = s.buf ((s.tail + i) % 32)) →
      (comm_forward t).map (fun r => (r.1.tail, r.1.global_prot_var, r.2)) =
        (comm_forward s).map (fun r => (r.1.tail, r.1.global_prot_var, r.2))) ∧
    (open_frame_valid s → is_unit (open_frame_bytes s)) ∧
    (∀ (fe1 dor1 : Bool) (udr1 : Nat),
      region_bytes (ISR_USART1_RXC s fe1 dor1 udr1)
        = region_bytes s ++ published_bytes s (ISR_USART1_RXC s fe1 dor1 udr1) ∧
      publishes_whole s fe1 dor1 udr1 (ISR_USART1_RXC s fe1 dor1 udr1) ∧
      (published_bytes s (ISR_USART1_RXC s fe1 dor1 udr1) = [] ∨
        ∃ S r, published_bytes s (ISR_USART1_RXC s fe1 dor1 udr1) = S :: r ∧
          S &&& (1 <<< 7) ≠ 0)) := by
  have hs := reachable_inv s hr
  have hs2 := hs
  obtain ⟨hh, ht, h3, _⟩ := hs2
  have hc := comm_forward_list s hh ht
  refine ⟨hh, ht, h3, ?_, ⟨_, _, _, hc, (rx_inv_forward s _ _ _ hs hc).2⟩, ?_,
    open_frame_unit s hr, ?_⟩
  · by_cases he : s.head = s.tail
    · exact ⟨[], by rw [(region_bytes_nil s hh ht).2 he]; rfl, by simp⟩
    · obtain ⟨body, units, e1, e2, e3⟩ :=
        units_of_list (region_bytes { s with tail := (s.tail + 1) % 32 })
      refine ⟨(s.buf s.tail :: body) :: units, ?_, ?_⟩
      · rw [region_bytes_cons s hh ht he, e1]; simp
      · intro u hu
        rcases List.mem_cons.1 hu with rfl | hu
        · exact ⟨s.buf s.tail, body, rfl, h3 he, e2⟩
        · exact e3 u hu
  · intro t th tt tg tb
    have hreg : region_bytes t = region_bytes s := by
      unfold region_bytes
      rw [th, tt]
      apply List.map_congr_left
      intro i hi
      exact tb i (List.mem_range.1 hi)
    have hct := comm_forward_list t (by rw [th]; exact hh) (by rw [tt]; exact ht)
    rw [hct, hc, hreg]
    simp only [Option.map_some', report_overflow_gpv, report_overflow_out, report_overflow_ret,
      (report_overflow_fields _).2.2.1, tt, tg]
  · intro fe1 dor1 udr1
    obtain ⟨⟨g1, _, _, _⟩, g2, g3, g4, _⟩ := isr_step s fe1 dor1 udr1 hs
    have hp := (isr_units s fe1 dor1 udr1 hs).1
    exact ⟨region_append s _ hh ht g1 g2 g3 g4, hp,
      published_starts_unit s fe1 dor1 udr1 _ (open_frame_unit s hr) hp⟩

set_option maxRecDepth 100000 in
/-- Witness for C12: the state after receiving the frame `A5 10 00 35` and the
start byte `80`, compared with the same state with another byte stored at
`head`; and the state after receiving `A5 10 00 35` alone, in which the open
frame is one unit and the start byte `80` publishes all four bytes of it. -/
theorem C12_unread_region_complete_units_witness :
    (∃ units, region_bytes (receive_all RxState.init relay_example) = List.flatten units ∧
      ∀ u ∈ units, is_unit u) ∧
    (comm_forward { receive_all RxState.init relay_example with
        buf := buf_set (receive_all RxState.init relay_example).buf 4 0x33 }).map
        (fun r => (r.1.tail, r.1.global_prot_var, r.2)) =
      (comm_forward (receive_all RxState.init relay_example)).map
        (fun r => (r.1.tail, r.1.global_prot_var, r.2)) ∧
    is_unit (open_frame_bytes
      (receive_all RxState.init [rx_ok 0xA5, rx_ok 0x10, rx_ok 0x00, rx_ok 0x35])) ∧
    publishes_whole (receive_all RxState.init [rx_ok 0xA5, rx_ok 0x10, rx_ok 0x00, rx_ok 0x35])
      false false 0x80
      (ISR_USART1_RXC (receive_all RxState.init [rx_ok 0xA5, rx_ok 0x10, rx_ok 0x00, rx_ok 0x35])
        false false 0x80) ∧
    published_bytes (receive_all RxState.init [rx_ok 0xA5, rx_ok 0x10, rx_ok 0x00, rx_ok 0x35])
      (ISR_USART1_RXC (receive_all RxState.init [rx_ok 0xA5, rx_ok 0x10, rx_ok 0x00, rx_ok 0x35])
        false false 0x80) = [0xA5, 0x10, 0x00, 0x35] := by
  have h := C12_unread_region_complete_units (receive_all RxState.init relay_example)
    (reachable_receive_all relay_example _ Reachable.init (by decide))
  have h4 := C12_unread_region_complete_units
    (receive_all RxState.init [rx_ok 0xA5, rx_ok 0x10, rx_ok 0x00, rx_ok 0x35])
    (reachable_receive_all _ _ Reachable.init (by decide))
  exact ⟨h.2.2.2.1,
    h.2.2.2.2.2.1
      { receive_all RxState.init relay_example with
        buf := buf_set (receive_all RxState.init relay_example).buf 4 0x33 }
      rfl rfl rfl (by decide),
    h4.2.2.2.2.2.2.1 (by decide), (h4.2.2.2.2.2.2.2 false false 0x80).2.1, by decide⟩

end DCCMonitor
